import Mathlib

/-! Verification of the `psow` ray-tracing core.

A shallow embedding of `psow_vec3.hpp`, `psow_ray.hpp`, `psow_sphere.hpp`,
`psow_color.hpp`, `color_struct_example.c`, `color_struct_example.cpp`,
`example_ray.cpp`, `example_ray_and_sphere.cpp` and `ray_struct_with_sphere.cpp`.

Modelling conventions.

* The type `double` is a type parameter `K` of the embedded functions.  A
  function assumes of `K` only the operations that its source text uses
  (`0`, `1`, numerals, decimal literals, `+`, `-`, `*`, `/`, unary minus, `<`,
  the conversion to `unsigned char`) and no law about them, and it performs
  them in the order of the source.  The same definition is then read in two
  arithmetics:
  - `binary64`, the IEEE 754 double precision arithmetic (round to nearest,
    ties to even, with subnormal numbers, signed zeros, infinities and NaN,
    every operation rounded on its own), which is what the programs compute;
  - an exact arithmetic, a linearly ordered field such as `ℝ`, which is what
    the formulas of the specification denote.
  A theorem names the arithmetic it is about.
* `std::sqrt` is a function parameter `sqrt : K → K` of every definition whose
  source calls it: `binary64.sqrt` in the first arithmetic, `Real.sqrt` in the
  second.
* `unsigned char` is a natural number below `256`.  `unsigned int` is a natural
  number below `2 ^ w`, where the width `w` is a parameter (the C standard only
  guarantees `16 ≤ w`), and its addition wraps modulo `2 ^ w`.
* A conversion from `double` to `unsigned char` truncates toward zero.  The
  language standards define it only when the truncated value lies in
  `0 .. 255`; see `DoubleToUChar`.
* A `FILE` is the list of the bytes written to it.
-/

/-! ## The arithmetic of `double` -/

/-- The conversion of a `double` to `unsigned char`, written
`static_cast<unsigned char>(x)` or `(unsigned char)x` in the sources.  ISO C
and C++ define it when the value truncated toward zero lies in `0 .. 255`, and
leave it undefined otherwise. -/
class DoubleToUChar (K : Type) where
  /-- The `unsigned char` that the conversion of `x` stores. -/
  double_to_uchar : K → Nat

export DoubleToUChar (double_to_uchar)

/-- Truncation toward zero, the integer part taken by a conversion from
`double` to an integer type, in exact arithmetic. -/
def trunc {K : Type} [LinearOrderedField K] [FloorRing K] (x : K) : Int :=
  if 0 ≤ x then ⌊x⌋ else ⌈x⌉

/-- In exact arithmetic the conversion to `unsigned char` truncates toward
zero; where the standards leave it undefined (a truncated value outside
`0 .. 255`) it keeps the low eight bits, the wrap-around that the comment of
`psow_color_scale` describes ("if the real number is negative, or if the
product goes over 255, we'll end up wrapping around"). -/
instance exact_double_to_uchar {K : Type} [LinearOrderedField K] [FloorRing K] :
    DoubleToUChar K :=
  ⟨fun x => (trunc x % 256).toNat⟩

/-- An IEEE 754 binary64 value, the `double` of the programs: a finite value
`(−1)^sign · m · 2^e`, an infinity or a NaN.  The operations below return the
finite values in normal form: `2^52 ≤ m < 2^53` with `−1074 ≤ e ≤ 971`, or
`m < 2^52` with `e = −1074` (subnormal numbers and the two zeros). -/
inductive binary64 where
  | finite (sign : Bool) (m : Nat) (e : Int)
  | inf (sign : Bool)
  | nan
  deriving DecidableEq

namespace binary64

/-- The number of halvings that bring `n` below `2`, with `fuel` steps
allowed. -/
def log2_aux : Nat → Nat → Nat
  | 0, _ => 0
  | fuel + 1, n => if n < 2 then 0 else log2_aux fuel (n / 2) + 1

/-- The position of the leading bit of `n`: `⌊log₂ n⌋` for `n > 0`. -/
def log2 (n : Nat) : Nat := log2_aux n n

/-- Rounding to nearest, ties to even: the binary64 value nearest to
`(−1)^s · M · 2^E`.  A result beyond the largest finite value is an infinity;
a result below the normal range is rounded on the subnormal grid `2^−1074`. -/
def round (s : Bool) (M : Nat) (E : Int) : binary64 :=
  if M = 0 then finite s 0 (-1074) else
  let k : Int := (log2 M : Int)
  let e : Int := max (E + k - 52) (-1074)
  if e ≤ E then
    if e > 971 then inf s else finite s (M <<< (E - e).toNat) e
  else
    let sh := (e - E).toNat
    let q := M >>> sh
    let rem := M - (q <<< sh)
    let half := 1 <<< (sh - 1)
    let q1 := if rem > half ∨ (rem = half ∧ q % 2 = 1) then q + 1 else q
    if q1 = 2 ^ 53 then
      if e + 1 > 971 then inf s else finite s (2 ^ 52) (e + 1)
    else if e > 971 then inf s
    else finite s q1 e

/-- The binary64 value nearest to `(−1)^s · (a / b) · 2^E`, for `b > 0`: the
quotient is taken with 64 bits more than `b` has and a sticky last bit, which
rounds as the exact quotient does. -/
def round_quot (s : Bool) (a b : Nat) (E : Int) : binary64 :=
  let N := log2 b + 64
  let n := a <<< N
  let q := n / b
  let r := n % b
  round s (2 * q + (if r = 0 then 0 else 1)) (E - (N : Int) - 1)

/-- Unary minus: the sign is flipped. -/
def neg : binary64 → binary64
  | finite s m e => finite (!s) m e
  | inf s => inf (!s)
  | nan => nan

/-- The integer `(−1)^s · m · 2^(e − E)`, for `E ≤ e`. -/
def scaled (s : Bool) (m : Nat) (e E : Int) : Int :=
  if s then -((m <<< (e - E).toNat : Nat) : Int) else ((m <<< (e - E).toNat : Nat) : Int)

/-- Addition: the exact sum, rounded.  `∞ + (−∞)` is a NaN; an exact sum zero
is `+0` unless both operands are `−0`. -/
def add : binary64 → binary64 → binary64
  | nan, _ => nan
  | _, nan => nan
  | inf s, inf t => if s = t then inf s else nan
  | inf s, finite _ _ _ => inf s
  | finite _ _ _, inf t => inf t
  | finite s1 m1 e1, finite s2 m2 e2 =>
    let E := min e1 e2
    let c := scaled s1 m1 e1 E + scaled s2 m2 e2 E
    if c = 0 then finite (s1 && s2) 0 (-1074)
    else round (decide (c < 0)) c.natAbs E

/-- Subtraction: the exact difference, rounded. -/
def sub (a b : binary64) : binary64 := add a (neg b)

/-- Multiplication: the exact product, rounded.  `0 · ∞` is a NaN. -/
def mul : binary64 → binary64 → binary64
  | nan, _ => nan
  | _, nan => nan
  | inf s, inf t => inf (xor s t)
  | inf s, finite t m _ => if m = 0 then nan else inf (xor s t)
  | finite s m _, inf t => if m = 0 then nan else inf (xor s t)
  | finite s1 m1 e1, finite s2 m2 e2 => round (xor s1 s2) (m1 * m2) (e1 + e2)

/-- Division: the exact quotient, rounded.  `0 / 0` and `∞ / ∞` are NaN, and
`x / 0` is an infinity for `x ≠ 0`. -/
def div : binary64 → binary64 → binary64
  | nan, _ => nan
  | _, nan => nan
  | inf _, inf _ => nan
  | inf s, finite t _ _ => inf (xor s t)
  | finite s _ _, inf t => finite (xor s t) 0 (-1074)
  | finite s1 m1 e1, finite s2 m2 e2 =>
    if m2 = 0 then
      if m1 = 0 then nan else inf (xor s1 s2)
    else round_quot (xor s1 s2) m1 m2 (e1 - e2)

/-- The integer square root by bisection on the bits `i − 1, …, 0`. -/
def isqrt_aux : Nat → Nat → Nat → Nat
  | 0, _, r => r
  | i + 1, n, r =>
    let c := r + (1 <<< i)
    if c * c ≤ n then isqrt_aux i n c else isqrt_aux i n r

/-- The integer square root `⌊√n⌋`. -/
def isqrt (n : Nat) : Nat := isqrt_aux (log2 n / 2 + 1) n 0

/-- Function `std::sqrt`: the exact square root, rounded.  The square root of
a negative value is a NaN, that of `−0` is `−0`. -/
def sqrt : binary64 → binary64
  | nan => nan
  | inf s => if s then nan else inf false
  | finite s m e =>
    if m = 0 then finite s 0 (-1074)
    else if s then nan
    else
      let N : Nat := if (e - 110) % 2 = 0 then 110 else 111
      let n := m <<< N
      let r := isqrt n
      round false (2 * r + (if r * r = n then 0 else 1)) ((e - (N : Int)) / 2 - 1)

/-- The comparison `a < b`: false when an operand is a NaN; the two zeros are
equal. -/
def ltb : binary64 → binary64 → Bool
  | nan, _ => false
  | _, nan => false
  | inf s, inf t => s && !t
  | inf s, finite _ _ _ => s
  | finite _ _ _, inf t => !t
  | finite s1 m1 e1, finite s2 m2 e2 =>
    let E := min e1 e2
    decide (scaled s1 m1 e1 E < scaled s2 m2 e2 E)

/-- The comparison `a <= b`: false when an operand is a NaN. -/
def leb : binary64 → binary64 → Bool
  | nan, _ => false
  | _, nan => false
  | inf s, inf t => s || !t
  | inf s, finite _ _ _ => s
  | finite _ _ _, inf t => !t
  | finite s1 m1 e1, finite s2 m2 e2 =>
    let E := min e1 e2
    decide (scaled s1 m1 e1 E ≤ scaled s2 m2 e2 E)

/-- The conversion of an unsigned integer to `double`, rounded. -/
def ofNat (n : Nat) : binary64 := round false n 0

/-- A decimal literal `m · 10^(−e)` (`s` true) or `m · 10^e` (`s` false) of the
source text, rounded. -/
def ofScientific (m : Nat) (s : Bool) (e : Nat) : binary64 :=
  if s then
    if m = 0 then finite false 0 (-1074) else round_quot false m (10 ^ e) 0
  else round false (m * 10 ^ e) 0

/-- The conversion to `unsigned char`: the value truncated toward zero when
that lies in `0 .. 255`.  Outside this range, where the standards leave the
conversion undefined, the value is the one of the x86-64 instruction sequence
that compilers emit without optimisation (`cvttsd2si` to a 32-bit integer,
then its low byte): the low eight bits of the truncated value when that fits
a 32-bit `int`, and `0` otherwise, also for an infinity or a NaN. -/
def to_uchar : binary64 → Nat
  | nan => 0
  | inf _ => 0
  | finite s m e =>
    let t : Nat := if 0 ≤ e then m <<< e.toNat else m >>> (-e).toNat
    if t < 2 ^ 31 then
      if s then ((-(t : Int)) % 256).toNat else t % 256
    else 0

/-- The rational number that a finite value denotes (and `0` for an infinity
or a NaN). -/
def toRat : binary64 → ℚ
  | finite s m e =>
    let q : ℚ :=
      if 0 ≤ e then ((m * 2 ^ e.toNat : Nat) : ℚ) else (m : ℚ) / ((2 ^ (-e).toNat : Nat) : ℚ)
    if s then -q else q
  | inf _ => 0
  | nan => 0

/-- The value is neither an infinity nor a NaN. -/
def isFinite : binary64 → Bool
  | finite _ _ _ => true
  | inf _ => false
  | nan => false

/-- The value is a zero, `+0` or `−0`. -/
def isZero : binary64 → Bool
  | finite _ m _ => decide (m = 0)
  | inf _ => false
  | nan => false

/-- The value is a zero or a NaN: the values that no comparison finds above
zero and that products and sums with one another do not leave. -/
def isZeroOrNaN : binary64 → Bool
  | finite _ m _ => decide (m = 0)
  | inf _ => false
  | nan => true

instance : Add binary64 := ⟨add⟩

instance : Sub binary64 := ⟨sub⟩

instance : Mul binary64 := ⟨mul⟩

instance : Div binary64 := ⟨div⟩

instance : Neg binary64 := ⟨neg⟩

instance : Zero binary64 := ⟨finite false 0 (-1074)⟩

instance : One binary64 := ⟨ofNat 1⟩

instance : NatCast binary64 := ⟨ofNat⟩

instance : OfScientific binary64 := ⟨ofScientific⟩

instance : LT binary64 := ⟨fun a b => ltb a b = true⟩

instance : LE binary64 := ⟨fun a b => leb a b = true⟩

instance (a b : binary64) : Decidable (a < b) :=
  inferInstanceAs (Decidable (ltb a b = true))

instance (a b : binary64) : Decidable (a ≤ b) :=
  inferInstanceAs (Decidable (leb a b = true))

instance : DoubleToUChar binary64 := ⟨to_uchar⟩

end binary64

/-! ## `psow_vec3.hpp`, `psow_ray.hpp`, `psow_sphere.hpp` -/

namespace psow

/-- Struct `psow::vec3`: the Euclidean components of a vector. -/
structure vec3 (K : Type) where
  x : K
  y : K
  z : K
  deriving DecidableEq

/-- Struct `psow::ray`: the points `p + t v`. -/
structure ray (K : Type) where
  p : vec3 K
  v : vec3 K
  deriving DecidableEq

/-- Struct `psow::sphere`: a radius and a center. -/
structure sphere (K : Type) where
  radius : K
  center : vec3 K

variable {K : Type}

/-- Vector addition, `operator + (P, Q)`. -/
def vec3.add [Add K] (P Q : vec3 K) : vec3 K :=
  vec3.mk (P.x + Q.x) (P.y + Q.y) (P.z + Q.z)

/-- Vector subtraction, `operator - (P, Q)`. -/
def vec3.sub [Sub K] (P Q : vec3 K) : vec3 K :=
  vec3.mk (P.x - Q.x) (P.y - Q.y) (P.z - Q.z)

/-- Scalar multiplication on the right, `operator * (P, a)`. -/
def vec3.smul [Mul K] (P : vec3 K) (a : K) : vec3 K :=
  vec3.mk (a * P.x) (a * P.y) (a * P.z)

/-- Method `vec3::normsq`: the square of the Euclidean norm. -/
def vec3.normsq [Add K] [Mul K] (self : vec3 K) : K :=
  self.x * self.x + self.y * self.y + self.z * self.z

/-- Method `vec3::norm`: `std::sqrt (x*x + y*y + z*z)`. -/
def vec3.norm [Add K] [Mul K] (sqrt : K → K) (self : vec3 K) : K :=
  sqrt (self.x * self.x + self.y * self.y + self.z * self.z)

/-- Method `vec3::dot`: `P.x*x + P.y*y + P.z*z`. -/
def vec3.dot [Add K] [Mul K] (self P : vec3 K) : K :=
  P.x * self.x + P.y * self.y + P.z * self.z

/-- Method `ray::point`: the point `p + v*t`. -/
def ray.point [Add K] [Mul K] (self : ray K) (t : K) : vec3 K :=
  self.p.add (self.v.smul t)

/-- The local `oc = r.p - center` of `sphere::intersects_ray`. -/
def sphere.oc [Sub K] (self : sphere K) (r : ray K) : vec3 K :=
  r.p.sub self.center

/-- The local `a = r.v.normsq()` of `sphere::intersects_ray`. -/
def sphere.coef_a [Add K] [Mul K] (_self : sphere K) (r : ray K) : K :=
  r.v.normsq

/-- The local `b = 2.0 * r.v.dot(oc)` of `sphere::intersects_ray`. -/
def sphere.coef_b [NatCast K] [Add K] [Sub K] [Mul K] (self : sphere K) (r : ray K) : K :=
  2 * r.v.dot (self.oc r)

/-- The local `c = oc.normsq() - radius*radius` of `sphere::intersects_ray`. -/
def sphere.coef_c [Add K] [Sub K] [Mul K] (self : sphere K) (r : ray K) : K :=
  (self.oc r).normsq - self.radius * self.radius

/-- The local `D = b*b - 4.0*a*c` of `sphere::intersects_ray`. -/
def sphere.discr [NatCast K] [Add K] [Sub K] [Mul K] (self : sphere K) (r : ray K) : K :=
  self.coef_b r * self.coef_b r - 4 * self.coef_a r * self.coef_c r

/-- Method `psow::sphere::intersects_ray` of `psow_sphere.hpp`. -/
def sphere.intersects_ray [Zero K] [NatCast K] [Add K] [Sub K] [Mul K] [LT K]
    [∀ a b : K, Decidable (a < b)] (sqrt : K → K) (self : sphere K) (r : ray K) : Bool :=
  let oc := r.p.sub self.center
  let a := r.v.normsq
  let b := 2 * r.v.dot oc
  let c := oc.normsq - self.radius * self.radius
  let D := b * b - 4 * a * c
  if D > 0 then
    let sqrt_D := sqrt D
    if sqrt_D - b > 0 then
      true
    else
      false
  else
    false

end psow

/-! ## `ray_struct_with_sphere.cpp` -/

/-- Struct `sphere` of `ray_struct_with_sphere.cpp`. -/
structure sphere (K : Type) where
  radius : K
  center : psow.vec3 K

/-- Function `sphere_is_hit` of `ray_struct_with_sphere.cpp`. -/
def sphere_is_hit {K : Type} [Zero K] [NatCast K] [Add K] [Sub K] [Mul K] [Neg K] [LT K]
    [∀ a b : K, Decidable (a < b)] (sqrt : K → K) (r : psow.ray K) (s : sphere K) : Bool :=
  let oc := r.p.sub s.center
  let a := r.v.normsq
  let b := 2 * r.v.dot oc
  let c := oc.normsq - s.radius * s.radius
  let D := b * b - 4 * a * c
  if D > 0 then
    if a * (-b + sqrt D) > 0 then
      true
    else
      false
  else
    false

/-- The smaller root `(−b − √D)/(2a)` of `a t² + b t + c = 0`, as the
specification words it ("the nearer root"). -/
def nearer_root {K : Type} [NatCast K] [Sub K] [Mul K] [Div K] [Neg K] (sqrt : K → K)
    (a b D : K) : K :=
  (-b - sqrt D) / (2 * a)

/-- The larger root `(−b + √D)/(2a)` of `a t² + b t + c = 0`. -/
def farther_root {K : Type} [NatCast K] [Add K] [Mul K] [Div K] [Neg K] (sqrt : K → K)
    (a b D : K) : K :=
  (-b + sqrt D) / (2 * a)

/-! ## `psow_color.hpp` and `color_struct_example.c` -/

/-- Conversion to `unsigned int` (`static_cast<unsigned int>`, `(unsigned int)`)
for an `unsigned int` of `w` bits. -/
def to_uint (w x : Nat) : Nat := x % 2 ^ w

/-- Addition of two `unsigned int` values of `w` bits: it wraps modulo `2 ^ w`. -/
def uint_add (w a b : Nat) : Nat := (a + b) % 2 ^ w

/-- Conversion to `unsigned char` (`static_cast<unsigned char>`,
`(unsigned char)`): the low eight bits. -/
def to_uchar (x : Nat) : Nat := x % 256

namespace psow

/-- Struct `psow::color`: the amounts of red, green and blue, each an
`unsigned char`. -/
structure color where
  red : Nat
  green : Nat
  blue : Nat
  deriving DecidableEq

/-- Every channel of the color fits an `unsigned char`. -/
def color.wf (c : color) : Prop :=
  c.red < 256 ∧ c.green < 256 ∧ c.blue < 256

instance (c : color) : Decidable c.wf := by
  unfold color.wf
  infer_instance

/-- Method `psow::color::operator +` of `psow_color.hpp`, for an `unsigned int`
of `w` bits; `self` is the left operand and `r` the right one. -/
def color.add (w : Nat) (self r : color) : color :=
  let x := uint_add w (to_uint w r.red) (to_uint w self.red)
  let y := uint_add w (to_uint w r.green) (to_uint w self.green)
  let z := uint_add w (to_uint w r.blue) (to_uint w self.blue)
  let out_red := if x ≥ 255 then 255 else to_uchar x
  let out_green := if y ≥ 255 then 255 else to_uchar y
  let out_blue := if z ≥ 255 then 255 else to_uchar z
  color.mk out_red out_green out_blue

end psow

/-- Struct `psow_color` of `color_struct_example.c`. -/
structure psow_color where
  red : Nat
  green : Nat
  blue : Nat
  deriving DecidableEq

/-- Function `psow_color_create` of `color_struct_example.c`; the arguments are
`unsigned char` values. -/
def psow_color_create (r g b : Nat) : psow_color :=
  psow_color.mk r g b

/-- Function `psow_color_add` of `color_struct_example.c`, for an `unsigned int`
of `w` bits. -/
def psow_color_add (w : Nat) (C1 C2 : psow_color) : psow_color :=
  let x := uint_add w (to_uint w C1.red) (to_uint w C2.red)
  let y := uint_add w (to_uint w C1.green) (to_uint w C2.green)
  let z := uint_add w (to_uint w C1.blue) (to_uint w C2.blue)
  psow_color.mk (if x ≥ 255 then 255 else to_uchar x)
    (if y ≥ 255 then 255 else to_uchar y)
    (if z ≥ 255 then 255 else to_uchar z)

/-! ## Scaling of colors: `psow_color.hpp` and `color_struct_example.c` -/

namespace psow

/-- Method `psow::color::operator *` of `psow_color.hpp`: scaling a color by a
real number. -/
def color.scale {K : Type} [NatCast K] [Mul K] [DoubleToUChar K]
    (self : color) (a : K) : color :=
  let r := double_to_uchar (a * (self.red : K))
  let g := double_to_uchar (a * (self.green : K))
  let b := double_to_uchar (a * (self.blue : K))
  color.mk r g b

end psow

/-- Function `psow_color_scale` of `color_struct_example.c`. -/
def psow_color_scale {K : Type} [NatCast K] [Mul K] [DoubleToUChar K]
    (C : psow_color) (a : K) : psow_color :=
  psow_color.mk (double_to_uchar (a * (C.red : K)))
    (double_to_uchar (a * (C.green : K)))
    (double_to_uchar (a * (C.blue : K)))

/-! ## More of `psow_vec3.hpp`, and `psow::color::write` -/

/-- A `FILE` opened for writing, as the bytes written to it so far. -/
abbrev FILE := List Nat

/-- Function `fputc` of `stdio.h`: appends one byte; the argument is an
`unsigned char` value. -/
def fputc (c : Nat) (fp : FILE) : FILE := fp ++ [c]

/-- The conversion `%u` of `fprintf`: the decimal digits of an `unsigned int`,
as ASCII bytes. -/
def print_unsigned (n : Nat) : List Nat := (Nat.toDigits 10 n).map Char.toNat

/-- The call `std::fprintf(fp, "P6\n%u %u\n255\n", image_width, image_height)`:
the bytes `P6\n`, the width, a space, the height and `\n255\n`. -/
def fprintf_header (fp : FILE) (image_width image_height : Nat) : FILE :=
  fp ++ [80, 54, 10] ++ print_unsigned image_width ++ [32]
    ++ print_unsigned image_height ++ [10, 50, 53, 53, 10]

namespace psow

variable {K : Type}

/-- Scalar multiplication on the left, `operator * (a, P)`. -/
def vec3.lsmul [Mul K] (a : K) (P : vec3 K) : vec3 K :=
  vec3.mk (a * P.x) (a * P.y) (a * P.z)

/-- Scalar division on the right, `operator / (P, a)`. -/
def vec3.div [One K] [Mul K] [Div K] (P : vec3 K) (a : K) : vec3 K :=
  let rcpr_a := 1 / a
  vec3.mk (rcpr_a * P.x) (rcpr_a * P.y) (rcpr_a * P.z)

/-- Method `vec3::unit`: `*this / (*this).norm()`. -/
def vec3.unit [One K] [Add K] [Mul K] [Div K] (sqrt : K → K) (self : vec3 K) : vec3 K :=
  self.div (self.norm sqrt)

/-- Method `psow::color::write`: three calls of `fputc`, for the red, the green
and the blue channel. -/
def color.write (self : color) (fp : FILE) : FILE :=
  fputc self.blue (fputc self.green (fputc self.red fp))

end psow

/-! ## The example programs: `example_ray.cpp`, `example_ray_and_sphere.cpp`,
`ray_struct_with_sphere.cpp`

The three `main` functions fix `image_width = 1920` and derive `image_height`;
here both are parameters of the embedding.  Both are at least `1` in every use,
so that the `unsigned int` expressions `image_width - 1U`, `++n` and `--m` do
not wrap. -/

section programs

variable {K : Type}

/-- Constant `aspect_ratio = 16.0 / 9.0` of `main`. -/
def aspect_ratio [NatCast K] [Div K] : K := 16 / 9

/-- Constant `viewport_height = 2.0` of `main`. -/
def viewport_height [NatCast K] : K := 2

/-- Constant `viewport_width = viewport_height * aspect_ratio` of `main`. -/
def viewport_width [NatCast K] [Mul K] [Div K] : K := viewport_height * aspect_ratio

/-- Constant `focal_length = 1.0` of `main`. -/
def focal_length [One K] : K := 1

/-- Constant `origin = psow::vec3(0.0, 0.0, 0.0)` of `main`. -/
def origin [Zero K] : psow.vec3 K := psow.vec3.mk 0 0 0

/-- Constant `horizontal = psow::vec3(viewport_width, 0.0, 0.0)` of `main`. -/
def horizontal [Zero K] [NatCast K] [Mul K] [Div K] : psow.vec3 K :=
  psow.vec3.mk viewport_width 0 0

/-- Constant `vertical = psow::vec3(0.0, viewport_height, 0.0)` of `main`. -/
def vertical [Zero K] [NatCast K] : psow.vec3 K := psow.vec3.mk 0 viewport_height 0

/-- Constant `focal_point = psow::vec3(0.0, 0.0, focal_length)` of `main`. -/
def focal_point [Zero K] [One K] : psow.vec3 K := psow.vec3.mk 0 0 focal_length

/-- Constant `red = psow::color(255U, 0U, 0U)` of `main`. -/
def red : psow.color := psow.color.mk 255 0 0

/-- The value `static_cast<unsigned int>(static_cast<double>(image_width) /
aspect_ratio)` of `image_height` in `main`. -/
def image_height (K : Type) [LinearOrderedField K] [FloorRing K] (image_width : Nat) : Nat :=
  (trunc ((image_width : K) / aspect_ratio)).toNat

/-- Local `width_factor = 1.0 / static_cast<double>(image_width - 1U)`. -/
def width_factor [One K] [NatCast K] [Div K] (image_width : Nat) : K :=
  1 / ((image_width - 1 : Nat) : K)

/-- Local `height_factor = 1.0 / static_cast<double>(image_height - 1U)`. -/
def height_factor [One K] [NatCast K] [Div K] (image_height : Nat) : K :=
  1 / ((image_height - 1 : Nat) : K)

/-- Local `u = n * width_factor` of the inner loop. -/
def coord_u [One K] [NatCast K] [Mul K] [Div K] (image_width n : Nat) : K :=
  (n : K) * width_factor image_width

/-- Local `v = m * height_factor` of the outer loop. -/
def coord_v [One K] [NatCast K] [Mul K] [Div K] (image_height m : Nat) : K :=
  (m : K) * height_factor image_height

/-- Function `sky_gradient`, the same in the three programs, for an
`unsigned int` of `w` bits. -/
def sky_gradient [One K] [NatCast K] [OfScientific K] [Add K] [Sub K] [Mul K] [Div K]
    [DoubleToUChar K] (w : Nat) (sqrt : K → K) (r : psow.ray K) : psow.color :=
  let v := r.v.unit sqrt
  let t := 0.5 * (v.y + 1)
  let sky_blue := psow.color.mk 128 180 255
  let white := psow.color.mk 255 255 255
  ((white.scale (1 - t)).add w (sky_blue.scale t)).scale (2 : K)

/-- The inner loop `for (n = 0U; n < image_width; ++n)`, entered with the
counter at `n`. -/
def for_columns (image_width : Nat) (body : Nat → FILE → FILE) (n : Nat) (fp : FILE) : FILE :=
  if n < image_width then
    for_columns image_width body (n + 1) (body n fp)
  else
    fp
  termination_by image_width - n

/-- The outer loop `for (m = image_height; m > 0; --m)`, entered with the
counter at its first argument. -/
def for_rows (body : Nat → FILE → FILE) : Nat → FILE → FILE
  | 0, fp => fp
  | m + 1, fp => for_rows body m (body (m + 1) fp)

end programs

namespace example_ray

variable {K : Type} [Zero K] [One K] [NatCast K] [OfScientific K] [Add K] [Sub K] [Mul K] [Div K]

/-- Local `lower_left_corner = origin - (horizontal*0.5) - (vertical*0.5) -
focal_point` of `main` in `example_ray.cpp`, as a function of its operands. -/
def lower_left_corner (origin horizontal vertical focal_point : psow.vec3 K) : psow.vec3 K :=
  ((origin.sub (horizontal.smul 0.5)).sub (vertical.smul 0.5)).sub focal_point

/-- Local `direction = horizontal*u + vertical*v + lower_left_corner - origin`
of the loop body. -/
def direction (image_width image_height m n : Nat) : psow.vec3 K :=
  let v := coord_v image_height m
  let u := coord_u image_width n
  (((horizontal.smul u).add (vertical.smul v)).add
    (lower_left_corner origin horizontal vertical focal_point)).sub origin

/-- The color that the loop body computes for row `m` and column `n`. -/
def pixel [DoubleToUChar K] (w : Nat) (sqrt : K → K) (image_width image_height m n : Nat) :
    psow.color :=
  let r := psow.ray.mk origin (direction image_width image_height m n)
  sky_gradient w sqrt r

/-- Function `main` of `example_ray.cpp`: the returned status and the bytes
written to the file, given what `std::fopen` returned. -/
def main [DoubleToUChar K] (w : Nat) (sqrt : K → K) (image_width image_height : Nat)
    (fopen : Option FILE) : Int × FILE :=
  match fopen with
  | none => (-1, [])
  | some fp =>
    let fp := fprintf_header fp image_width image_height
    (0, for_rows (fun m fp => for_columns image_width
      (fun n fp => (pixel w sqrt image_width image_height m n).write fp) 0 fp)
      image_height fp)

end example_ray

namespace example_ray_and_sphere

variable {K : Type} [Zero K] [One K] [NatCast K] [OfScientific K] [Add K] [Sub K] [Mul K] [Div K]
  [Neg K]

/-- Constant `s = psow::sphere(0.5, psow::vec3(0, 0, -1))` of `main`. -/
def s : psow.sphere K := psow.sphere.mk 0.5 (psow.vec3.mk 0 0 (-1))

/-- Local `lower_left_corner = origin - 0.5*(horizontal + vertical) -
focal_point` of `main` in `example_ray_and_sphere.cpp`, as a function of its
operands. -/
def lower_left_corner (origin horizontal vertical focal_point : psow.vec3 K) : psow.vec3 K :=
  (origin.sub (psow.vec3.lsmul 0.5 (horizontal.add vertical))).sub focal_point

/-- Local `direction = horizontal*u + vertical*v + lower_left_corner - origin`
of the loop body. -/
def direction (image_width image_height m n : Nat) : psow.vec3 K :=
  let v := coord_v image_height m
  let u := coord_u image_width n
  (((horizontal.smul u).add (vertical.smul v)).add
    (lower_left_corner origin horizontal vertical focal_point)).sub origin

/-- The color that the loop body computes for row `m` and column `n`: `red`
when the sphere is hit, the sky gradient otherwise. -/
def pixel [LT K] [∀ a b : K, Decidable (a < b)] [DoubleToUChar K] (w : Nat) (sqrt : K → K)
    (image_width image_height m n : Nat) : psow.color :=
  let r := psow.ray.mk origin (direction image_width image_height m n)
  if s.intersects_ray sqrt r then
    red
  else
    sky_gradient w sqrt r

/-- Function `main` of `example_ray_and_sphere.cpp`: the returned status and the
bytes written to the file, given what `std::fopen` returned. -/
def main [LT K] [∀ a b : K, Decidable (a < b)] [DoubleToUChar K] (w : Nat) (sqrt : K → K)
    (image_width image_height : Nat) (fopen : Option FILE) : Int × FILE :=
  match fopen with
  | none => (-1, [])
  | some fp =>
    let fp := fprintf_header fp image_width image_height
    (0, for_rows (fun m fp => for_columns image_width
      (fun n fp => (pixel w sqrt image_width image_height m n).write fp) 0 fp)
      image_height fp)

end example_ray_and_sphere

namespace ray_struct_with_sphere

variable {K : Type} [Zero K] [One K] [NatCast K] [OfScientific K] [Add K] [Sub K] [Mul K] [Div K]
  [Neg K]

/-- Constant `s = sphere(0.5, psow::vec3(0, 0, -1))` of `main`. -/
def s : sphere K := sphere.mk 0.5 (psow.vec3.mk 0 0 (-1))

/-- Local `lower_left_corner = origin - (horizontal*0.5) - (vertical*0.5) -
psow::vec3(0.0, 0.0, focal_length)` of `main` in `ray_struct_with_sphere.cpp`,
as a function of its operands. -/
def lower_left_corner (origin horizontal vertical : psow.vec3 K) (focal_length : K) :
    psow.vec3 K :=
  ((origin.sub (horizontal.smul 0.5)).sub (vertical.smul 0.5)).sub
    (psow.vec3.mk 0 0 focal_length)

/-- Local `direction = lower_left_corner + horizontal*u + vertical*v - origin`
of the loop body. -/
def direction (image_width image_height m n : Nat) : psow.vec3 K :=
  let u := coord_u image_width n
  let v := coord_v image_height m
  (((lower_left_corner origin horizontal vertical focal_length).add
    (horizontal.smul u)).add (vertical.smul v)).sub origin

/-- The color that the loop body computes for row `m` and column `n`: `red`
when the sphere is hit, the sky gradient otherwise. -/
def pixel [LT K] [∀ a b : K, Decidable (a < b)] [DoubleToUChar K] (w : Nat) (sqrt : K → K)
    (image_width image_height m n : Nat) : psow.color :=
  let r := psow.ray.mk origin (direction image_width image_height m n)
  if sphere_is_hit sqrt r s then
    red
  else
    sky_gradient w sqrt r

/-- Function `main` of `ray_struct_with_sphere.cpp`: the returned status and the
bytes written to the file, given what `std::fopen` returned. -/
def main [LT K] [∀ a b : K, Decidable (a < b)] [DoubleToUChar K] (w : Nat) (sqrt : K → K)
    (image_width image_height : Nat) (fopen : Option FILE) : Int × FILE :=
  match fopen with
  | none => (-1, [])
  | some fp =>
    let fp := fprintf_header fp image_width image_height
    (0, for_rows (fun m fp => for_columns image_width
      (fun n fp => (pixel w sqrt image_width image_height m n).write fp) 0 fp)
      image_height fp)

end ray_struct_with_sphere

/-! ## The pixel stream, as the specification words it -/

/-- The three bytes of a pixel, red then green then blue. -/
def psow.color.bytes (c : psow.color) : List Nat := [c.red, c.green, c.blue]

/-- The pixels of a `W × H` image in the stated order: the `k`-th one, counting
from `0`, is the one computed for row `m = H − k / W` and column `n = k % W`. -/
def pixels_in_order (px : Nat → Nat → psow.color) (W H : Nat) : List psow.color :=
  (List.range (W * H)).map (fun k => px (H - k / W) (k % W))

/-! ## The rest of `psow_vec3.hpp` and `psow_ray.hpp`, and `psow_color_write` -/

namespace psow

variable {K : Type}

/-- Vector negation, `operator - (P)`. -/
def vec3.neg [Neg K] (P : vec3 K) : vec3 K :=
  vec3.mk (-P.x) (-P.y) (-P.z)

/-- Method `vec3::cross`: `(y*P.z - z*P.y, z*P.x - x*P.z, x*P.y - y*P.x)`. -/
def vec3.cross [Sub K] [Mul K] (self P : vec3 K) : vec3 K :=
  vec3.mk (self.y * P.z - self.z * P.y) (self.z * P.x - self.x * P.z)
    (self.x * P.y - self.y * P.x)

/-- Compound operator `P += Q`: the three components of `P` are updated one
after the other; the result is the new `P` together with the operand `Q`. -/
def vec3.add_assign [Add K] (P Q : vec3 K) : vec3 K × vec3 K :=
  let P := vec3.mk (P.x + Q.x) P.y P.z
  let P := vec3.mk P.x (P.y + Q.y) P.z
  let P := vec3.mk P.x P.y (P.z + Q.z)
  (P, Q)

/-- Compound operator `P -= Q`; the result is the new `P` together with the
operand `Q`. -/
def vec3.sub_assign [Sub K] (P Q : vec3 K) : vec3 K × vec3 K :=
  let P := vec3.mk (P.x - Q.x) P.y P.z
  let P := vec3.mk P.x (P.y - Q.y) P.z
  let P := vec3.mk P.x P.y (P.z - Q.z)
  (P, Q)

/-- Compound operator `P *= t`: each component is multiplied by `t` on the
right. -/
def vec3.mul_assign [Mul K] (P : vec3 K) (t : K) : vec3 K :=
  let P := vec3.mk (P.x * t) P.y P.z
  let P := vec3.mk P.x (P.y * t) P.z
  let P := vec3.mk P.x P.y (P.z * t)
  P

/-- Compound operator `P /= t`: each component is multiplied by
`rcpr_t = 1.0 / t` on the right. -/
def vec3.div_assign [One K] [Mul K] [Div K] (P : vec3 K) (t : K) : vec3 K :=
  let rcpr_t := 1 / t
  let P := vec3.mk (P.x * rcpr_t) P.y P.z
  let P := vec3.mk P.x (P.y * rcpr_t) P.z
  let P := vec3.mk P.x P.y (P.z * rcpr_t)
  P

/-- Method `ray::from_points`, called on the ray `self`: `psow::ray(A, B-A)`. -/
def ray.from_points [Sub K] (_self : ray K) (A B : vec3 K) : ray K :=
  ray.mk A (B.sub A)

end psow

/-- Function `psow_color_write` of `color_struct_example.c`: three calls of
`fputc`, for the red, the green and the blue channel. -/
def psow_color_write (C : psow_color) (fp : FILE) : FILE :=
  fputc C.blue (fputc C.green (fputc C.red fp))

/-- Local `t = 0.5 * (v.y + 1.0)` of `sky_gradient`, with `v = (r.v).unit()`. -/
def sky_gradient_t {K : Type} [One K] [OfScientific K] [Add K] [Mul K] [Div K] (sqrt : K → K)
    (r : psow.ray K) : K :=
  let v := r.v.unit sqrt
  0.5 * (v.y + 1)

/-- Method `psow::color::write` as a transformer of the whole state it can
reach, the object `*this` and the file: the body calls `fputc` three times and
assigns no field. -/
def psow.color.write_state (self : psow.color) (fp : FILE) : psow.color × FILE :=
  let fp := fputc self.red fp
  let fp := fputc self.green fp
  let fp := fputc self.blue fp
  (self, fp)

/-! ## The colour demos: `color_struct_example.c` and `color_struct_example.cpp`

Both programs loop `for (y = 0U; y < size; ++y)` and, inside,
`for (x = 0U; x < size; ++x)`; these loops have the shape of `for_columns`. -/

namespace color_struct_example_c

/-- Local `size = 1024U` of `main`. -/
def size : Nat := 1024

/-- Local `factor = 255.0 / (double)(size - 1U)` of `main`. -/
def factor {K : Type} [NatCast K] [Div K] : K := 255 / ((size - 1 : Nat) : K)

/-- Constant `dark_blue = {0U, 0U, 1U}` of `main`. -/
def dark_blue : psow_color := psow_color.mk 0 0 1

/-- Local `blue = psow_color_scale(dark_blue, 64.0)` of `main`. -/
def blue (K : Type) [NatCast K] [Mul K] [DoubleToUChar K] : psow_color :=
  psow_color_scale dark_blue (64 : K)

/-- The color that the loop body computes for the column `x` and the row `y`,
for an `unsigned int` of `w` bits. -/
def pixel (K : Type) [NatCast K] [Mul K] [Div K] [DoubleToUChar K] (w x y : Nat) : psow_color :=
  let r := double_to_uchar ((x : K) * factor)
  let g := double_to_uchar ((y : K) * factor)
  let c := psow_color_create r g 0
  let c := psow_color_add w c (blue K)
  c

/-- Function `main` of `color_struct_example.c`: the returned status and the
bytes written to the file, given what `fopen` returned. -/
def main (K : Type) [NatCast K] [Mul K] [Div K] [DoubleToUChar K] (w : Nat)
    (fopen : Option FILE) : Int × FILE :=
  match fopen with
  | none => (-1, [])
  | some fp =>
    let fp := fprintf_header fp size size
    (0, for_columns size (fun y fp => for_columns size
      (fun x fp => psow_color_write (pixel K w x y) fp) 0 fp) 0 fp)

end color_struct_example_c

namespace color_struct_example_cpp

/-- Local `size = 1024U` of `main`. -/
def size : Nat := 1024

/-- Local `factor = 255.0 / static_cast<double>(size - 1U)` of `main`. -/
def factor {K : Type} [NatCast K] [Div K] : K := 255 / ((size - 1 : Nat) : K)

/-- The color that the loop body computes for the column `x` and the row `y`:
`psow::color(r, g, 64U)`. -/
def pixel (K : Type) [NatCast K] [Mul K] [Div K] [DoubleToUChar K] (x y : Nat) : psow.color :=
  let r := double_to_uchar ((x : K) * factor)
  let g := double_to_uchar ((y : K) * factor)
  psow.color.mk r g 64

/-- Function `main` of `color_struct_example.cpp`: the returned status and the
bytes written to the file, given what `std::fopen` returned. -/
def main (K : Type) [NatCast K] [Mul K] [Div K] [DoubleToUChar K] (fopen : Option FILE) :
    Int × FILE :=
  match fopen with
  | none => (-1, [])
  | some fp =>
    let fp := fprintf_header fp size size
    (0, for_columns size (fun y fp => for_columns size
      (fun x fp => (pixel K x y).write fp) 0 fp) 0 fp)

end color_struct_example_cpp

/-! ## Reading a `binary64` vector exactly -/

/-- The vector of the images of the components under `f`; with
`binary64.toRat` it reads a vector of doubles as the vector of the rational
numbers that its components denote. -/
def psow.vec3.map {K L : Type} (f : K → L) (v : psow.vec3 K) : psow.vec3 L :=
  psow.vec3.mk (f v.x) (f v.y) (f v.z)

/-! ## Theorems: facts of the `binary64` arithmetic -/

namespace binary64

/-- The product `a * b` is the function `mul`. -/
theorem mul_def (a b : binary64) : a * b = mul a b := rfl

/-- The sum `a + b` is the function `add`. -/
theorem add_def (a b : binary64) : a + b = add a b := rfl

/-- The difference `a - b` is the sum of `a` and the opposite of `b`. -/
theorem sub_def (a b : binary64) : a - b = add a (neg b) := rfl

/-- The comparison `a < b` is the function `ltb`. -/
theorem lt_def (a b : binary64) : a < b ↔ ltb a b = true := Iff.rfl

/-- The zero of the arithmetic is `+0`. -/
theorem zero_def : (0 : binary64) = finite false 0 (-1074) := rfl

/-- A zero is a zero or a NaN. -/
theorem isZeroOrNaN_of_isZero (z : binary64) (hz : z.isZero = true) :
    z.isZeroOrNaN = true := by
  cases z <;> simp_all [isZero, isZeroOrNaN]

/-- The product of any value with a zero or a NaN is a zero or a NaN. -/
theorem mul_isZeroOrNaN_right (x z : binary64) (hz : z.isZeroOrNaN = true) :
    (x * z).isZeroOrNaN = true := by
  cases x <;> cases z <;> simp_all [mul_def, mul, isZeroOrNaN, round]

/-- The product of a zero or a NaN with any value is a zero or a NaN. -/
theorem mul_isZeroOrNaN_left (z x : binary64) (hz : z.isZeroOrNaN = true) :
    (z * x).isZeroOrNaN = true := by
  cases x <;> cases z <;> simp_all [mul_def, mul, isZeroOrNaN, round]

/-- The sum of two values that are zeros or NaN is a zero or a NaN. -/
theorem add_isZeroOrNaN (x y : binary64) (hx : x.isZeroOrNaN = true)
    (hy : y.isZeroOrNaN = true) : (x + y).isZeroOrNaN = true := by
  cases x <;> cases y <;> simp_all [add_def, add, isZeroOrNaN, scaled]

/-- The difference of two values that are zeros or NaN is a zero or a NaN. -/
theorem sub_isZeroOrNaN (x y : binary64) (hx : x.isZeroOrNaN = true)
    (hy : y.isZeroOrNaN = true) : (x - y).isZeroOrNaN = true := by
  cases x <;> cases y <;> simp_all [sub_def, add, neg, isZeroOrNaN, scaled]

/-- A zero or a NaN is not above zero. -/
theorem not_pos_of_isZeroOrNaN (z : binary64) (hz : z.isZeroOrNaN = true) :
    ¬ (0 : binary64) < z := by
  cases z <;> simp_all [lt_def, zero_def, ltb, isZeroOrNaN, scaled]

/-- Multiplication is commutative, rounding included. -/
theorem mul_comm_binary64 (a b : binary64) : a * b = b * a := by
  cases a <;> cases b <;>
    simp [mul_def, mul, Bool.xor_comm, Nat.mul_comm, Int.add_comm]

/-- The difference of a finite value with itself is `+0`. -/
theorem sub_self_of_isFinite (x : binary64) (hx : x.isFinite = true) : x - x = 0 := by
  cases x with
  | finite s m e =>
    cases s <;> simp [sub_def, zero_def, add, neg, scaled]
  | inf s => simp [isFinite] at hx
  | nan => simp [isFinite] at hx

end binary64

/-! ## Theorems: the ray-sphere intersection test -/

section hit_test_bodies

variable {K : Type} [Zero K] [NatCast K] [Add K] [Sub K] [Mul K] [LT K]
  [∀ a b : K, Decidable (a < b)]

/-- The body of `intersects_ray` in terms of the named locals, in every
arithmetic. -/
theorem intersects_ray_eq_decide (sqrt : K → K) (s : psow.sphere K) (r : psow.ray K) :
    s.intersects_ray sqrt r
      = decide (0 < s.discr r ∧ 0 < sqrt (s.discr r) - s.coef_b r) := by
  unfold psow.sphere.intersects_ray psow.sphere.discr psow.sphere.coef_a
    psow.sphere.coef_b psow.sphere.coef_c psow.sphere.oc
  simp only [gt_iff_lt]
  split_ifs <;> simp [*]

/-- The body of `sphere_is_hit` in terms of the named locals, in every
arithmetic. -/
theorem sphere_is_hit_eq_decide [Neg K] (sqrt : K → K) (r : psow.ray K) (s : sphere K) :
    sphere_is_hit sqrt r s
      = decide (0 < (psow.sphere.mk s.radius s.center).discr r
          ∧ 0 < (psow.sphere.mk s.radius s.center).coef_a r
              * (-(psow.sphere.mk s.radius s.center).coef_b r
                  + sqrt ((psow.sphere.mk s.radius s.center).discr r))) := by
  unfold sphere_is_hit psow.sphere.discr psow.sphere.coef_a
    psow.sphere.coef_b psow.sphere.coef_c psow.sphere.oc
  simp only [gt_iff_lt]
  split_ifs <;> simp [*]

end hit_test_bodies

section sphere_lemmas

variable {K : Type} [LinearOrderedField K]

/-- The squared norm is never negative. -/
theorem normsq_nonneg (v : psow.vec3 K) : 0 ≤ v.normsq := by
  unfold psow.vec3.normsq
  nlinarith [mul_self_nonneg v.x, mul_self_nonneg v.y, mul_self_nonneg v.z]

/-- A vector other than the zero vector has a positive squared norm. -/
theorem normsq_pos_of_ne_zero (v : psow.vec3 K) (hv : v ≠ psow.vec3.mk 0 0 0) :
    0 < v.normsq := by
  rcases v with ⟨x, y, z⟩
  have hne : x ≠ 0 ∨ y ≠ 0 ∨ z ≠ 0 := by
    by_contra hcon
    push_neg at hcon
    obtain ⟨hx, hy, hz⟩ := hcon
    exact hv (by rw [hx, hy, hz])
  show 0 < x * x + y * y + z * z
  rcases hne with h | h | h
  · have := mul_self_pos.mpr h
    nlinarith [mul_self_nonneg y, mul_self_nonneg z]
  · have := mul_self_pos.mpr h
    nlinarith [mul_self_nonneg x, mul_self_nonneg z]
  · have := mul_self_pos.mpr h
    nlinarith [mul_self_nonneg x, mul_self_nonneg y]

/-- The dot product of a vector with itself is its squared norm. -/
theorem dot_self_eq_normsq (v : psow.vec3 K) : v.dot v = v.normsq := rfl

/-- With `D = b² − 4ac ≥ 0`, `a ≠ 0` and a square root `q` of `D`, the value
`(−b + q)/(2a)` solves `a t² + b t + c = 0`. -/
theorem quadratic_root_of_sq (a b c q : K) (ha : a ≠ 0) (hq : q * q = b * b - 4 * a * c) :
    a * ((-b + q) / (2 * a)) ^ 2 + b * ((-b + q) / (2 * a)) + c = 0 := by
  field_simp
  nlinarith [hq]

end sphere_lemmas

/-- Over the reals both `nearer_root` and `farther_root` solve the quadratic
`a t² + b t + c = 0` when `a > 0` and `D = b² − 4ac ≥ 0`, and the former is
the smaller one. -/
theorem roots_spec (a b c : ℝ) (ha : 0 < a) (hD : 0 ≤ b * b - 4 * a * c) :
    a * (nearer_root Real.sqrt a b (b * b - 4 * a * c)) ^ 2
        + b * nearer_root Real.sqrt a b (b * b - 4 * a * c) + c = 0
    ∧ a * (farther_root Real.sqrt a b (b * b - 4 * a * c)) ^ 2
        + b * farther_root Real.sqrt a b (b * b - 4 * a * c) + c = 0
    ∧ nearer_root Real.sqrt a b (b * b - 4 * a * c)
        ≤ farther_root Real.sqrt a b (b * b - 4 * a * c) := by
  have hs := Real.mul_self_sqrt hD
  have hn := Real.sqrt_nonneg (b * b - 4 * a * c)
  refine ⟨?_, ?_, ?_⟩
  · have h := quadratic_root_of_sq a b c (-Real.sqrt (b * b - 4 * a * c)) ha.ne'
      (by rw [neg_mul_neg]; exact hs)
    simpa [nearer_root, sub_eq_add_neg] using h
  · exact quadratic_root_of_sq a b c _ ha.ne' hs
  · unfold nearer_root farther_root
    apply div_le_div_of_nonneg_right _ (by positivity)
    linarith

/-- C1. For every sphere `(center, radius)` and every ray `(p, v)`, with
`oc = p − center`, `a = v·v`, `b = 2 (v·oc)`, `c = oc·oc − radius²` and
`D = b² − 4ac`, `intersects_ray` returns true if and only if `D > 0` and
`√D − b > 0`, and returns false in every other case.  The quantities `oc`,
`a`, `b`, `c`, `D` and `√D` are the locals of the function, computed in the
arithmetic `K` of its `double` with its square-root routine; no law of that
arithmetic is assumed, so the statement holds of the `binary64` computation
(with its rounding, infinities and NaN) as it does of the exact one. -/
theorem intersects_ray_iff_discr {K : Type} [Zero K] [NatCast K] [Add K] [Sub K] [Mul K]
    [LT K] [∀ a b : K, Decidable (a < b)] (sqrt : K → K)
    (center p v : psow.vec3 K) (radius : K) :
    let oc := p.sub center
    let a := v.dot v
    let b := 2 * v.dot oc
    let c := oc.dot oc - radius * radius
    let D := b * b - 4 * a * c
    ((psow.sphere.mk radius center).intersects_ray sqrt (psow.ray.mk p v) = true
        ↔ (D > 0 ∧ sqrt D - b > 0))
    ∧ ((psow.sphere.mk radius center).intersects_ray sqrt (psow.ray.mk p v) = false
        ↔ ¬ (D > 0 ∧ sqrt D - b > 0)) := by
  intro oc a b c D
  have h := intersects_ray_eq_decide sqrt (psow.sphere.mk radius center) (psow.ray.mk p v)
  have hD : (psow.sphere.mk radius center).discr (psow.ray.mk p v) = D := rfl
  have hb : (psow.sphere.mk radius center).coef_b (psow.ray.mk p v) = b := rfl
  rw [hD, hb] at h
  rw [h]
  constructor
  · simp
  · simp

/-- The locals of C1 in `binary64` against their exact values: for the unit
sphere centred at `(2^30, 0, 0)` and the ray from the origin with direction
`(1, 2^−30, 0)` the exact discriminant is positive, while the computed `b * b`
and `4.0 * a * c` round to the same value, the computed `D` is `0`, and
`intersects_ray` returns false. -/
theorem intersects_ray_cancellation_binary64 :
    binary64.toRat 1073741824 = 2 ^ 30
    ∧ binary64.toRat 9.313225746154785e-10 = 1 / 2 ^ 30
    ∧ 0 < (psow.sphere.mk (1 : ℚ) (psow.vec3.mk (2 ^ 30) 0 0)).discr
        (psow.ray.mk (psow.vec3.mk 0 0 0) (psow.vec3.mk 1 (1 / 2 ^ 30) 0))
    ∧ (psow.sphere.mk (1 : binary64) (psow.vec3.mk 1073741824 0 0)).discr
        (psow.ray.mk (psow.vec3.mk 0 0 0) (psow.vec3.mk 1 9.313225746154785e-10 0)) = 0
    ∧ (psow.sphere.mk (1 : binary64) (psow.vec3.mk 1073741824 0 0)).intersects_ray
        binary64.sqrt
        (psow.ray.mk (psow.vec3.mk 0 0 0) (psow.vec3.mk 1 9.313225746154785e-10 0))
      = false := by
  decide!

section sphere_lemmas_two

variable {K : Type} [LinearOrderedField K]

/-- When the ray starts at the center, `oc` is the zero vector, so `b = 0` and
`c = −radius²`. -/
theorem coefs_of_origin_eq_center (s : psow.sphere K) (r : psow.ray K)
    (horigin : r.p = s.center) :
    s.coef_b r = 0 ∧ s.coef_c r = -(s.radius * s.radius) := by
  unfold psow.sphere.coef_b psow.sphere.coef_c psow.sphere.oc psow.vec3.dot
    psow.vec3.normsq psow.vec3.sub
  rw [horigin]
  constructor <;> simp

/-- Cauchy-Schwarz for `vec3`: `(v·w)² ≤ ‖v‖² ‖w‖²`. -/
theorem dot_mul_self_le (v w : psow.vec3 K) :
    v.dot w * v.dot w ≤ v.normsq * w.normsq := by
  unfold psow.vec3.dot psow.vec3.normsq
  nlinarith [mul_self_nonneg (v.x * w.y - v.y * w.x),
    mul_self_nonneg (v.y * w.z - v.z * w.y), mul_self_nonneg (v.z * w.x - v.x * w.z)]

/-- A sphere of radius zero has `D ≤ 0` for every ray. -/
theorem discr_nonpos_of_radius_zero (s : psow.sphere K) (r : psow.ray K)
    (hrad : s.radius = 0) : s.discr r ≤ 0 := by
  have hcs := dot_mul_self_le r.v (s.oc r)
  unfold psow.sphere.discr psow.sphere.coef_a psow.sphere.coef_b psow.sphere.coef_c
  rw [hrad]
  nlinarith [hcs]

/-- A sphere of radius zero is missed by every ray. -/
theorem intersects_ray_radius_zero (sqrt : K → K) (s : psow.sphere K) (r : psow.ray K)
    (hrad : s.radius = 0) : s.intersects_ray sqrt r = false := by
  rw [intersects_ray_eq_decide]
  have h := discr_nonpos_of_radius_zero s r hrad
  simp only [decide_eq_false_iff_not, not_and]
  intro hpos
  exact absurd hpos (not_lt.mpr h)

/-- Whenever `D ≤ 0` the test reports a miss. -/
theorem intersects_ray_false_of_discr_nonpos (sqrt : K → K) (s : psow.sphere K)
    (r : psow.ray K) (hD : s.discr r ≤ 0) : s.intersects_ray sqrt r = false := by
  rw [intersects_ray_eq_decide]
  simp only [decide_eq_false_iff_not, not_and]
  intro hpos
  exact absurd hpos (not_lt.mpr hD)

end sphere_lemmas_two

/-- C2, counterexample.  In `binary64`, for the unit sphere centred at the
origin and the ray from its center with direction `(1e-170, 0, 0)`, a non-zero
vector: the squared norm `a = v.normsq()` underflows to `0`, so `D = 0` and
`intersects_ray` returns false. -/
theorem intersects_ray_from_center_binary64 :
    (0 : binary64) < 1
    ∧ (0 : binary64) < 1e-170
    ∧ (psow.vec3.mk (1e-170 : binary64) 0 0).normsq = 0
    ∧ (psow.sphere.mk (1 : binary64) (psow.vec3.mk 0 0 0)).discr
        (psow.ray.mk (psow.vec3.mk 0 0 0) (psow.vec3.mk 1e-170 0 0)) = 0
    ∧ (psow.sphere.mk (1 : binary64) (psow.vec3.mk 0 0 0)).intersects_ray binary64.sqrt
        (psow.ray.mk (psow.vec3.mk 0 0 0) (psow.vec3.mk 1e-170 0 0)) = false := by
  decide!

/-- C2, as amended.  Over exact real arithmetic, for every sphere with non-zero
radius and every ray whose origin is the sphere's center and whose direction
is not the zero vector, `intersects_ray` returns true; there
`c = −radius² < 0` and `D > 0`. -/
theorem intersects_ray_from_center (s : psow.sphere ℝ) (r : psow.ray ℝ)
    (hrad : s.radius ≠ 0) (horigin : r.p = s.center)
    (hdir : r.v ≠ psow.vec3.mk 0 0 0) :
    s.intersects_ray Real.sqrt r = true
      ∧ s.coef_c r = -(s.radius * s.radius) ∧ s.coef_c r < 0 ∧ 0 < s.discr r := by
  obtain ⟨hb, hc⟩ := coefs_of_origin_eq_center s r horigin
  have ha : 0 < s.coef_a r := normsq_pos_of_ne_zero r.v hdir
  have hr2 : 0 < s.radius * s.radius := mul_self_pos.mpr hrad
  have hcneg : s.coef_c r < 0 := by rw [hc]; linarith
  have hD : 0 < s.discr r := by
    unfold psow.sphere.discr
    rw [hb]
    nlinarith [mul_pos ha hr2]
  refine ⟨?_, hc, hcneg, hD⟩
  rw [intersects_ray_eq_decide, hb]
  simp only [sub_zero, decide_eq_true_eq]
  exact ⟨hD, Real.sqrt_pos.mpr hD⟩

/-- Witness for the amended C2: the unit sphere at the origin and the ray from
the origin along the x axis. -/
theorem intersects_ray_from_center_witness :
    (psow.sphere.mk (1 : ℝ) ⟨0, 0, 0⟩).intersects_ray Real.sqrt ⟨⟨0, 0, 0⟩, ⟨1, 0, 0⟩⟩ = true :=
  (intersects_ray_from_center ⟨1, ⟨0, 0, 0⟩⟩ ⟨⟨0, 0, 0⟩, ⟨1, 0, 0⟩⟩
    one_ne_zero rfl (by simp)).1

/-- C3, counterexample.  In `binary64`, for the sphere of radius
`2.47010863628381` centred at the origin and the ray from
`oc = (1.0574214961213473, 1.5519239943617131, 1.6046271748629772)` with
direction `(oc.y, −oc.x, 0)`: the direction is exactly perpendicular to `oc`
and `‖oc‖² > radius²` holds of the exact values of these doubles, but the
computed `c = oc.normsq() − radius*radius` is negative, the computed `D` is
positive, and `intersects_ray` returns true. -/
theorem intersects_ray_perpendicular_outside_binary64 :
    (0 : binary64) ≤ 2.47010863628381
    ∧ ((psow.vec3.mk (1.5519239943617131 : binary64) (-1.0574214961213473) 0).map
          binary64.toRat).dot
        ((psow.vec3.mk (1.0574214961213473 : binary64) 1.5519239943617131
          1.6046271748629772).map binary64.toRat) = 0
    ∧ binary64.toRat 2.47010863628381 * binary64.toRat 2.47010863628381
        < ((psow.vec3.mk (1.0574214961213473 : binary64) 1.5519239943617131
          1.6046271748629772).map binary64.toRat).normsq
    ∧ (psow.sphere.mk (2.47010863628381 : binary64) (psow.vec3.mk 0 0 0)).coef_c
        (psow.ray.mk (psow.vec3.mk 1.0574214961213473 1.5519239943617131 1.6046271748629772)
          (psow.vec3.mk 1.5519239943617131 (-1.0574214961213473) 0)) < 0
    ∧ (psow.sphere.mk (2.47010863628381 : binary64) (psow.vec3.mk 0 0 0)).intersects_ray
        binary64.sqrt
        (psow.ray.mk (psow.vec3.mk 1.0574214961213473 1.5519239943617131 1.6046271748629772)
          (psow.vec3.mk 1.5519239943617131 (-1.0574214961213473) 0)) = true := by
  decide!

/-- C3, as amended.  Over exact real arithmetic, for every sphere with
`radius ≥ 0` and every ray whose direction is perpendicular to
`oc = origin − center` and whose origin is farther than `radius` from the
center (`‖oc‖ > radius`), `intersects_ray` returns false. -/
theorem intersects_ray_perpendicular_outside (s : psow.sphere ℝ) (r : psow.ray ℝ)
    (hrad : 0 ≤ s.radius) (hperp : r.v.dot (r.p.sub s.center) = 0)
    (hfar : s.radius < (r.p.sub s.center).norm Real.sqrt) :
    s.intersects_ray Real.sqrt r = false := by
  apply intersects_ray_false_of_discr_nonpos
  have hlt : s.radius ^ 2 < (r.p.sub s.center).normsq := by
    have h := hfar
    unfold psow.vec3.norm at h
    exact (Real.lt_sqrt hrad).mp h
  have ha : 0 ≤ r.v.normsq := normsq_nonneg r.v
  unfold psow.sphere.discr psow.sphere.coef_a psow.sphere.coef_b psow.sphere.coef_c
    psow.sphere.oc
  rw [hperp]
  have hc : 0 < (r.p.sub s.center).normsq - s.radius * s.radius := by nlinarith
  nlinarith [mul_nonneg ha hc.le]

/-- Witness for the amended C3: the unit sphere at the origin and the ray from
`(2, 0, 0)` along the y axis; `‖oc‖ = √4`. -/
theorem intersects_ray_perpendicular_outside_witness :
    (psow.sphere.mk (1 : ℝ) ⟨0, 0, 0⟩).intersects_ray Real.sqrt ⟨⟨2, 0, 0⟩, ⟨0, 1, 0⟩⟩ = false :=
  intersects_ray_perpendicular_outside ⟨1, ⟨0, 0, 0⟩⟩ ⟨⟨2, 0, 0⟩, ⟨0, 1, 0⟩⟩
    zero_le_one (by simp [psow.vec3.dot, psow.vec3.sub])
    (by
      show (1 : ℝ) < Real.sqrt ((2 - 0) * (2 - 0) + (0 - 0) * (0 - 0) + (0 - 0) * (0 - 0))
      rw [Real.lt_sqrt zero_le_one]
      norm_num)

/-- C4, counterexample.  For the unit sphere at the origin and the ray from the
origin along the x axis, `a = 1 > 0` and `D = 4 > 0`, the test reports a hit,
and yet the nearer root `(−b − √D)/(2a)` is `−1`, which is not positive; so it
is over the reals, and so it is in `binary64`, where this run is exact. -/
theorem nearer_root_counterexample :
    0 < (psow.sphere.mk (1 : ℝ) ⟨0, 0, 0⟩).coef_a ⟨⟨0, 0, 0⟩, ⟨1, 0, 0⟩⟩
    ∧ 0 < (psow.sphere.mk (1 : ℝ) ⟨0, 0, 0⟩).discr ⟨⟨0, 0, 0⟩, ⟨1, 0, 0⟩⟩
    ∧ (psow.sphere.mk (1 : ℝ) ⟨0, 0, 0⟩).intersects_ray Real.sqrt
        ⟨⟨0, 0, 0⟩, ⟨1, 0, 0⟩⟩ = true
    ∧ nearer_root Real.sqrt
        ((psow.sphere.mk (1 : ℝ) ⟨0, 0, 0⟩).coef_a ⟨⟨0, 0, 0⟩, ⟨1, 0, 0⟩⟩)
        ((psow.sphere.mk (1 : ℝ) ⟨0, 0, 0⟩).coef_b ⟨⟨0, 0, 0⟩, ⟨1, 0, 0⟩⟩)
        ((psow.sphere.mk (1 : ℝ) ⟨0, 0, 0⟩).discr ⟨⟨0, 0, 0⟩, ⟨1, 0, 0⟩⟩) = -1
    ∧ ¬ ((psow.sphere.mk (1 : ℝ) ⟨0, 0, 0⟩).intersects_ray Real.sqrt
          ⟨⟨0, 0, 0⟩, ⟨1, 0, 0⟩⟩ = true
        ↔ 0 < nearer_root Real.sqrt
          ((psow.sphere.mk (1 : ℝ) ⟨0, 0, 0⟩).coef_a ⟨⟨0, 0, 0⟩, ⟨1, 0, 0⟩⟩)
          ((psow.sphere.mk (1 : ℝ) ⟨0, 0, 0⟩).coef_b ⟨⟨0, 0, 0⟩, ⟨1, 0, 0⟩⟩)
          ((psow.sphere.mk (1 : ℝ) ⟨0, 0, 0⟩).discr ⟨⟨0, 0, 0⟩, ⟨1, 0, 0⟩⟩))
    ∧ (psow.sphere.mk (1 : binary64) ⟨0, 0, 0⟩).intersects_ray binary64.sqrt
        ⟨⟨0, 0, 0⟩, ⟨1, 0, 0⟩⟩ = true
    ∧ nearer_root binary64.sqrt
        ((psow.sphere.mk (1 : binary64) ⟨0, 0, 0⟩).coef_a ⟨⟨0, 0, 0⟩, ⟨1, 0, 0⟩⟩)
        ((psow.sphere.mk (1 : binary64) ⟨0, 0, 0⟩).coef_b ⟨⟨0, 0, 0⟩, ⟨1, 0, 0⟩⟩)
        ((psow.sphere.mk (1 : binary64) ⟨0, 0, 0⟩).discr ⟨⟨0, 0, 0⟩, ⟨1, 0, 0⟩⟩) = -1 := by
  have ha : (psow.sphere.mk (1 : ℝ) ⟨0, 0, 0⟩).coef_a ⟨⟨0, 0, 0⟩, ⟨1, 0, 0⟩⟩ = 1 := by
    norm_num [psow.sphere.coef_a, psow.vec3.normsq]
  have hb : (psow.sphere.mk (1 : ℝ) ⟨0, 0, 0⟩).coef_b ⟨⟨0, 0, 0⟩, ⟨1, 0, 0⟩⟩ = 0 := by
    norm_num [psow.sphere.coef_b, psow.sphere.oc, psow.vec3.dot, psow.vec3.sub]
  have hD : (psow.sphere.mk (1 : ℝ) ⟨0, 0, 0⟩).discr ⟨⟨0, 0, 0⟩, ⟨1, 0, 0⟩⟩ = 2 * 2 := by
    norm_num [psow.sphere.discr, psow.sphere.coef_a, psow.sphere.coef_b,
      psow.sphere.coef_c, psow.sphere.oc, psow.vec3.dot, psow.vec3.sub, psow.vec3.normsq]
  have hs : Real.sqrt (2 * 2) = 2 := Real.sqrt_mul_self (by norm_num)
  have hhit : (psow.sphere.mk (1 : ℝ) ⟨0, 0, 0⟩).intersects_ray Real.sqrt
      ⟨⟨0, 0, 0⟩, ⟨1, 0, 0⟩⟩ = true := by
    rw [intersects_ray_eq_decide, hb, hD, hs]
    norm_num
  have hroot : nearer_root Real.sqrt
      ((psow.sphere.mk (1 : ℝ) ⟨0, 0, 0⟩).coef_a ⟨⟨0, 0, 0⟩, ⟨1, 0, 0⟩⟩)
      ((psow.sphere.mk (1 : ℝ) ⟨0, 0, 0⟩).coef_b ⟨⟨0, 0, 0⟩, ⟨1, 0, 0⟩⟩)
      ((psow.sphere.mk (1 : ℝ) ⟨0, 0, 0⟩).discr ⟨⟨0, 0, 0⟩, ⟨1, 0, 0⟩⟩) = -1 := by
    rw [ha, hb, hD]
    unfold nearer_root
    rw [hs]
    norm_num
  refine ⟨by rw [ha]; norm_num, by rw [hD]; norm_num, hhit, hroot, ?_, by decide!,
    by decide!⟩
  rw [hroot]
  intro hiff
  have := hiff.mp hhit
  norm_num at this

/-- The farther root in `binary64`: for the unit sphere centred at the origin
and the ray from its center with direction `(1e-170, 0, 0)`, the exact values
have `a > 0`, `b = 0` and `D = 4a > 0`, so the farther root `√D/(2a)` is
positive; the computed `a` and `D` underflow to `0` and `intersects_ray`
returns false.  The positivity of the farther root decides the test in exact
arithmetic only. -/
theorem farther_root_underflow_binary64 :
    0 < (psow.sphere.mk (1 : ℚ) (psow.vec3.mk 0 0 0)).coef_a
        (psow.ray.mk (psow.vec3.mk 0 0 0) (psow.vec3.mk (binary64.toRat 1e-170) 0 0))
    ∧ (psow.sphere.mk (1 : ℚ) (psow.vec3.mk 0 0 0)).coef_b
        (psow.ray.mk (psow.vec3.mk 0 0 0) (psow.vec3.mk (binary64.toRat 1e-170) 0 0)) = 0
    ∧ 0 < (psow.sphere.mk (1 : ℚ) (psow.vec3.mk 0 0 0)).discr
        (psow.ray.mk (psow.vec3.mk 0 0 0) (psow.vec3.mk (binary64.toRat 1e-170) 0 0))
    ∧ (psow.sphere.mk (1 : binary64) (psow.vec3.mk 0 0 0)).coef_a
        (psow.ray.mk (psow.vec3.mk 0 0 0) (psow.vec3.mk 1e-170 0 0)) = 0
    ∧ (psow.sphere.mk (1 : binary64) (psow.vec3.mk 0 0 0)).discr
        (psow.ray.mk (psow.vec3.mk 0 0 0) (psow.vec3.mk 1e-170 0 0)) = 0
    ∧ (psow.sphere.mk (1 : binary64) (psow.vec3.mk 0 0 0)).intersects_ray binary64.sqrt
        (psow.ray.mk (psow.vec3.mk 0 0 0) (psow.vec3.mk 1e-170 0 0)) = false := by
  decide!

/-- C4, as amended.  For every sphere and every ray with `D > 0`,
`intersects_ray` reports a hit exactly when `√D − b > 0`, the numerator of the
farther (larger) root `(−b + √D)/(2a)` of `a t² + b t + c = 0`: so it is of
the computed locals in every arithmetic, that of the code included (first
part).  Over exact real arithmetic, with `a > 0`, that is exactly when the
farther root is positive (second part). -/
theorem intersects_ray_iff_farther_root :
    (∀ (K : Type) [Zero K] [NatCast K] [Add K] [Sub K] [Mul K] [LT K]
        [∀ a b : K, Decidable (a < b)] (sqrt : K → K) (s : psow.sphere K) (r : psow.ray K),
        0 < s.discr r →
        (s.intersects_ray sqrt r = true ↔ 0 < sqrt (s.discr r) - s.coef_b r))
    ∧ (∀ (s : psow.sphere ℝ) (r : psow.ray ℝ), 0 < s.coef_a r → 0 < s.discr r →
        (s.intersects_ray Real.sqrt r = true
          ↔ 0 < farther_root Real.sqrt (s.coef_a r) (s.coef_b r) (s.discr r))) := by
  constructor
  · intro K _ _ _ _ _ _ _ sqrt s r hD
    rw [intersects_ray_eq_decide]
    simp only [decide_eq_true_eq]
    exact ⟨fun h => h.2, fun h => ⟨hD, h⟩⟩
  · intro s r ha hD
    rw [intersects_ray_eq_decide]
    unfold farther_root
    have h2a : 0 < 2 * s.coef_a r := by linarith
    rw [div_pos_iff_of_pos_right h2a]
    simp only [decide_eq_true_eq]
    constructor
    · rintro ⟨_, h⟩
      linarith
    · intro h
      exact ⟨hD, by linarith⟩

/-- Witness for the amended C4: the unit sphere at the origin and the ray from
the origin along the x axis, in `binary64` for the first part and over `ℝ`
for the second. -/
theorem intersects_ray_iff_farther_root_witness :
    ((psow.sphere.mk (1 : binary64) ⟨0, 0, 0⟩).intersects_ray binary64.sqrt
          ⟨⟨0, 0, 0⟩, ⟨1, 0, 0⟩⟩ = true
      ↔ 0 < binary64.sqrt
            ((psow.sphere.mk (1 : binary64) ⟨0, 0, 0⟩).discr ⟨⟨0, 0, 0⟩, ⟨1, 0, 0⟩⟩)
          - (psow.sphere.mk (1 : binary64) ⟨0, 0, 0⟩).coef_b ⟨⟨0, 0, 0⟩, ⟨1, 0, 0⟩⟩)
    ∧ ((psow.sphere.mk (1 : ℝ) ⟨0, 0, 0⟩).intersects_ray Real.sqrt
          ⟨⟨0, 0, 0⟩, ⟨1, 0, 0⟩⟩ = true
      ↔ 0 < farther_root Real.sqrt
          ((psow.sphere.mk (1 : ℝ) ⟨0, 0, 0⟩).coef_a ⟨⟨0, 0, 0⟩, ⟨1, 0, 0⟩⟩)
          ((psow.sphere.mk (1 : ℝ) ⟨0, 0, 0⟩).coef_b ⟨⟨0, 0, 0⟩, ⟨1, 0, 0⟩⟩)
          ((psow.sphere.mk (1 : ℝ) ⟨0, 0, 0⟩).discr ⟨⟨0, 0, 0⟩, ⟨1, 0, 0⟩⟩)) :=
  ⟨intersects_ray_iff_farther_root.1 binary64 binary64.sqrt ⟨1, ⟨0, 0, 0⟩⟩
      ⟨⟨0, 0, 0⟩, ⟨1, 0, 0⟩⟩ (by decide!),
    intersects_ray_iff_farther_root.2 ⟨1, ⟨0, 0, 0⟩⟩ ⟨⟨0, 0, 0⟩, ⟨1, 0, 0⟩⟩
      (by norm_num [psow.sphere.coef_a, psow.vec3.normsq])
      (by norm_num [psow.sphere.discr, psow.sphere.coef_a, psow.sphere.coef_b,
        psow.sphere.coef_c, psow.sphere.oc, psow.vec3.dot, psow.vec3.sub, psow.vec3.normsq])⟩

/-- C5, counterexample.  In `binary64`, for the unit sphere centred at the
origin and the ray from its center with direction `(1e-120, 0, 0)`: the
computed `a = 1e-240` is positive and `intersects_ray` returns true, but the
product `a * (−b + √D)` underflows to `0` and `sphere_is_hit` returns
false. -/
theorem sphere_is_hit_eq_intersects_ray_binary64 :
    (0 : binary64) < (psow.vec3.mk (1e-120 : binary64) 0 0).normsq
    ∧ (psow.sphere.mk (1 : binary64) (psow.vec3.mk 0 0 0)).intersects_ray binary64.sqrt
        (psow.ray.mk (psow.vec3.mk 0 0 0) (psow.vec3.mk 1e-120 0 0)) = true
    ∧ sphere_is_hit binary64.sqrt
        (psow.ray.mk (psow.vec3.mk 0 0 0) (psow.vec3.mk 1e-120 0 0))
        (sphere.mk (1 : binary64) (psow.vec3.mk 0 0 0)) = false := by
  decide!

/-- C5, as amended.  Over exact arithmetic, for every sphere and every ray whose
direction has `a = ‖direction‖² > 0`, `sphere_is_hit` (which tests
`a (−b + √D) > 0`) returns the same boolean as `psow::sphere::intersects_ray`
(which tests `√D − b > 0`).  This holds over any ordered field of scalars and
for any square-root routine. -/
theorem sphere_is_hit_eq_intersects_ray {K : Type} [LinearOrderedField K]
    (sqrt : K → K) (radius : K) (center : psow.vec3 K) (r : psow.ray K)
    (ha : 0 < r.v.normsq) :
    sphere_is_hit sqrt r (sphere.mk radius center)
      = (psow.sphere.mk radius center).intersects_ray sqrt r := by
  rw [sphere_is_hit_eq_decide, intersects_ray_eq_decide]
  have ha2 : 0 < (psow.sphere.mk radius center).coef_a r := ha
  congr 1
  apply propext
  constructor
  · rintro ⟨h1, h2⟩
    refine ⟨h1, ?_⟩
    have := (mul_pos_iff_of_pos_left ha2).mp h2
    linarith
  · rintro ⟨h1, h2⟩
    refine ⟨h1, ?_⟩
    apply mul_pos ha2
    linarith

/-- Witness for the amended C5: the sphere of radius `1/2` centred at
`(0, 0, −1)` that `main` renders, and the ray from the origin towards
`(0, 0, −1)`. -/
theorem sphere_is_hit_eq_intersects_ray_witness :
    sphere_is_hit Real.sqrt ⟨⟨0, 0, 0⟩, ⟨0, 0, -1⟩⟩ (sphere.mk (1 / 2 : ℝ) ⟨0, 0, -1⟩)
      = (psow.sphere.mk (1 / 2 : ℝ) ⟨0, 0, -1⟩).intersects_ray Real.sqrt
          ⟨⟨0, 0, 0⟩, ⟨0, 0, -1⟩⟩ :=
  sphere_is_hit_eq_intersects_ray Real.sqrt (1 / 2) ⟨0, 0, -1⟩ ⟨⟨0, 0, 0⟩, ⟨0, 0, -1⟩⟩
    (by norm_num [psow.vec3.normsq])

/-- C6, counterexample.  The sphere of radius `0` centred at `(1, 0, 0)` lies on
the ray from the origin along the x axis at parameter `t = 1 > 0`, the
direction is not the zero vector, and `intersects_ray` returns false; so it
is over the reals, and so it is in `binary64`, where this run is exact. -/
theorem point_sphere_counterexample :
    (psow.sphere.mk (0 : ℝ) ⟨1, 0, 0⟩).radius = 0
    ∧ (psow.ray.mk (⟨0, 0, 0⟩ : psow.vec3 ℝ) ⟨1, 0, 0⟩).v ≠ psow.vec3.mk 0 0 0
    ∧ (0 : ℝ) < 1
    ∧ (psow.sphere.mk (0 : ℝ) ⟨1, 0, 0⟩).center
        = (psow.ray.mk (⟨0, 0, 0⟩ : psow.vec3 ℝ) ⟨1, 0, 0⟩).point 1
    ∧ (psow.sphere.mk (0 : ℝ) ⟨1, 0, 0⟩).intersects_ray Real.sqrt
        ⟨⟨0, 0, 0⟩, ⟨1, 0, 0⟩⟩ = false
    ∧ (psow.ray.mk (⟨0, 0, 0⟩ : psow.vec3 binary64) ⟨1, 0, 0⟩).point 1
        = (psow.sphere.mk (0 : binary64) ⟨1, 0, 0⟩).center
    ∧ (psow.sphere.mk (0 : binary64) ⟨1, 0, 0⟩).intersects_ray binary64.sqrt
        ⟨⟨0, 0, 0⟩, ⟨1, 0, 0⟩⟩ = false := by
  refine ⟨rfl, by simp, one_pos, ?_, ?_, by decide!, by decide!⟩
  · simp [psow.ray.point, psow.vec3.add, psow.vec3.smul]
  · exact intersects_ray_radius_zero Real.sqrt _ _ rfl

/-- The point sphere in `binary64`: the sphere of radius `0` centred at
`(5, 0, 0)` lies on the ray from the origin with direction `(0.7, 0, 0)`, at
the parameter `t = 7.142857142857143 > 0` also when the point is computed in
doubles; the exact discriminant is `0`, the computed one is a positive
rounding residue, and `intersects_ray` returns true. -/
theorem point_sphere_residue_binary64 :
    (0 : binary64) < 0.7
    ∧ (0 : binary64) < 7.142857142857143
    ∧ (psow.ray.mk (psow.vec3.mk (0 : binary64) 0 0) (psow.vec3.mk 0.7 0 0)).point
        7.142857142857143 = psow.vec3.mk 5 0 0
    ∧ (psow.sphere.mk (0 : ℚ) (psow.vec3.mk 5 0 0)).discr
        (psow.ray.mk (psow.vec3.mk 0 0 0) (psow.vec3.mk (binary64.toRat 0.7) 0 0)) = 0
    ∧ (0 : binary64) < (psow.sphere.mk (0 : binary64) (psow.vec3.mk 5 0 0)).discr
        (psow.ray.mk (psow.vec3.mk 0 0 0) (psow.vec3.mk 0.7 0 0))
    ∧ (psow.sphere.mk (0 : binary64) (psow.vec3.mk 5 0 0)).intersects_ray binary64.sqrt
        (psow.ray.mk (psow.vec3.mk 0 0 0) (psow.vec3.mk 0.7 0 0)) = true := by
  decide!

/-- The point sphere in `binary64`, a run without rounding: the sphere of
radius `0` centred at `(1, 0, 0)` lies on the ray from the origin with
direction `(1, 0, 0)` at `t = 1`; the computed discriminant is `0` and
`intersects_ray` returns false. -/
theorem point_sphere_miss_binary64 :
    (psow.ray.mk (psow.vec3.mk (0 : binary64) 0 0) (psow.vec3.mk 1 0 0)).point 1
        = psow.vec3.mk 1 0 0
    ∧ (psow.sphere.mk (0 : binary64) (psow.vec3.mk 1 0 0)).discr
        (psow.ray.mk (psow.vec3.mk 0 0 0) (psow.vec3.mk 1 0 0)) = 0
    ∧ (psow.sphere.mk (0 : binary64) (psow.vec3.mk 1 0 0)).intersects_ray binary64.sqrt
        (psow.ray.mk (psow.vec3.mk 0 0 0) (psow.vec3.mk 1 0 0)) = false := by
  decide!

/-- C6, as amended.  For a sphere of radius `0` and a ray with non-zero
direction that passes through the center at some parameter `t > 0`
(`center = origin + t·direction`): over exact arithmetic (any ordered field
of scalars, any square-root routine) the discriminant is `D = 0` and
`intersects_ray` returns false, because the test requires `D > 0` (first
part); in `binary64` the computed `D` is `0` or a rounding residue and both
outcomes occur, a miss for the center `(1, 0, 0)` and the direction
`(1, 0, 0)`, a hit for the center `(5, 0, 0)` and the direction `(0.7, 0, 0)`
(second and third part). -/
theorem intersects_ray_point_sphere :
    (∀ (K : Type) [LinearOrderedField K] (sqrt : K → K) (s : psow.sphere K)
        (r : psow.ray K) (t : K),
        s.radius = 0 → r.v ≠ psow.vec3.mk 0 0 0 → 0 < t → s.center = r.point t →
        s.discr r = 0 ∧ s.intersects_ray sqrt r = false)
    ∧ (psow.sphere.mk (0 : binary64) (psow.vec3.mk 1 0 0)).intersects_ray binary64.sqrt
        (psow.ray.mk (psow.vec3.mk 0 0 0) (psow.vec3.mk 1 0 0)) = false
    ∧ (psow.sphere.mk (0 : binary64) (psow.vec3.mk 5 0 0)).intersects_ray binary64.sqrt
        (psow.ray.mk (psow.vec3.mk 0 0 0) (psow.vec3.mk 0.7 0 0)) = true := by
  refine ⟨?_, point_sphere_miss_binary64.2.2, point_sphere_residue_binary64.2.2.2.2.2⟩
  intro K _ sqrt s r t hrad _hdir _ht hthrough
  have hD : s.discr r = 0 := by
    unfold psow.sphere.discr psow.sphere.coef_a psow.sphere.coef_b psow.sphere.coef_c
      psow.sphere.oc
    rw [hrad, hthrough]
    unfold psow.ray.point psow.vec3.add psow.vec3.smul psow.vec3.sub psow.vec3.dot
      psow.vec3.normsq
    ring
  exact ⟨hD, intersects_ray_false_of_discr_nonpos sqrt s r hD.le⟩

/-- Witness for the amended C6: the point sphere at `(1, 0, 0)` and the ray from
the origin along the x axis, met at `t = 1`. -/
theorem intersects_ray_point_sphere_witness :
    (psow.sphere.mk (0 : ℝ) ⟨1, 0, 0⟩).discr ⟨⟨0, 0, 0⟩, ⟨1, 0, 0⟩⟩ = 0
    ∧ (psow.sphere.mk (0 : ℝ) ⟨1, 0, 0⟩).intersects_ray Real.sqrt
        ⟨⟨0, 0, 0⟩, ⟨1, 0, 0⟩⟩ = false :=
  intersects_ray_point_sphere.1 ℝ Real.sqrt ⟨0, ⟨1, 0, 0⟩⟩ ⟨⟨0, 0, 0⟩, ⟨1, 0, 0⟩⟩ 1
    rfl (by simp) one_pos (by simp [psow.ray.point, psow.vec3.add, psow.vec3.smul])

/-! ## Theorems: color addition -/

/-- Two `unsigned char` values are added exactly by an `unsigned int` of at
least sixteen bits: the sum does not wrap. -/
theorem uint_add_exact (w a b : Nat) (hw : 16 ≤ w) (ha : a < 256) (hb : b < 256) :
    uint_add w (to_uint w a) (to_uint w b) = a + b := by
  have hpow : 2 ^ 16 ≤ 2 ^ w := Nat.pow_le_pow_right (by decide) hw
  have h16 : (2 : Nat) ^ 16 = 65536 := by norm_num
  unfold uint_add to_uint
  rw [Nat.mod_eq_of_lt (by omega : a < 2 ^ w), Nat.mod_eq_of_lt (by omega : b < 2 ^ w)]
  exact Nat.mod_eq_of_lt (by omega)

/-- The saturation step on an exact sum is the minimum with `255`. -/
theorem saturate_eq_min (x : Nat) :
    (if x ≥ 255 then 255 else to_uchar x) = min 255 x := by
  unfold to_uchar
  split_ifs <;> omega

/-- The channels of `c1 + c2` over well-formed colors. -/
theorem color_add_channels (w : Nat) (hw : 16 ≤ w) (c1 c2 : psow.color)
    (h1 : c1.wf) (h2 : c2.wf) :
    c1.add w c2 = psow.color.mk (min 255 (c1.red + c2.red))
      (min 255 (c1.green + c2.green)) (min 255 (c1.blue + c2.blue)) := by
  obtain ⟨hr1, hg1, hb1⟩ := h1
  obtain ⟨hr2, hg2, hb2⟩ := h2
  unfold psow.color.add
  simp only [uint_add_exact w _ _ hw hr2 hr1, uint_add_exact w _ _ hw hg2 hg1,
    uint_add_exact w _ _ hw hb2 hb1, saturate_eq_min]
  rw [Nat.add_comm c2.red, Nat.add_comm c2.green, Nat.add_comm c2.blue]

/-- The channels of `psow_color_add (C1, C2)` over `unsigned char` channels. -/
theorem psow_color_add_channels (w : Nat) (hw : 16 ≤ w) (C1 C2 : psow_color)
    (hr1 : C1.red < 256) (hg1 : C1.green < 256) (hb1 : C1.blue < 256)
    (hr2 : C2.red < 256) (hg2 : C2.green < 256) (hb2 : C2.blue < 256) :
    psow_color_add w C1 C2 = psow_color.mk (min 255 (C1.red + C2.red))
      (min 255 (C1.green + C2.green)) (min 255 (C1.blue + C2.blue)) := by
  unfold psow_color_add
  simp only [uint_add_exact w _ _ hw hr1 hr2, uint_add_exact w _ _ hw hg1 hg2,
    uint_add_exact w _ _ hw hb1 hb2, saturate_eq_min]

/-- Addition of well-formed colors gives a well-formed color. -/
theorem color_add_wf (w : Nat) (hw : 16 ≤ w) (c1 c2 : psow.color)
    (h1 : c1.wf) (h2 : c2.wf) : (c1.add w c2).wf := by
  rw [color_add_channels w hw c1 c2 h1 h2]
  unfold psow.color.wf
  simp only
  omega

/-- C7. For all colors `c1`, `c2` (channels below `256`), each channel of
`c1 + c2` equals `min 255 (c1.channel + c2.channel)`, the sum being the
unbounded sum of natural numbers: the `unsigned int` sum never wraps.  The C
function `psow_color_add` computes the same channels. -/
theorem color_add_saturates (w : Nat) (hw : 16 ≤ w) (c1 c2 : psow.color)
    (h1 : c1.wf) (h2 : c2.wf) :
    (c1.add w c2).red = min 255 (c1.red + c2.red)
    ∧ (c1.add w c2).green = min 255 (c1.green + c2.green)
    ∧ (c1.add w c2).blue = min 255 (c1.blue + c2.blue)
    ∧ (psow_color_add w (psow_color.mk c1.red c1.green c1.blue)
        (psow_color.mk c2.red c2.green c2.blue)).red = (c1.add w c2).red
    ∧ (psow_color_add w (psow_color.mk c1.red c1.green c1.blue)
        (psow_color.mk c2.red c2.green c2.blue)).green = (c1.add w c2).green
    ∧ (psow_color_add w (psow_color.mk c1.red c1.green c1.blue)
        (psow_color.mk c2.red c2.green c2.blue)).blue = (c1.add w c2).blue := by
  rw [color_add_channels w hw c1 c2 h1 h2,
    psow_color_add_channels w hw _ _ h1.1 h1.2.1 h1.2.2 h2.1 h2.2.1 h2.2.2]
  exact ⟨rfl, rfl, rfl, rfl, rfl, rfl⟩

/-- Witness for C7: `(200, 100, 0) + (100, 100, 64)` with a 32-bit
`unsigned int`; the red channel saturates. -/
theorem color_add_saturates_witness :
    ((psow.color.mk 200 100 0).add 32 (psow.color.mk 100 100 64)).red = min 255 (200 + 100)
    ∧ ((psow.color.mk 200 100 0).add 32 (psow.color.mk 100 100 64)).green = min 255 (100 + 100)
    ∧ ((psow.color.mk 200 100 0).add 32 (psow.color.mk 100 100 64)).blue = min 255 (0 + 64)
    ∧ (psow_color_add 32 (psow_color.mk 200 100 0) (psow_color.mk 100 100 64)).red
        = ((psow.color.mk 200 100 0).add 32 (psow.color.mk 100 100 64)).red
    ∧ (psow_color_add 32 (psow_color.mk 200 100 0) (psow_color.mk 100 100 64)).green
        = ((psow.color.mk 200 100 0).add 32 (psow.color.mk 100 100 64)).green
    ∧ (psow_color_add 32 (psow_color.mk 200 100 0) (psow_color.mk 100 100 64)).blue
        = ((psow.color.mk 200 100 0).add 32 (psow.color.mk 100 100 64)).blue :=
  color_add_saturates 32 (by decide) ⟨200, 100, 0⟩ ⟨100, 100, 64⟩ (by decide) (by decide)

/-- C8. For all colors `c1`, `c2` and each channel, the channel of `c1 + c2` is
at least `max c1.channel c2.channel`, and whenever the true sum
`c1.channel + c2.channel` is `255` or more the channel is exactly `255`. -/
theorem color_add_ge_max (w : Nat) (hw : 16 ≤ w) (c1 c2 : psow.color)
    (h1 : c1.wf) (h2 : c2.wf) :
    (max c1.red c2.red ≤ (c1.add w c2).red
      ∧ (255 ≤ c1.red + c2.red → (c1.add w c2).red = 255))
    ∧ (max c1.green c2.green ≤ (c1.add w c2).green
      ∧ (255 ≤ c1.green + c2.green → (c1.add w c2).green = 255))
    ∧ (max c1.blue c2.blue ≤ (c1.add w c2).blue
      ∧ (255 ≤ c1.blue + c2.blue → (c1.add w c2).blue = 255)) := by
  rw [color_add_channels w hw c1 c2 h1 h2]
  obtain ⟨hr1, hg1, hb1⟩ := h1
  obtain ⟨hr2, hg2, hb2⟩ := h2
  simp only
  omega

/-- Witness for C8: `(200, 100, 0) + (100, 100, 64)` with a 32-bit
`unsigned int`. -/
theorem color_add_ge_max_witness :
    (max 200 100 ≤ ((psow.color.mk 200 100 0).add 32 (psow.color.mk 100 100 64)).red
      ∧ (255 ≤ 200 + 100
          → ((psow.color.mk 200 100 0).add 32 (psow.color.mk 100 100 64)).red = 255))
    ∧ (max 100 100 ≤ ((psow.color.mk 200 100 0).add 32 (psow.color.mk 100 100 64)).green
      ∧ (255 ≤ 100 + 100
          → ((psow.color.mk 200 100 0).add 32 (psow.color.mk 100 100 64)).green = 255))
    ∧ (max 0 64 ≤ ((psow.color.mk 200 100 0).add 32 (psow.color.mk 100 100 64)).blue
      ∧ (255 ≤ 0 + 64
          → ((psow.color.mk 200 100 0).add 32 (psow.color.mk 100 100 64)).blue = 255)) :=
  color_add_ge_max 32 (by decide) ⟨200, 100, 0⟩ ⟨100, 100, 64⟩ (by decide) (by decide)

/-- C9. Color addition is commutative: for all colors `c1`, `c2`,
`c1 + c2 = c2 + c1` on every channel (for every width of `unsigned int`). -/
theorem color_add_comm (w : Nat) (c1 c2 : psow.color) :
    c1.add w c2 = c2.add w c1 := by
  unfold psow.color.add uint_add
  simp only [Nat.add_comm (to_uint w c2.red), Nat.add_comm (to_uint w c2.green),
    Nat.add_comm (to_uint w c2.blue)]

/-- C10. Color addition is associative under saturation: for all colors `c1`,
`c2`, `c3`, `(c1 + c2) + c3 = c1 + (c2 + c3)` on every channel, also when an
intermediate sum saturates at `255`. -/
theorem color_add_assoc (w : Nat) (hw : 16 ≤ w) (c1 c2 c3 : psow.color)
    (h1 : c1.wf) (h2 : c2.wf) (h3 : c3.wf) :
    (c1.add w c2).add w c3 = c1.add w (c2.add w c3) := by
  have h12 := color_add_wf w hw c1 c2 h1 h2
  have h23 := color_add_wf w hw c2 c3 h2 h3
  rw [color_add_channels w hw _ c3 h12 h3, color_add_channels w hw c1 _ h1 h23,
    color_add_channels w hw c1 c2 h1 h2, color_add_channels w hw c2 c3 h2 h3]
  simp only [psow.color.mk.injEq]
  omega

/-- Witness for C10: `((200, 100, 0) + (100, 100, 64)) + (1, 100, 255)` with a
32-bit `unsigned int`; the red sum saturates at the first step. -/
theorem color_add_assoc_witness :
    ((psow.color.mk 200 100 0).add 32 (psow.color.mk 100 100 64)).add 32
        (psow.color.mk 1 100 255)
      = (psow.color.mk 200 100 0).add 32
          ((psow.color.mk 100 100 64).add 32 (psow.color.mk 1 100 255)) :=
  color_add_assoc 32 (by decide) ⟨200, 100, 0⟩ ⟨100, 100, 64⟩ ⟨1, 100, 255⟩
    (by decide) (by decide) (by decide)

/-- Evaluation of `operator +`: `(254, 0, 1) + (0, 0, 253)` with a 16-bit
`unsigned int` is `(254, 0, 254)`; no channel reaches `255`. -/
theorem color_add_eval :
    (psow.color.mk 254 0 1).add 16 (psow.color.mk 0 0 253) = psow.color.mk 254 0 254 := by
  decide

/-- Evaluation of `psow_color_add`: white plus white is white. -/
theorem psow_color_add_eval :
    psow_color_add 32 (psow_color.mk 255 255 255) (psow_color.mk 255 255 255)
      = psow_color.mk 255 255 255 := by
  decide

/-! ## Theorems: scaling of colors -/

section scale_lemmas

variable {K : Type} [LinearOrderedField K] [FloorRing K]

/-- `trunc` rounds toward zero: it keeps the sign of its argument, does not
exceed it in absolute value, and is less than one away from it. -/
theorem trunc_toward_zero (x : K) :
    (0 ≤ x → 0 ≤ trunc x ∧ (trunc x : K) ≤ x ∧ x < (trunc x : K) + 1)
    ∧ (x < 0 → trunc x ≤ 0 ∧ x ≤ (trunc x : K) ∧ (trunc x : K) - 1 < x) := by
  constructor
  · intro hx
    unfold trunc
    rw [if_pos hx]
    exact ⟨Int.floor_nonneg.mpr hx, Int.floor_le x, Int.lt_floor_add_one x⟩
  · intro hx
    unfold trunc
    rw [if_neg (not_le.mpr hx)]
    refine ⟨Int.ceil_le.mpr (by simpa using hx.le), Int.le_ceil x, ?_⟩
    have := Int.ceil_lt_add_one x
    linarith

/-- A non-negative value is truncated to its floor. -/
theorem trunc_of_nonneg (x : K) (hx : 0 ≤ x) : trunc x = ⌊x⌋ := by
  unfold trunc
  rw [if_pos hx]

/-- An integer value is its own truncation. -/
theorem trunc_intCast (z : Int) : trunc (z : K) = z := by
  unfold trunc
  split_ifs
  · exact Int.floor_intCast z
  · exact Int.ceil_intCast z

/-- In exact arithmetic the conversion to `unsigned char` is the truncation
toward zero, reduced modulo `256`. -/
theorem double_to_uchar_exact (x : K) : double_to_uchar x = (trunc x % 256).toNat := rfl

/-- The conversion to `unsigned char` always yields a value below `256`. -/
theorem double_to_uchar_lt (x : K) : double_to_uchar x < 256 := by
  simp only [double_to_uchar_exact]
  have h1 : 0 ≤ trunc x % 256 := Int.emod_nonneg _ (by decide)
  have h2 : trunc x % 256 < 256 := Int.emod_lt_of_pos _ (by decide)
  omega

/-- Within `[0, 256)` the conversion to `unsigned char` is the floor: nothing
wraps. -/
theorem double_to_uchar_of_range (x : K) (h0 : 0 ≤ x) (h1 : x < 256) :
    (double_to_uchar x : Int) = ⌊x⌋ ∧ double_to_uchar x = ⌊x⌋.toNat := by
  have hf0 : 0 ≤ ⌊x⌋ := Int.floor_nonneg.mpr h0
  have hf1 : ⌊x⌋ < 256 := by
    rw [Int.floor_lt]
    exact_mod_cast h1
  simp only [double_to_uchar_exact]
  rw [trunc_of_nonneg x h0, Int.emod_eq_of_lt hf0 hf1]
  exact ⟨Int.toNat_of_nonneg hf0, rfl⟩

/-- The conversion to `unsigned char` of a natural number keeps its low eight
bits. -/
theorem double_to_uchar_natCast (n : Nat) : double_to_uchar (n : K) = n % 256 := by
  simp only [double_to_uchar_exact]
  have h : ((n : Int) : K) = (n : K) := by push_cast; rfl
  rw [← h, trunc_intCast]
  omega

end scale_lemmas

/-- A channel scaled by a factor in `[0, 1]` stays in `[0, 256)`. -/
theorem scaled_channel_range {K : Type} [LinearOrderedField K] (a : K) (n : Nat)
    (h0 : 0 ≤ a) (h1 : a ≤ 1) (hn : n < 256) :
    0 ≤ a * (n : K) ∧ a * (n : K) < 256 := by
  have hn0 : (0 : K) ≤ (n : K) := Nat.cast_nonneg n
  have hn1 : (n : K) < 256 := by exact_mod_cast hn
  constructor
  · exact mul_nonneg h0 hn0
  · nlinarith

/-- Evaluation of `operator *` inside the range: `(128, 180, 255) * 0.5` is
`(64, 90, 127)`. -/
theorem color_scale_eval_half {K : Type} [LinearOrderedField K] [FloorRing K] :
    (psow.color.mk 128 180 255).scale (0.5 : K) = psow.color.mk 64 90 127 := by
  have h1 : (0.5 : K) * ((128 : Nat) : K) = ((64 : Nat) : K) := by norm_num
  have h2 : (0.5 : K) * ((180 : Nat) : K) = ((90 : Nat) : K) := by norm_num
  have h3 : double_to_uchar ((0.5 : K) * ((255 : Nat) : K)) = 127 := by
    have hx0 : (0 : K) ≤ 0.5 * ((255 : Nat) : K) := by norm_num
    have hx1 : (0.5 : K) * ((255 : Nat) : K) < 256 := by norm_num
    rw [(double_to_uchar_of_range _ hx0 hx1).2]
    have hf : ⌊(0.5 : K) * ((255 : Nat) : K)⌋ = 127 := by
      rw [Int.floor_eq_iff]
      norm_num
    rw [hf]
    rfl
  unfold psow.color.scale
  simp only [h1, h2, h3, double_to_uchar_natCast]

/-- C13. For every color `c` (channels below `256`), `c * 1.0 = c` and
`c * 0.0 = (0, 0, 0)`. -/
theorem color_scale_one_zero {K : Type} [LinearOrderedField K] [FloorRing K]
    (c : psow.color) (hc : c.wf) :
    c.scale (1 : K) = c ∧ c.scale (0 : K) = psow.color.mk 0 0 0 := by
  obtain ⟨hr, hg, hb⟩ := hc
  have hz : ((0 : Nat) : K) = 0 := Nat.cast_zero
  constructor
  · unfold psow.color.scale
    simp only [one_mul, double_to_uchar_natCast]
    rw [Nat.mod_eq_of_lt hr, Nat.mod_eq_of_lt hg, Nat.mod_eq_of_lt hb]
  · unfold psow.color.scale
    simp only [zero_mul]
    rw [← hz, double_to_uchar_natCast]

/-- Witness for C13: sky blue `(128, 180, 255)` over `ℝ`. -/
theorem color_scale_one_zero_witness :
    (psow.color.mk 128 180 255).scale (1 : ℝ) = psow.color.mk 128 180 255
    ∧ (psow.color.mk 128 180 255).scale (0 : ℝ) = psow.color.mk 0 0 0 :=
  color_scale_one_zero ⟨128, 180, 255⟩ (by decide)

/-- Scaling gives channels below `256` whatever the color and the factor. -/
theorem color_scale_wf {K : Type} [LinearOrderedField K] [FloorRing K]
    (c : psow.color) (a : K) : (c.scale a).wf :=
  ⟨double_to_uchar_lt _, double_to_uchar_lt _, double_to_uchar_lt _⟩

/-- C14. Channel-range invariant: for all colors with channels in `[0, 255]`
and every factor `a`, every channel of `c1 + c2` and of `c1 * a` is again in
`[0, 255]`. -/
theorem color_channel_range {K : Type} [LinearOrderedField K] [FloorRing K]
    (w : Nat) (hw : 16 ≤ w) (c1 c2 : psow.color) (a : K) (h1 : c1.wf) (h2 : c2.wf) :
    ((c1.add w c2).red ≤ 255 ∧ (c1.add w c2).green ≤ 255 ∧ (c1.add w c2).blue ≤ 255)
    ∧ ((c1.scale a).red ≤ 255 ∧ (c1.scale a).green ≤ 255 ∧ (c1.scale a).blue ≤ 255) := by
  obtain ⟨ar, ag, ab⟩ := color_add_wf w hw c1 c2 h1 h2
  obtain ⟨sr, sg, sb⟩ := color_scale_wf c1 a
  omega

/-- Witness for C14: `(200, 100, 0) + (100, 100, 64)` with a 32-bit
`unsigned int`, and `(200, 100, 0) * 3` over `ℝ`. -/
theorem color_channel_range_witness :
    (((psow.color.mk 200 100 0).add 32 (psow.color.mk 100 100 64)).red ≤ 255
      ∧ ((psow.color.mk 200 100 0).add 32 (psow.color.mk 100 100 64)).green ≤ 255
      ∧ ((psow.color.mk 200 100 0).add 32 (psow.color.mk 100 100 64)).blue ≤ 255)
    ∧ (((psow.color.mk 200 100 0).scale (3 : ℝ)).red ≤ 255
      ∧ ((psow.color.mk 200 100 0).scale (3 : ℝ)).green ≤ 255
      ∧ ((psow.color.mk 200 100 0).scale (3 : ℝ)).blue ≤ 255) :=
  color_channel_range 32 (by decide) ⟨200, 100, 0⟩ ⟨100, 100, 64⟩ (3 : ℝ)
    (by decide) (by decide)

/-! ## Theorems: the camera and the pixel coordinates -/

section coord_lemmas

variable {K : Type} [LinearOrderedField K]

/-- For an image at least two pixels wide, `image_width - 1U` is positive as a
`double`. -/
theorem pred_cast_pos (N : Nat) (hN : 2 ≤ N) : (0 : K) < ((N - 1 : Nat) : K) := by
  have h : 0 < N - 1 := by omega
  exact_mod_cast h

/-- The coordinate `u` is `n / (image_width - 1)`. -/
theorem coord_u_eq (W n : Nat) : (coord_u W n : K) = (n : K) / ((W - 1 : Nat) : K) := by
  unfold coord_u width_factor
  rw [mul_one_div]

/-- The coordinate `v` is `m / (image_height - 1)`. -/
theorem coord_v_eq (H m : Nat) : (coord_v H m : K) = (m : K) / ((H - 1 : Nat) : K) := by
  unfold coord_v height_factor
  rw [mul_one_div]

/-- Every column `n` of the inner loop has `u` in `[0, 1]`. -/
theorem coord_u_range (W n : Nat) (hW : 2 ≤ W) (hn : n < W) :
    (0 : K) ≤ coord_u W n ∧ (coord_u W n : K) ≤ 1 := by
  have hpos : (0 : K) < ((W - 1 : Nat) : K) := pred_cast_pos W hW
  have hle : (n : K) ≤ ((W - 1 : Nat) : K) := by
    have h : n ≤ W - 1 := by omega
    exact_mod_cast h
  rw [coord_u_eq]
  exact ⟨div_nonneg (Nat.cast_nonneg n) hpos.le, (div_le_one hpos).mpr hle⟩

/-- Every row `m` of the outer loop has `v` in `(0, 2]`, and `v ≤ 1` exactly
when `m` is not the first row `m = image_height`. -/
theorem coord_v_range (H m : Nat) (hH : 2 ≤ H) (hm1 : 1 ≤ m) (hm : m ≤ H) :
    (0 : K) < coord_v H m ∧ (coord_v H m : K) ≤ 2
      ∧ ((coord_v H m : K) ≤ 1 ↔ m ≤ H - 1) := by
  have hpos : (0 : K) < ((H - 1 : Nat) : K) := pred_cast_pos H hH
  have hmpos : (0 : K) < (m : K) := by exact_mod_cast hm1
  have hle : (m : K) ≤ 2 * ((H - 1 : Nat) : K) := by
    have h : m ≤ 2 * (H - 1) := by omega
    exact_mod_cast h
  rw [coord_v_eq]
  refine ⟨div_pos hmpos hpos, (div_le_iff₀ hpos).mpr hle, ?_⟩
  rw [div_le_one hpos]
  exact Nat.cast_le

/-- The first row of the outer loop, `m = image_height`, has `v > 1`. -/
theorem coord_v_first_row (H : Nat) (hH : 2 ≤ H) : (1 : K) < coord_v H H := by
  have hpos : (0 : K) < ((H - 1 : Nat) : K) := pred_cast_pos H hH
  have hlt : ((H - 1 : Nat) : K) < (H : K) := by
    have h : H - 1 < H := by omega
    exact_mod_cast h
  rw [coord_v_eq, one_lt_div hpos]
  exact hlt

end coord_lemmas

/-- The program's own `image_height`: for `image_width = 1920` it is `1080`. -/
theorem image_height_eval {K : Type} [LinearOrderedField K] [FloorRing K] :
    image_height K 1920 = 1080 := by
  have h : (((1920 : Nat) : K)) / aspect_ratio = ((1080 : Int) : K) := by
    unfold aspect_ratio
    norm_num
  unfold image_height
  rw [h, trunc_intCast]
  rfl

/-- C15, failing input.  In the program's own run (`image_width = 1920`,
`image_height = 1080`) the first iteration of the outer loop, `m = 1080`,
computes `v = 1080/1079 > 1`, outside `[0, 1]`, and the last one, `m = 1`,
computes `v = 1/1079`, not `0`; the columns `n = 0` and `n = 1919` do give
`u = 0` and `u = 1`. -/
theorem coord_v_exceeds_one :
    image_height ℝ 1920 = 1080
    ∧ (coord_v 1080 1080 : ℝ) = 1080 / 1079
    ∧ (1 : ℝ) < coord_v 1080 1080
    ∧ (coord_v 1080 1 : ℝ) = 1 / 1079
    ∧ (coord_u 1920 0 : ℝ) = 0
    ∧ (coord_u 1920 1919 : ℝ) = 1 := by
  refine ⟨image_height_eval, ?_, coord_v_first_row 1080 (by decide), ?_, ?_, ?_⟩
  · rw [coord_v_eq]
    norm_num
  · rw [coord_v_eq]
    norm_num
  · rw [coord_u_eq]
    norm_num
  · rw [coord_u_eq]
    norm_num

/-- C16. The camera's `lower_left_corner` equals
`origin − horizontal/2 − vertical/2 − (0, 0, focal_length)`: the three programs
compute the same vector, and for the reference constants (origin `0`, viewport
`32/9 × 2`, focal length `1`) it is `(−16/9, −1, −1)`. -/
theorem lower_left_corner_eq {K : Type} [LinearOrderedField K] :
    (∀ (o h v : psow.vec3 K) (f : K),
        example_ray_and_sphere.lower_left_corner o h v (psow.vec3.mk 0 0 f)
          = psow.vec3.mk (o.x - h.x / 2 - v.x / 2 - 0) (o.y - h.y / 2 - v.y / 2 - 0)
              (o.z - h.z / 2 - v.z / 2 - f)
        ∧ example_ray.lower_left_corner o h v (psow.vec3.mk 0 0 f)
          = example_ray_and_sphere.lower_left_corner o h v (psow.vec3.mk 0 0 f)
        ∧ ray_struct_with_sphere.lower_left_corner o h v f
          = example_ray_and_sphere.lower_left_corner o h v (psow.vec3.mk 0 0 f))
    ∧ (viewport_width : K) = 32 / 9
    ∧ example_ray_and_sphere.lower_left_corner (origin : psow.vec3 K) horizontal vertical
          focal_point = psow.vec3.mk (-16 / 9) (-1) (-1)
    ∧ example_ray.lower_left_corner (origin : psow.vec3 K) horizontal vertical
          focal_point = psow.vec3.mk (-16 / 9) (-1) (-1)
    ∧ ray_struct_with_sphere.lower_left_corner (origin : psow.vec3 K) horizontal vertical
          focal_length = psow.vec3.mk (-16 / 9) (-1) (-1) := by
  refine ⟨fun o h v f => ⟨?_, ?_, ?_⟩, ?_, ?_, ?_, ?_⟩
  · simp only [example_ray_and_sphere.lower_left_corner, psow.vec3.sub, psow.vec3.lsmul,
      psow.vec3.add, psow.vec3.mk.injEq]
    refine ⟨?_, ?_, ?_⟩ <;> norm_num <;> ring
  · simp only [example_ray_and_sphere.lower_left_corner, example_ray.lower_left_corner,
      psow.vec3.sub, psow.vec3.lsmul, psow.vec3.smul, psow.vec3.add, psow.vec3.mk.injEq]
    refine ⟨?_, ?_, ?_⟩ <;> ring
  · simp only [example_ray_and_sphere.lower_left_corner,
      ray_struct_with_sphere.lower_left_corner,
      psow.vec3.sub, psow.vec3.lsmul, psow.vec3.smul, psow.vec3.add, psow.vec3.mk.injEq]
    refine ⟨?_, ?_, ?_⟩ <;> ring
  · unfold viewport_width viewport_height aspect_ratio
    norm_num
  · simp only [example_ray_and_sphere.lower_left_corner, psow.vec3.sub, psow.vec3.lsmul,
      psow.vec3.add, origin, horizontal, vertical, focal_point, viewport_width,
      viewport_height, aspect_ratio, focal_length, psow.vec3.mk.injEq]
    refine ⟨?_, ?_, ?_⟩ <;> norm_num
  · simp only [example_ray.lower_left_corner, psow.vec3.sub, psow.vec3.smul,
      origin, horizontal, vertical, focal_point, viewport_width,
      viewport_height, aspect_ratio, focal_length, psow.vec3.mk.injEq]
    refine ⟨?_, ?_, ?_⟩ <;> norm_num
  · simp only [ray_struct_with_sphere.lower_left_corner, psow.vec3.sub, psow.vec3.smul,
      origin, horizontal, vertical, viewport_width,
      viewport_height, aspect_ratio, focal_length, psow.vec3.mk.injEq]
    refine ⟨?_, ?_, ?_⟩ <;> norm_num

/-! ## Theorems: the render loop -/

/-- Method `write` appends the three channel bytes. -/
theorem color_write_eq (c : psow.color) (fp : FILE) : c.write fp = fp ++ c.bytes := by
  unfold psow.color.write fputc psow.color.bytes
  simp

/-- The inner loop entered at column `n` appends what its body appends for the
columns `n, n + 1, …, image_width − 1`, in this order. -/
theorem for_columns_eq (W : Nat) (body : Nat → FILE → FILE) (g : Nat → List Nat)
    (hbody : ∀ n fp, body n fp = fp ++ g n) :
    ∀ (d n : Nat) (fp : FILE), W - n = d →
      for_columns W body n fp = fp ++ (List.range' n d).flatMap g := by
  intro d
  induction d with
  | zero =>
    intro n fp hd
    rw [for_columns, if_neg (by omega)]
    simp
  | succ d ih =>
    intro n fp hd
    rw [for_columns, if_pos (by omega), ih (n + 1) (body n fp) (by omega), hbody,
      List.range'_succ, List.flatMap_cons, List.append_assoc]

/-- The inner loop entered at column `0`. -/
theorem for_columns_zero (W : Nat) (body : Nat → FILE → FILE) (g : Nat → List Nat)
    (hbody : ∀ n fp, body n fp = fp ++ g n) (fp : FILE) :
    for_columns W body 0 fp = fp ++ (List.range W).flatMap g := by
  rw [for_columns_eq W body g hbody W 0 fp (by omega), List.range_eq_range']

/-- The outer loop appends what its body appends for the rows
`image_height, image_height − 1, …, 1`, in this order. -/
theorem for_rows_eq (body : Nat → FILE → FILE) (row : Nat → List Nat)
    (hbody : ∀ m fp, body m fp = fp ++ row m) :
    ∀ (H : Nat) (fp : FILE),
      for_rows body H fp = fp ++ ((List.range H).map (fun i => H - i)).flatMap row := by
  intro H
  induction H with
  | zero =>
    intro fp
    simp [for_rows]
  | succ H ih =>
    intro fp
    have hfun : ((fun i => H + 1 - i) ∘ Nat.succ) = (fun i => H - i) := by
      funext i
      simp only [Function.comp_apply, Nat.succ_eq_add_one]
      omega
    rw [for_rows, ih, hbody, List.range_succ_eq_map, List.map_cons, List.flatMap_cons,
      List.map_map, List.append_assoc, hfun, Nat.sub_zero]

/-- Rows of `W` entries laid one after another are indexed by `k ↦ (k / W, k % W)`. -/
theorem flatMap_range_rows (W H : Nat) (hW : 0 < W) (f : Nat → Nat → List Nat) :
    (List.range H).flatMap (fun i => (List.range W).flatMap (fun n => f i n))
      = (List.range (W * H)).flatMap (fun k => f (k / W) (k % W)) := by
  induction H with
  | zero => simp
  | succ H ih =>
    rw [List.range_succ, List.flatMap_append, ih, List.flatMap_singleton, Nat.mul_succ,
      List.range_add, List.flatMap_append, List.flatMap_map]
    congr 1
    apply List.flatMap_congr
    intro n hn
    have hn' : n < W := List.mem_range.mp hn
    have h1 : (W * H + n) / W = H := by
      rw [Nat.add_comm, Nat.add_mul_div_left _ _ hW, Nat.div_eq_of_lt hn', Nat.zero_add]
    have h2 : (W * H + n) % W = n := by
      rw [Nat.add_comm, Nat.add_mul_mod_self_left, Nat.mod_eq_of_lt hn']
    rw [h1, h2]

/-- The two nested loops append the bytes of `pixels_in_order`. -/
theorem render_loops_eq (px : Nat → Nat → psow.color) (W H : Nat) (hW : 0 < W) (fp : FILE) :
    for_rows (fun m fp => for_columns W (fun n fp => (px m n).write fp) 0 fp) H fp
      = fp ++ (pixels_in_order px W H).flatMap psow.color.bytes := by
  have hrow : ∀ m fp, for_columns W (fun n fp => (px m n).write fp) 0 fp
      = fp ++ (List.range W).flatMap (fun n => (px m n).bytes) := by
    intro m fp
    exact for_columns_zero W _ (fun n => (px m n).bytes) (fun n fp => color_write_eq _ fp) fp
  rw [for_rows_eq _ (fun m => (List.range W).flatMap (fun n => (px m n).bytes)) hrow,
    List.flatMap_map, flatMap_range_rows W H hW (fun i n => (px (H - i) n).bytes)]
  unfold pixels_in_order
  rw [List.flatMap_map]

/-- The stated pixel list has `W * H` pixels and `3 * W * H` bytes. -/
theorem pixels_in_order_length (px : Nat → Nat → psow.color) (W H : Nat) :
    (pixels_in_order px W H).length = W * H
    ∧ ((pixels_in_order px W H).flatMap psow.color.bytes).length = 3 * W * H := by
  have hlen : ∀ l : List psow.color, (l.flatMap psow.color.bytes).length = 3 * l.length := by
    intro l
    induction l with
    | nil => rfl
    | cons c l ih =>
      rw [List.flatMap_cons, List.length_append, ih, List.length_cons]
      unfold psow.color.bytes
      simp only [List.length_cons, List.length_nil]
      omega
  have h1 : (pixels_in_order px W H).length = W * H := by
    unfold pixels_in_order
    rw [List.length_map, List.length_range]
  refine ⟨h1, ?_⟩
  rw [hlen, h1, Nat.mul_assoc]

/-- The `k`-th entry of `pixels_in_order` is the pixel of row `H − k / W` and
column `k % W`. -/
theorem pixels_in_order_get (px : Nat → Nat → psow.color) (W H k : Nat) (hk : k < W * H) :
    (pixels_in_order px W H)[k]? = some (px (H - k / W) (k % W)) := by
  unfold pixels_in_order
  rw [List.getElem?_map, List.getElem?_range hk]
  rfl

/-- What `main` of `example_ray.cpp` writes to a file that was opened. -/
theorem example_ray_main_eq {K : Type} [LinearOrderedField K] [FloorRing K]
    (w : Nat) (sqrt : K → K) (W H : Nat) (hW : 0 < W) (fp : FILE) :
    (example_ray.main w sqrt W H (some fp)).2
      = fprintf_header fp W H
        ++ (pixels_in_order (example_ray.pixel w sqrt W H) W H).flatMap psow.color.bytes := by
  unfold example_ray.main
  exact render_loops_eq _ W H hW _

/-- What `main` of `example_ray_and_sphere.cpp` writes to a file that was
opened. -/
theorem example_ray_and_sphere_main_eq {K : Type} [LinearOrderedField K] [FloorRing K]
    (w : Nat) (sqrt : K → K) (W H : Nat) (hW : 0 < W) (fp : FILE) :
    (example_ray_and_sphere.main w sqrt W H (some fp)).2
      = fprintf_header fp W H
        ++ (pixels_in_order (example_ray_and_sphere.pixel w sqrt W H) W H).flatMap
            psow.color.bytes := by
  unfold example_ray_and_sphere.main
  exact render_loops_eq _ W H hW _

/-- What `main` of `ray_struct_with_sphere.cpp` writes to a file that was
opened. -/
theorem ray_struct_with_sphere_main_eq {K : Type} [LinearOrderedField K] [FloorRing K]
    (w : Nat) (sqrt : K → K) (W H : Nat) (hW : 0 < W) (fp : FILE) :
    (ray_struct_with_sphere.main w sqrt W H (some fp)).2
      = fprintf_header fp W H
        ++ (pixels_in_order (ray_struct_with_sphere.pixel w sqrt W H) W H).flatMap
            psow.color.bytes := by
  unfold ray_struct_with_sphere.main
  exact render_loops_eq _ W H hW _

/-- C17. For image dimensions `W, H ≥ 2` the render loop of
`example_ray_and_sphere.cpp` and of `ray_struct_with_sphere.cpp` writes, after
the header, exactly `W·H` pixels, that is `3·W·H` bytes, and the `k`-th pixel
(from `0`) is the one computed for row `m = H − k / W` and column `n = k % W`:
rows `H, H−1, …, 1`, and columns `0, …, W−1` within a row. -/
theorem render_emits_in_order {K : Type} [LinearOrderedField K] [FloorRing K]
    (w : Nat) (sqrt : K → K) (W H : Nat) (hW : 2 ≤ W) (_hH : 2 ≤ H) (fp : FILE) :
    ((example_ray_and_sphere.main w sqrt W H (some fp)).2
        = fprintf_header fp W H
          ++ (pixels_in_order (example_ray_and_sphere.pixel w sqrt W H) W H).flatMap
              psow.color.bytes
      ∧ (pixels_in_order (example_ray_and_sphere.pixel w sqrt W H) W H).length = W * H
      ∧ ((pixels_in_order (example_ray_and_sphere.pixel w sqrt W H) W H).flatMap
            psow.color.bytes).length = 3 * W * H
      ∧ ∀ k, k < W * H →
          (pixels_in_order (example_ray_and_sphere.pixel w sqrt W H) W H)[k]?
            = some (example_ray_and_sphere.pixel w sqrt W H (H - k / W) (k % W)))
    ∧ ((ray_struct_with_sphere.main w sqrt W H (some fp)).2
        = fprintf_header fp W H
          ++ (pixels_in_order (ray_struct_with_sphere.pixel w sqrt W H) W H).flatMap
              psow.color.bytes
      ∧ (pixels_in_order (ray_struct_with_sphere.pixel w sqrt W H) W H).length = W * H
      ∧ ((pixels_in_order (ray_struct_with_sphere.pixel w sqrt W H) W H).flatMap
            psow.color.bytes).length = 3 * W * H
      ∧ ∀ k, k < W * H →
          (pixels_in_order (ray_struct_with_sphere.pixel w sqrt W H) W H)[k]?
            = some (ray_struct_with_sphere.pixel w sqrt W H (H - k / W) (k % W))) := by
  have hW0 : 0 < W := by omega
  exact ⟨⟨example_ray_and_sphere_main_eq w sqrt W H hW0 fp,
      (pixels_in_order_length _ W H).1, (pixels_in_order_length _ W H).2,
      fun k hk => pixels_in_order_get _ W H k hk⟩,
    ⟨ray_struct_with_sphere_main_eq w sqrt W H hW0 fp,
      (pixels_in_order_length _ W H).1, (pixels_in_order_length _ W H).2,
      fun k hk => pixels_in_order_get _ W H k hk⟩⟩

/-- Witness for C17: a `3 × 2` image over `ℝ`, written to an empty file with a
32-bit `unsigned int`. -/
theorem render_emits_in_order_witness :
    (example_ray_and_sphere.main 32 Real.sqrt 3 2 (some [])).2
      = fprintf_header [] 3 2
        ++ (pixels_in_order (example_ray_and_sphere.pixel 32 Real.sqrt 3 2) 3 2).flatMap
            psow.color.bytes :=
  (render_emits_in_order 32 Real.sqrt 3 2 (by decide) (by decide) []).1.1

/-- The header of a `2 × 2` image is the text `P6\n2 2\n255\n`. -/
theorem fprintf_header_two_by_two :
    fprintf_header [] 2 2 = [80, 54, 10, 50, 32, 50, 10, 50, 53, 53, 10]
    ∧ "P6\n2 2\n255\n".toList.map Char.toNat = [80, 54, 10, 50, 32, 50, 10, 50, 53, 53, 10] := by
  constructor
  · decide
  · decide

/-- C18. For a `2 × 2` render, `main` of `example_ray.cpp` writes to the fresh
file the header bytes `P6\n2 2\n255\n` followed by exactly 12 pixel bytes, the
pixels of `(m, n) = (2, 0), (2, 1), (1, 0), (1, 1)`, and nothing else. -/
theorem render_two_by_two {K : Type} [LinearOrderedField K] [FloorRing K]
    (w : Nat) (sqrt : K → K) :
    (example_ray.main w sqrt 2 2 (some [])).2
      = [80, 54, 10, 50, 32, 50, 10, 50, 53, 53, 10]
        ++ ((example_ray.pixel w sqrt 2 2 2 0).bytes ++ (example_ray.pixel w sqrt 2 2 2 1).bytes
          ++ (example_ray.pixel w sqrt 2 2 1 0).bytes ++ (example_ray.pixel w sqrt 2 2 1 1).bytes)
    ∧ ((example_ray.pixel w sqrt 2 2 2 0).bytes ++ (example_ray.pixel w sqrt 2 2 2 1).bytes
          ++ (example_ray.pixel w sqrt 2 2 1 0).bytes
          ++ (example_ray.pixel w sqrt 2 2 1 1).bytes).length = 12
    ∧ (example_ray.main w sqrt 2 2 (some [])).2.length = 11 + 12
    ∧ "P6\n2 2\n255\n".toList.map Char.toNat = [80, 54, 10, 50, 32, 50, 10, 50, 53, 53, 10] := by
  have hmain := example_ray_main_eq w sqrt 2 2 (by decide) []
  have hpx : (pixels_in_order (example_ray.pixel w sqrt 2 2) 2 2).flatMap psow.color.bytes
      = (example_ray.pixel w sqrt 2 2 2 0).bytes ++ (example_ray.pixel w sqrt 2 2 2 1).bytes
          ++ (example_ray.pixel w sqrt 2 2 1 0).bytes
          ++ (example_ray.pixel w sqrt 2 2 1 1).bytes := by
    unfold pixels_in_order
    simp [List.range_succ, List.flatMap_cons]
  rw [hmain, hpx, fprintf_header_two_by_two.1]
  refine ⟨rfl, ?_, ?_, fprintf_header_two_by_two.2⟩
  · simp [psow.color.bytes]
  · simp [psow.color.bytes]

/-! ## Theorems: the reference scene -/

section scene_lemmas

variable {K : Type} [LinearOrderedField K]

/-- The camera ray direction of `example_ray.cpp` for row `m` and column `n`:
`((32/9) u − 16/9, 2 v − 1, −1)`. -/
theorem example_ray_direction_eq (W H m n : Nat) :
    (example_ray.direction W H m n : psow.vec3 K)
      = psow.vec3.mk (32 / 9 * coord_u W n - 16 / 9) (2 * coord_v H m - 1) (-1) := by
  simp only [example_ray.direction, example_ray.lower_left_corner, psow.vec3.sub,
    psow.vec3.smul, psow.vec3.add, origin, horizontal, vertical, focal_point,
    viewport_width, viewport_height, aspect_ratio, focal_length, psow.vec3.mk.injEq]
  refine ⟨?_, ?_, ?_⟩ <;> ring

/-- The camera ray direction of `example_ray_and_sphere.cpp` for row `m` and
column `n`: `((32/9) u − 16/9, 2 v − 1, −1)`. -/
theorem example_ray_and_sphere_direction_eq (W H m n : Nat) :
    (example_ray_and_sphere.direction W H m n : psow.vec3 K)
      = psow.vec3.mk (32 / 9 * coord_u W n - 16 / 9) (2 * coord_v H m - 1) (-1) := by
  simp only [example_ray_and_sphere.direction, example_ray_and_sphere.lower_left_corner,
    psow.vec3.sub, psow.vec3.smul, psow.vec3.lsmul, psow.vec3.add, origin, horizontal,
    vertical, focal_point, viewport_width, viewport_height, aspect_ratio, focal_length,
    psow.vec3.mk.injEq]
  refine ⟨?_, ?_, ?_⟩ <;> ring

/-- For the reference sphere and a ray from the origin with direction
`(x, y, −1)`: `b = −2` and `D = 1 − 3 (x² + y²)`. -/
theorem reference_sphere_coefs (x y : K) :
    (example_ray_and_sphere.s : psow.sphere K).coef_b
        (psow.ray.mk origin (psow.vec3.mk x y (-1))) = -2
    ∧ (example_ray_and_sphere.s : psow.sphere K).discr
        (psow.ray.mk origin (psow.vec3.mk x y (-1))) = 1 - 3 * (x * x + y * y) := by
  simp only [psow.sphere.discr, psow.sphere.coef_a, psow.sphere.coef_b, psow.sphere.coef_c,
    psow.sphere.oc, psow.vec3.dot, psow.vec3.normsq, psow.vec3.sub, example_ray_and_sphere.s,
    origin]
  constructor
  · norm_num
  · norm_num
    ring

end scene_lemmas

/-- For the reference sphere, a ray from the origin with direction `(x, y, −1)`
is a hit exactly when `x² + y² < 1/3`. -/
theorem reference_sphere_hit_iff (x y : ℝ) :
    (example_ray_and_sphere.s : psow.sphere ℝ).intersects_ray Real.sqrt
        (psow.ray.mk origin (psow.vec3.mk x y (-1))) = true
      ↔ x * x + y * y < 1 / 3 := by
  obtain ⟨hb, hD⟩ := reference_sphere_coefs x y
  rw [intersects_ray_eq_decide, hb, hD, decide_eq_true_eq]
  have hs := Real.sqrt_nonneg (1 - 3 * (x * x + y * y))
  constructor
  · rintro ⟨h, _⟩
    linarith
  · intro h
    exact ⟨by linarith, by linarith⟩

/-- The pixel of `example_ray_and_sphere.cpp` is `red` when the ray direction
`(x, y, −1)` has `x² + y² < 1/3`. -/
theorem pixel_red_of_inside (w W H m n : Nat)
    (h : (32 / 9 * coord_u W n - 16 / 9 : ℝ) * (32 / 9 * coord_u W n - 16 / 9)
        + (2 * coord_v H m - 1) * (2 * coord_v H m - 1) < 1 / 3) :
    example_ray_and_sphere.pixel w Real.sqrt W H m n = psow.color.mk 255 0 0 := by
  unfold example_ray_and_sphere.pixel
  simp only [example_ray_and_sphere_direction_eq]
  rw [if_pos ((reference_sphere_hit_iff _ _).mpr h)]
  rfl

/-- The pixel of `example_ray_and_sphere.cpp` is the sky gradient when the ray
direction `(x, y, −1)` has `x² + y² ≥ 1/3`. -/
theorem pixel_sky_of_outside (w W H m n : Nat)
    (h : 1 / 3 ≤ (32 / 9 * coord_u W n - 16 / 9 : ℝ) * (32 / 9 * coord_u W n - 16 / 9)
        + (2 * coord_v H m - 1) * (2 * coord_v H m - 1)) :
    (example_ray_and_sphere.s : psow.sphere ℝ).intersects_ray Real.sqrt
        (psow.ray.mk origin (example_ray_and_sphere.direction W H m n)) = false
    ∧ example_ray_and_sphere.pixel w Real.sqrt W H m n
        = sky_gradient w Real.sqrt
            (psow.ray.mk origin (example_ray_and_sphere.direction W H m n)) := by
  have hmiss : (example_ray_and_sphere.s : psow.sphere ℝ).intersects_ray Real.sqrt
      (psow.ray.mk origin (example_ray_and_sphere.direction W H m n)) = false := by
    rw [example_ray_and_sphere_direction_eq, ← Bool.not_eq_true, reference_sphere_hit_iff]
    exact not_lt.mpr h
  refine ⟨hmiss, ?_⟩
  unfold example_ray_and_sphere.pixel
  simp only [hmiss]
  rfl

/-- The height that the program derives for a width of `100` is `56`. -/
theorem image_height_eval_100 : image_height ℝ 100 = 56 := by
  have h0 : (0 : ℝ) ≤ ((100 : Nat) : ℝ) / aspect_ratio := by
    unfold aspect_ratio
    norm_num
  have hf : ⌊((100 : Nat) : ℝ) / aspect_ratio⌋ = 56 := by
    rw [Int.floor_eq_iff]
    unfold aspect_ratio
    norm_num
  unfold image_height
  rw [trunc_of_nonneg _ h0, hf]
  rfl

/-- C20. In a `100 × 56` render of the reference scene by
`example_ray_and_sphere.cpp`, the four pixels closest to the image centre
(columns `49, 50`, rows `28, 29`) receive the foreground colour `(255, 0, 0)`,
and the four corner pixels (columns `0, 99`, rows `56, 1`) are misses that
receive the sky gradient. -/
theorem reference_render_centre_and_corners (w : Nat) :
    (example_ray_and_sphere.pixel w Real.sqrt 100 56 28 49 = psow.color.mk 255 0 0
      ∧ example_ray_and_sphere.pixel w Real.sqrt 100 56 28 50 = psow.color.mk 255 0 0
      ∧ example_ray_and_sphere.pixel w Real.sqrt 100 56 29 49 = psow.color.mk 255 0 0
      ∧ example_ray_and_sphere.pixel w Real.sqrt 100 56 29 50 = psow.color.mk 255 0 0)
    ∧ ((example_ray_and_sphere.s : psow.sphere ℝ).intersects_ray Real.sqrt
          (psow.ray.mk origin (example_ray_and_sphere.direction 100 56 56 0)) = false
      ∧ example_ray_and_sphere.pixel w Real.sqrt 100 56 56 0
          = sky_gradient w Real.sqrt
              (psow.ray.mk origin (example_ray_and_sphere.direction 100 56 56 0)))
    ∧ ((example_ray_and_sphere.s : psow.sphere ℝ).intersects_ray Real.sqrt
          (psow.ray.mk origin (example_ray_and_sphere.direction 100 56 56 99)) = false
      ∧ example_ray_and_sphere.pixel w Real.sqrt 100 56 56 99
          = sky_gradient w Real.sqrt
              (psow.ray.mk origin (example_ray_and_sphere.direction 100 56 56 99)))
    ∧ ((example_ray_and_sphere.s : psow.sphere ℝ).intersects_ray Real.sqrt
          (psow.ray.mk origin (example_ray_and_sphere.direction 100 56 1 0)) = false
      ∧ example_ray_and_sphere.pixel w Real.sqrt 100 56 1 0
          = sky_gradient w Real.sqrt
              (psow.ray.mk origin (example_ray_and_sphere.direction 100 56 1 0)))
    ∧ ((example_ray_and_sphere.s : psow.sphere ℝ).intersects_ray Real.sqrt
          (psow.ray.mk origin (example_ray_and_sphere.direction 100 56 1 99)) = false
      ∧ example_ray_and_sphere.pixel w Real.sqrt 100 56 1 99
          = sky_gradient w Real.sqrt
              (psow.ray.mk origin (example_ray_and_sphere.direction 100 56 1 99))) := by
  refine ⟨⟨?_, ?_, ?_, ?_⟩, ?_, ?_, ?_, ?_⟩
  · apply pixel_red_of_inside
    rw [coord_u_eq, coord_v_eq]
    norm_num
  · apply pixel_red_of_inside
    rw [coord_u_eq, coord_v_eq]
    norm_num
  · apply pixel_red_of_inside
    rw [coord_u_eq, coord_v_eq]
    norm_num
  · apply pixel_red_of_inside
    rw [coord_u_eq, coord_v_eq]
    norm_num
  · apply pixel_sky_of_outside
    rw [coord_u_eq, coord_v_eq]
    norm_num
  · apply pixel_sky_of_outside
    rw [coord_u_eq, coord_v_eq]
    norm_num
  · apply pixel_sky_of_outside
    rw [coord_u_eq, coord_v_eq]
    norm_num
  · apply pixel_sky_of_outside
    rw [coord_u_eq, coord_v_eq]
    norm_num

/-! ## Theorems: the sky gradient -/

section sky_lemmas

variable {K : Type} [LinearOrderedField K] [FloorRing K]

/-- Doubling a channel: `c * 2.0` keeps the low eight bits of twice the
channel. -/
theorem color_scale_two (c : psow.color) :
    c.scale (2 : K)
      = psow.color.mk ((2 * c.red) % 256) ((2 * c.green) % 256) ((2 * c.blue) % 256) := by
  have h : ∀ n : Nat, (2 : K) * (n : K) = ((2 * n : Nat) : K) := by
    intro n
    push_cast
    rfl
  unfold psow.color.scale
  simp only [h, double_to_uchar_natCast]

/-- The blend `white*(1 − t) + sky_blue*t` of `sky_gradient`, doubled, for a
parameter `t` in `[0, 1]`, in terms of the floors of the scaled channels. -/
theorem sky_blend_channels (w : Nat) (hw : 16 ≤ w) (t : K) (h0 : 0 ≤ t) (h1 : t ≤ 1) :
    (((psow.color.mk 255 255 255).scale (1 - t)).add w
        ((psow.color.mk 128 180 255).scale t)).scale (2 : K)
      = psow.color.mk
          ((2 * min 255 (⌊(1 - t) * ((255 : Nat) : K)⌋.toNat
              + ⌊t * ((128 : Nat) : K)⌋.toNat)) % 256)
          ((2 * min 255 (⌊(1 - t) * ((255 : Nat) : K)⌋.toNat
              + ⌊t * ((180 : Nat) : K)⌋.toNat)) % 256)
          ((2 * min 255 (⌊(1 - t) * ((255 : Nat) : K)⌋.toNat
              + ⌊t * ((255 : Nat) : K)⌋.toNat)) % 256) := by
  have h0' : (0 : K) ≤ 1 - t := by linarith
  have h1' : (1 : K) - t ≤ 1 := by linarith
  have hA := scaled_channel_range (1 - t) 255 h0' h1' (by decide)
  have hR := scaled_channel_range t 128 h0 h1 (by decide)
  have hG := scaled_channel_range t 180 h0 h1 (by decide)
  have hB := scaled_channel_range t 255 h0 h1 (by decide)
  have hwhite : (psow.color.mk 255 255 255).scale (1 - t)
      = psow.color.mk ⌊(1 - t) * ((255 : Nat) : K)⌋.toNat ⌊(1 - t) * ((255 : Nat) : K)⌋.toNat
          ⌊(1 - t) * ((255 : Nat) : K)⌋.toNat := by
    unfold psow.color.scale
    simp only [(double_to_uchar_of_range _ hA.1 hA.2).2]
  have hblue : (psow.color.mk 128 180 255).scale t
      = psow.color.mk ⌊t * ((128 : Nat) : K)⌋.toNat ⌊t * ((180 : Nat) : K)⌋.toNat
          ⌊t * ((255 : Nat) : K)⌋.toNat := by
    unfold psow.color.scale
    simp only [(double_to_uchar_of_range _ hR.1 hR.2).2, (double_to_uchar_of_range _ hG.1 hG.2).2,
      (double_to_uchar_of_range _ hB.1 hB.2).2]
  rw [color_add_channels w hw _ _ (color_scale_wf _ _) (color_scale_wf _ _), color_scale_two,
    hwhite, hblue]

/-- The arithmetic of the doubled blend: with `a + b ≤ 255` and `128 ≤ a + r`,
doubling modulo `256` keeps the order of the channel sums. -/
theorem blend_arith (a r g b : Int) (a0 : 0 ≤ a) (r0 : 0 ≤ r) (rg : r ≤ g) (gb : g ≤ b)
    (ab_hi : a + b ≤ 255) (ar_lo : 128 ≤ a + r) :
    (2 * min 255 (a.toNat + r.toNat)) % 256 ≤ (2 * min 255 (a.toNat + b.toNat)) % 256
    ∧ (2 * min 255 (a.toNat + g.toNat)) % 256 ≤ (2 * min 255 (a.toNat + b.toNat)) % 256 := by
  omega

/-- For a parameter `t` in `[0, 126/127)` the doubled blend has a blue channel
at least as large as its red and its green channel. -/
theorem sky_blend_blue_dominant (w : Nat) (hw : 16 ≤ w) (t : K) (h0 : 0 ≤ t)
    (h1 : t < 126 / 127) :
    ((((psow.color.mk 255 255 255).scale (1 - t)).add w
        ((psow.color.mk 128 180 255).scale t)).scale (2 : K)).red
      ≤ ((((psow.color.mk 255 255 255).scale (1 - t)).add w
        ((psow.color.mk 128 180 255).scale t)).scale (2 : K)).blue
    ∧ ((((psow.color.mk 255 255 255).scale (1 - t)).add w
        ((psow.color.mk 128 180 255).scale t)).scale (2 : K)).green
      ≤ ((((psow.color.mk 255 255 255).scale (1 - t)).add w
        ((psow.color.mk 128 180 255).scale t)).scale (2 : K)).blue := by
  have h1' : t ≤ 1 := by linarith
  rw [sky_blend_channels w hw t h0 h1']
  have c255 : ((255 : Nat) : K) = 255 := by norm_num
  have c128 : ((128 : Nat) : K) = 128 := by norm_num
  have c180 : ((180 : Nat) : K) = 180 := by norm_num
  rw [c255, c128, c180]
  have a_le := Int.floor_le ((1 - t) * (255 : K))
  have a_lt := Int.lt_floor_add_one ((1 - t) * (255 : K))
  have r_le := Int.floor_le (t * (128 : K))
  have r_lt := Int.lt_floor_add_one (t * (128 : K))
  have b_le := Int.floor_le (t * (255 : K))
  have b_lt := Int.lt_floor_add_one (t * (255 : K))
  have a0 : 0 ≤ ⌊(1 - t) * (255 : K)⌋ := Int.floor_nonneg.mpr (by nlinarith)
  have r0 : 0 ≤ ⌊t * (128 : K)⌋ := Int.floor_nonneg.mpr (by nlinarith)
  have rg : ⌊t * (128 : K)⌋ ≤ ⌊t * (180 : K)⌋ := Int.floor_le_floor (by nlinarith)
  have gb : ⌊t * (180 : K)⌋ ≤ ⌊t * (255 : K)⌋ := Int.floor_le_floor (by nlinarith)
  have ab_hi : ⌊(1 - t) * (255 : K)⌋ + ⌊t * (255 : K)⌋ ≤ 255 := by
    have h : ((⌊(1 - t) * (255 : K)⌋ + ⌊t * (255 : K)⌋ : Int) : K) < ((256 : Int) : K) := by
      push_cast
      linarith
    have := Int.cast_lt.mp h
    omega
  have ar_lo : 128 ≤ ⌊(1 - t) * (255 : K)⌋ + ⌊t * (128 : K)⌋ := by
    have h : ((127 : Int) : K) < ((⌊(1 - t) * (255 : K)⌋ + ⌊t * (128 : K)⌋ : Int) : K) := by
      push_cast
      linarith
    have := Int.cast_lt.mp h
    omega
  exact blend_arith _ _ _ _ a0 r0 rg gb ab_hi ar_lo

end sky_lemmas

section sky_sum_lemmas

variable {K : Type} [LinearOrderedField K] [FloorRing K]

/-- For `t` in `[0, 1]` the floors of `255 (1 − t)` and of `255 t` add up to
`254` or `255`. -/
theorem sky_blue_sum (t : K) (h0 : 0 ≤ t) (h1 : t ≤ 1) :
    ⌊(1 - t) * ((255 : Nat) : K)⌋.toNat + ⌊t * ((255 : Nat) : K)⌋.toNat = 254
    ∨ ⌊(1 - t) * ((255 : Nat) : K)⌋.toNat + ⌊t * ((255 : Nat) : K)⌋.toNat = 255 := by
  have c255 : ((255 : Nat) : K) = 255 := by norm_num
  rw [c255]
  have a_le := Int.floor_le ((1 - t) * (255 : K))
  have a_lt := Int.lt_floor_add_one ((1 - t) * (255 : K))
  have b_le := Int.floor_le (t * (255 : K))
  have b_lt := Int.lt_floor_add_one (t * (255 : K))
  have a0 : 0 ≤ ⌊(1 - t) * (255 : K)⌋ := Int.floor_nonneg.mpr (by nlinarith)
  have b0 : 0 ≤ ⌊t * (255 : K)⌋ := Int.floor_nonneg.mpr (by nlinarith)
  have hi : ⌊(1 - t) * (255 : K)⌋ + ⌊t * (255 : K)⌋ ≤ 255 := by
    have h : ((⌊(1 - t) * (255 : K)⌋ + ⌊t * (255 : K)⌋ : Int) : K) < ((256 : Int) : K) := by
      push_cast
      linarith
    have := Int.cast_lt.mp h
    omega
  have lo : 254 ≤ ⌊(1 - t) * (255 : K)⌋ + ⌊t * (255 : K)⌋ := by
    have h : ((253 : Int) : K) < ((⌊(1 - t) * (255 : K)⌋ + ⌊t * (255 : K)⌋ : Int) : K) := by
      push_cast
      linarith
    have := Int.cast_lt.mp h
    omega
  omega

end sky_sum_lemmas

/-- The arithmetic of the doubled blue channel: a sum of `254` or `255`, doubled
and reduced modulo `256`, is at least `252`. -/
theorem blue_bound_arith (A B : Nat) (h : A + B = 254 ∨ A + B = 255) :
    252 ≤ (2 * min 255 (A + B)) % 256 := by
  omega

/-- The y component of the unit vector of `(x, y, −1)` with `y ≤ 3` lies in
`[−1, 125/127)`. -/
theorem unit_y_bounds (x y : ℝ) (hy : y ≤ 3) :
    -1 ≤ 1 / Real.sqrt (x * x + y * y + (-1) * (-1)) * y
    ∧ 1 / Real.sqrt (x * x + y * y + (-1) * (-1)) * y < 125 / 127 := by
  have hpos : 0 < x * x + y * y + (-1) * (-1) := by nlinarith [mul_self_nonneg x, mul_self_nonneg y]
  have hN : 0 < Real.sqrt (x * x + y * y + (-1) * (-1)) := Real.sqrt_pos.mpr hpos
  have hsq := Real.mul_self_sqrt hpos.le
  rw [one_div_mul_eq_div]
  constructor
  · rw [le_div_iff₀ hN]
    nlinarith [mul_self_nonneg x, mul_self_nonneg y]
  · rw [div_lt_iff₀ hN]
    by_contra hcon
    push_neg at hcon
    have hN' : 0 < 125 / 127 * Real.sqrt (x * x + y * y + (-1) * (-1)) :=
      mul_pos (by norm_num) hN
    have hy0 : 0 < y := lt_of_lt_of_le hN' hcon
    have hyy : y * y ≤ 9 := by nlinarith
    have hmul := mul_self_le_mul_self hN'.le hcon
    have hexp : 125 / 127 * Real.sqrt (x * x + y * y + (-1) * (-1))
        * (125 / 127 * Real.sqrt (x * x + y * y + (-1) * (-1)))
        = 15625 / 16129 * (Real.sqrt (x * x + y * y + (-1) * (-1))
            * Real.sqrt (x * x + y * y + (-1) * (-1))) := by
      ring
    rw [hexp, hsq] at hmul
    nlinarith [mul_self_nonneg x]

/-- The sky gradient of a ray with direction `(x, y, −1)`, `y ≤ 3`, has a blue
channel at least as large as its red and its green channel. -/
theorem sky_gradient_blue_dominant (w : Nat) (hw : 16 ≤ w) (p : psow.vec3 ℝ) (x y : ℝ)
    (hy : y ≤ 3) :
    (sky_gradient w Real.sqrt (psow.ray.mk p (psow.vec3.mk x y (-1)))).red
      ≤ (sky_gradient w Real.sqrt (psow.ray.mk p (psow.vec3.mk x y (-1)))).blue
    ∧ (sky_gradient w Real.sqrt (psow.ray.mk p (psow.vec3.mk x y (-1)))).green
      ≤ (sky_gradient w Real.sqrt (psow.ray.mk p (psow.vec3.mk x y (-1)))).blue := by
  obtain ⟨hlo, hhi⟩ := unit_y_bounds x y hy
  have h05 : (0.5 : ℝ) = 1 / 2 := by norm_num
  have h0 : (0 : ℝ) ≤ 0.5 * (1 / Real.sqrt (x * x + y * y + (-1) * (-1)) * y + 1) := by
    rw [h05]
    linarith
  have h1 : (0.5 : ℝ) * (1 / Real.sqrt (x * x + y * y + (-1) * (-1)) * y + 1) < 126 / 127 := by
    rw [h05]
    linarith
  exact sky_blend_blue_dominant w hw _ h0 h1

/-- The sky gradient of a ray with direction `(x, y, −1)`, `y ≤ 3`, has a blue
channel of at least `252`. -/
theorem sky_gradient_blue_bound (w : Nat) (hw : 16 ≤ w) (p : psow.vec3 ℝ) (x y : ℝ)
    (hy : y ≤ 3) :
    252 ≤ (sky_gradient w Real.sqrt (psow.ray.mk p (psow.vec3.mk x y (-1)))).blue := by
  obtain ⟨hlo, hhi⟩ := unit_y_bounds x y hy
  have h05 : (0.5 : ℝ) = 1 / 2 := by norm_num
  have h0 : (0 : ℝ) ≤ 0.5 * (1 / Real.sqrt (x * x + y * y + (-1) * (-1)) * y + 1) := by
    rw [h05]
    linarith
  have h1 : (0.5 : ℝ) * (1 / Real.sqrt (x * x + y * y + (-1) * (-1)) * y + 1) ≤ 1 := by
    rw [h05]
    linarith
  have hsum := sky_blue_sum _ h0 h1
  have hch := congrArg psow.color.blue (sky_blend_channels w hw _ h0 h1)
  have hgoal : (sky_gradient w Real.sqrt (psow.ray.mk p (psow.vec3.mk x y (-1)))).blue
      = ((((psow.color.mk 255 255 255).scale
            (1 - 0.5 * (1 / Real.sqrt (x * x + y * y + (-1) * (-1)) * y + 1))).add w
          ((psow.color.mk 128 180 255).scale
            (0.5 * (1 / Real.sqrt (x * x + y * y + (-1) * (-1)) * y + 1)))).scale
          (2 : ℝ)).blue := rfl
  rw [hgoal, hch]
  exact blue_bound_arith _ _ hsum

/-- C19. For every image size `W ≥ 2`, `H ≥ 2` and every pixel (row `m` from `H`
down to `1`, column `n` below `W`) of the render without a sphere,
`example_ray.cpp`, under the reference camera: the colour of the pixel is
`sky_gradient (camera ray)`, the ray from the origin with direction
`((32/9) u − 16/9, 2 v − 1, −1)`; its blue channel is at least `252`, and at
least as large as its red and its green channel.  Exact real arithmetic; the
doubled channels, which exceed `255`, are narrowed modulo `256`. -/
theorem sky_pixel_blue_dominant (w : Nat) (hw : 16 ≤ w) (W H m n : Nat) (_hW : 2 ≤ W)
    (hH : 2 ≤ H) (hm1 : 1 ≤ m) (hm : m ≤ H) (_hn : n < W) :
    example_ray.pixel w Real.sqrt W H m n
        = sky_gradient w Real.sqrt
            (psow.ray.mk origin
              (psow.vec3.mk (32 / 9 * coord_u W n - 16 / 9) (2 * coord_v H m - 1) (-1)))
    ∧ 252 ≤ (example_ray.pixel w Real.sqrt W H m n).blue
    ∧ (example_ray.pixel w Real.sqrt W H m n).red ≤ (example_ray.pixel w Real.sqrt W H m n).blue
    ∧ (example_ray.pixel w Real.sqrt W H m n).green
      ≤ (example_ray.pixel w Real.sqrt W H m n).blue := by
  have hv : (coord_v H m : ℝ) ≤ 2 := (coord_v_range H m hH hm1 hm).2.1
  have hpix : example_ray.pixel w Real.sqrt W H m n
      = sky_gradient w Real.sqrt
          (psow.ray.mk origin
            (psow.vec3.mk (32 / 9 * coord_u W n - 16 / 9) (2 * coord_v H m - 1) (-1))) := by
    unfold example_ray.pixel
    simp only [example_ray_direction_eq]
  rw [hpix]
  exact ⟨rfl, sky_gradient_blue_bound w hw _ _ _ (by linarith),
    sky_gradient_blue_dominant w hw _ _ _ (by linarith)⟩

/-- Witness for C19: the four pixels of the `2 × 2` grid, with a 32-bit
`unsigned int`. -/
theorem sky_pixel_blue_dominant_witness :
    (252 ≤ (example_ray.pixel 32 Real.sqrt 2 2 2 0).blue
      ∧ (example_ray.pixel 32 Real.sqrt 2 2 2 0).red ≤ (example_ray.pixel 32 Real.sqrt 2 2 2 0).blue
      ∧ (example_ray.pixel 32 Real.sqrt 2 2 2 0).green
        ≤ (example_ray.pixel 32 Real.sqrt 2 2 2 0).blue)
    ∧ (252 ≤ (example_ray.pixel 32 Real.sqrt 2 2 2 1).blue
      ∧ (example_ray.pixel 32 Real.sqrt 2 2 2 1).red ≤ (example_ray.pixel 32 Real.sqrt 2 2 2 1).blue
      ∧ (example_ray.pixel 32 Real.sqrt 2 2 2 1).green
        ≤ (example_ray.pixel 32 Real.sqrt 2 2 2 1).blue)
    ∧ (252 ≤ (example_ray.pixel 32 Real.sqrt 2 2 1 0).blue
      ∧ (example_ray.pixel 32 Real.sqrt 2 2 1 0).red ≤ (example_ray.pixel 32 Real.sqrt 2 2 1 0).blue
      ∧ (example_ray.pixel 32 Real.sqrt 2 2 1 0).green
        ≤ (example_ray.pixel 32 Real.sqrt 2 2 1 0).blue)
    ∧ (252 ≤ (example_ray.pixel 32 Real.sqrt 2 2 1 1).blue
      ∧ (example_ray.pixel 32 Real.sqrt 2 2 1 1).red ≤ (example_ray.pixel 32 Real.sqrt 2 2 1 1).blue
      ∧ (example_ray.pixel 32 Real.sqrt 2 2 1 1).green
        ≤ (example_ray.pixel 32 Real.sqrt 2 2 1 1).blue) :=
  ⟨(sky_pixel_blue_dominant 32 (by decide) 2 2 2 0 (by decide) (by decide) (by decide)
      (by decide) (by decide)).2,
    (sky_pixel_blue_dominant 32 (by decide) 2 2 2 1 (by decide) (by decide) (by decide)
      (by decide) (by decide)).2,
    (sky_pixel_blue_dominant 32 (by decide) 2 2 1 0 (by decide) (by decide) (by decide)
      (by decide) (by decide)).2,
    (sky_pixel_blue_dominant 32 (by decide) 2 2 1 1 (by decide) (by decide) (by decide)
      (by decide) (by decide)).2⟩

/-! ## Theorems: unit vectors and the interpolation parameter -/

/-- The function `sky_gradient` in terms of its local `t`. -/
theorem sky_gradient_eq_t {K : Type} [LinearOrderedField K] [FloorRing K] (w : Nat)
    (sqrt : K → K) (r : psow.ray K) :
    sky_gradient w sqrt r
      = (((psow.color.mk 255 255 255).scale (1 - sky_gradient_t sqrt r)).add w
          ((psow.color.mk 128 180 255).scale (sky_gradient_t sqrt r))).scale (2 : K) := rfl

/-- The components of the unit vector: each is the component of `v` times the
reciprocal of the norm. -/
theorem unit_components {K : Type} [LinearOrderedField K] (sqrt : K → K) (v : psow.vec3 K) :
    v.unit sqrt = psow.vec3.mk (1 / v.norm sqrt * v.x) (1 / v.norm sqrt * v.y)
      (1 / v.norm sqrt * v.z) := rfl

/-- Over the reals the norm is the square root of the squared norm; it is
positive exactly when the vector is not the zero vector. -/
theorem vec3_norm_pos_iff (v : psow.vec3 ℝ) :
    0 < v.norm Real.sqrt ↔ v ≠ psow.vec3.mk 0 0 0 := by
  have hnorm : v.norm Real.sqrt = Real.sqrt v.normsq := rfl
  rw [hnorm, Real.sqrt_pos]
  constructor
  · intro h hv
    rw [hv] at h
    simp [psow.vec3.normsq] at h
  · exact normsq_pos_of_ne_zero v

/-- Over the reals the norm squares to the squared norm. -/
theorem vec3_norm_mul_self (v : psow.vec3 ℝ) :
    v.norm Real.sqrt * v.norm Real.sqrt = v.normsq :=
  Real.mul_self_sqrt (normsq_nonneg v)

/-- Each component of a vector is at most the norm in absolute value; stated
for the y component. -/
theorem abs_y_le_norm (v : psow.vec3 ℝ) :
    -(v.norm Real.sqrt) ≤ v.y ∧ v.y ≤ v.norm Real.sqrt := by
  have hsq := vec3_norm_mul_self v
  have hN : 0 ≤ v.norm Real.sqrt := Real.sqrt_nonneg _
  have hle : v.y * v.y ≤ v.norm Real.sqrt * v.norm Real.sqrt := by
    rw [hsq]
    unfold psow.vec3.normsq
    nlinarith [mul_self_nonneg v.x, mul_self_nonneg v.z]
  exact ⟨by nlinarith, by nlinarith⟩

/-- The y component of the unit vector of a non-zero vector lies in `[−1, 1]`. -/
theorem unit_y_range (v : psow.vec3 ℝ) (hv : v ≠ psow.vec3.mk 0 0 0) :
    -1 ≤ (v.unit Real.sqrt).y ∧ (v.unit Real.sqrt).y ≤ 1 := by
  have hN : 0 < v.norm Real.sqrt := (vec3_norm_pos_iff v).mpr hv
  obtain ⟨hlo, hhi⟩ := abs_y_le_norm v
  rw [unit_components]
  simp only
  rw [one_div_mul_eq_div]
  exact ⟨by rw [le_div_iff₀ hN]; linarith, by rw [div_le_iff₀ hN]; linarith⟩

/-- C21, counterexample.  In `binary64`, for the ray from the origin with
direction `(0, 1e-200, 0)`, a non-zero vector: `x*x + y*y + z*z` underflows to
`0`, the norm is `0`, `1.0 / 0` is `+∞`, the unit vector is `(NaN, +∞, NaN)`
and `sky_gradient` computes `t = +∞`, which is not at most `1`. -/
theorem sky_gradient_t_range_binary64 :
    (0 : binary64) < 1e-200
    ∧ (psow.vec3.mk (0 : binary64) 1e-200 0).norm binary64.sqrt = 0
    ∧ (psow.vec3.mk (0 : binary64) 1e-200 0).unit binary64.sqrt
        = psow.vec3.mk binary64.nan (binary64.inf false) binary64.nan
    ∧ sky_gradient_t binary64.sqrt
        (psow.ray.mk (psow.vec3.mk 0 0 0) (psow.vec3.mk (0 : binary64) 1e-200 0))
      = binary64.inf false
    ∧ ¬ (sky_gradient_t binary64.sqrt
        (psow.ray.mk (psow.vec3.mk 0 0 0) (psow.vec3.mk (0 : binary64) 1e-200 0)) ≤ 1) := by
  decide!

/-- C21, as amended.  Over exact real arithmetic, for every ray with non-zero
direction, the interpolation parameter `t = 0.5 (unit(direction).y + 1)`
computed by `sky_gradient` satisfies `0 ≤ t ≤ 1`, because the y component of
the unit vector lies in `[−1, 1]`. -/
theorem sky_gradient_t_range (r : psow.ray ℝ) (hdir : r.v ≠ psow.vec3.mk 0 0 0) :
    (0 ≤ sky_gradient_t Real.sqrt r ∧ sky_gradient_t Real.sqrt r ≤ 1)
    ∧ (-1 ≤ (r.v.unit Real.sqrt).y ∧ (r.v.unit Real.sqrt).y ≤ 1) := by
  obtain ⟨hlo, hhi⟩ := unit_y_range r.v hdir
  have h05 : (0.5 : ℝ) = 1 / 2 := by norm_num
  refine ⟨⟨?_, ?_⟩, hlo, hhi⟩
  · show (0 : ℝ) ≤ 0.5 * ((r.v.unit Real.sqrt).y + 1)
    rw [h05]
    linarith
  · show (0.5 : ℝ) * ((r.v.unit Real.sqrt).y + 1) ≤ 1
    rw [h05]
    linarith

/-- Witness for the amended C21: the ray from the origin towards `(0, 0, −1)`. -/
theorem sky_gradient_t_range_witness :
    (0 ≤ sky_gradient_t Real.sqrt (psow.ray.mk (psow.vec3.mk 0 0 0) (psow.vec3.mk 0 0 (-1)))
      ∧ sky_gradient_t Real.sqrt
          (psow.ray.mk (psow.vec3.mk 0 0 0) (psow.vec3.mk 0 0 (-1))) ≤ 1)
    ∧ (-1 ≤ ((psow.vec3.mk (0 : ℝ) 0 (-1)).unit Real.sqrt).y
      ∧ ((psow.vec3.mk (0 : ℝ) 0 (-1)).unit Real.sqrt).y ≤ 1) :=
  sky_gradient_t_range (psow.ray.mk (psow.vec3.mk 0 0 0) (psow.vec3.mk 0 0 (-1))) (by simp)

/-- C22. For every vector `v` with `norm(v) > 0`, over the reals, `unit(v)` has
norm exactly `1` and is a positive multiple of `v`, the factor being
`1 / norm(v)`. -/
theorem unit_norm_one (v : psow.vec3 ℝ) (hv : 0 < v.norm Real.sqrt) :
    (v.unit Real.sqrt).norm Real.sqrt = 1
    ∧ ∃ k : ℝ, 0 < k ∧ v.unit Real.sqrt = v.smul k := by
  have hsq := vec3_norm_mul_self v
  constructor
  · rw [unit_components]
    unfold psow.vec3.norm at hsq ⊢
    unfold psow.vec3.normsq at hsq
    simp only
    have hne : Real.sqrt (v.x * v.x + v.y * v.y + v.z * v.z) ≠ 0 := hv.ne'
    have hone : 1 / Real.sqrt (v.x * v.x + v.y * v.y + v.z * v.z) * v.x
          * (1 / Real.sqrt (v.x * v.x + v.y * v.y + v.z * v.z) * v.x)
        + 1 / Real.sqrt (v.x * v.x + v.y * v.y + v.z * v.z) * v.y
          * (1 / Real.sqrt (v.x * v.x + v.y * v.y + v.z * v.z) * v.y)
        + 1 / Real.sqrt (v.x * v.x + v.y * v.y + v.z * v.z) * v.z
          * (1 / Real.sqrt (v.x * v.x + v.y * v.y + v.z * v.z) * v.z) = 1 := by
      field_simp
      nlinarith [hsq]
    rw [hone, Real.sqrt_one]
  · exact ⟨1 / v.norm Real.sqrt, one_div_pos.mpr hv, rfl⟩

/-- Witness for C22: the vector `(0, 3, 4)` of norm `5`. -/
theorem unit_norm_one_witness :
    ((psow.vec3.mk (0 : ℝ) 3 4).unit Real.sqrt).norm Real.sqrt = 1
    ∧ ∃ k : ℝ, 0 < k ∧ (psow.vec3.mk (0 : ℝ) 3 4).unit Real.sqrt
        = (psow.vec3.mk (0 : ℝ) 3 4).smul k :=
  unit_norm_one (psow.vec3.mk 0 3 4) ((vec3_norm_pos_iff _).mpr (by simp))

/-! ## Theorems: vector algebra, rays and `write` -/

/-- C23, counterexample.  In `binary64`, for `v = (0, 1e200, 1e200)`: the
products `y*z` and `z*y` overflow to `+∞`, their difference is a NaN, and the
first component of `v.cross(v)` is a NaN, not `0`. -/
theorem vec3_cross_self_binary64 :
    (1e200 : binary64).isFinite = true
    ∧ (1e200 : binary64) * 1e200 = binary64.inf false
    ∧ ((psow.vec3.mk (0 : binary64) 1e200 1e200).cross (psow.vec3.mk 0 1e200 1e200)).x
        = binary64.nan
    ∧ (psow.vec3.mk (0 : binary64) 1e200 1e200).cross (psow.vec3.mk 0 1e200 1e200)
        ≠ psow.vec3.mk 0 0 0 := by
  decide!

/-- C23, as amended.  For every vector `v`, `v.cross(v) = (0, 0, 0)` over
exact arithmetic, and in `binary64` whenever the three products `y*z`, `z*x`
and `x*y` of its components are finite (no overflow, no infinite or NaN
component): the two products of a component are then the same double, and
their difference is `+0`. -/
theorem vec3_cross_self :
    (∀ (K : Type) [LinearOrderedField K] (v : psow.vec3 K),
        v.cross v = psow.vec3.mk 0 0 0)
    ∧ (∀ v : psow.vec3 binary64,
        (v.y * v.z).isFinite = true → (v.z * v.x).isFinite = true
          → (v.x * v.y).isFinite = true →
        v.cross v = psow.vec3.mk 0 0 0) := by
  constructor
  · intro K _ v
    unfold psow.vec3.cross
    rw [mul_comm v.y v.z, mul_comm v.z v.x, mul_comm v.x v.y]
    simp only [sub_self]
  · intro v h1 h2 h3
    unfold psow.vec3.cross
    rw [binary64.mul_comm_binary64 v.z v.y, binary64.mul_comm_binary64 v.x v.z,
      binary64.mul_comm_binary64 v.y v.x, binary64.sub_self_of_isFinite _ h1,
      binary64.sub_self_of_isFinite _ h2, binary64.sub_self_of_isFinite _ h3]

/-- Witness for the amended C23: the vector `(1, 2, 3)` of
`vector_struct_example.cpp`, in `binary64`. -/
theorem vec3_cross_self_witness :
    (psow.vec3.mk (1 : binary64) 2 3).cross (psow.vec3.mk 1 2 3) = psow.vec3.mk 0 0 0 :=
  vec3_cross_self.2 (psow.vec3.mk 1 2 3) (by decide!) (by decide!) (by decide!)

/-- C24, counterexample.  In `binary64`, for `v = (0.1, 0.2, 0.3)` and
`w = (0.3, 0.1, 0.7)`, the dot product `v.dot(v.cross(w))` is `2^−59`, a
rounding residue, not `0`. -/
theorem cross_orthogonal_binary64 :
    (psow.vec3.mk (0.1 : binary64) 0.2 0.3).dot
        ((psow.vec3.mk (0.1 : binary64) 0.2 0.3).cross (psow.vec3.mk 0.3 0.1 0.7))
      = binary64.finite false (2 ^ 52) (-111)
    ∧ (0 : binary64) < (psow.vec3.mk (0.1 : binary64) 0.2 0.3).dot
        ((psow.vec3.mk (0.1 : binary64) 0.2 0.3).cross (psow.vec3.mk 0.3 0.1 0.7)) := by
  decide!

/-- C24, as amended.  Over exact arithmetic, for all vectors `v`, `w` the cross
product is orthogonal to both factors: `v.dot(v.cross(w)) = 0` and
`w.dot(v.cross(w)) = 0`.  For `p = (1, 2, 3)` and `q = (2, 1, 0)` of
`vector_struct_example.cpp`: `p × q = (−3, 6, −3)`, `p·q = 4`, `(p × q)·p = 0`
and `(p × q)·q = 0`, over exact arithmetic and in `binary64` alike. -/
theorem cross_orthogonal {K : Type} [LinearOrderedField K] :
    (∀ v w : psow.vec3 K, v.dot (v.cross w) = 0 ∧ w.dot (v.cross w) = 0)
    ∧ (psow.vec3.mk (1 : K) 2 3).cross (psow.vec3.mk 2 1 0) = psow.vec3.mk (-3) 6 (-3)
    ∧ (psow.vec3.mk (1 : K) 2 3).dot (psow.vec3.mk 2 1 0) = 4
    ∧ (psow.vec3.mk (1 : K) 2 3).dot
        ((psow.vec3.mk (1 : K) 2 3).cross (psow.vec3.mk 2 1 0)) = 0
    ∧ (psow.vec3.mk (2 : K) 1 0).dot
        ((psow.vec3.mk (1 : K) 2 3).cross (psow.vec3.mk 2 1 0)) = 0
    ∧ ((psow.vec3.mk (1 : binary64) 2 3).cross (psow.vec3.mk 2 1 0)
          = psow.vec3.mk (-3) 6 (-3)
      ∧ (psow.vec3.mk (1 : binary64) 2 3).dot (psow.vec3.mk 2 1 0) = 4
      ∧ (psow.vec3.mk (1 : binary64) 2 3).dot
          ((psow.vec3.mk (1 : binary64) 2 3).cross (psow.vec3.mk 2 1 0)) = 0
      ∧ (psow.vec3.mk (2 : binary64) 1 0).dot
          ((psow.vec3.mk (1 : binary64) 2 3).cross (psow.vec3.mk 2 1 0)) = 0) := by
  refine ⟨fun v w => ⟨?_, ?_⟩, ?_, ?_, ?_, ?_, by decide!⟩
  · unfold psow.vec3.dot psow.vec3.cross
    ring
  · unfold psow.vec3.dot psow.vec3.cross
    ring
  · simp only [psow.vec3.cross, psow.vec3.mk.injEq]
    refine ⟨?_, ?_, ?_⟩ <;> norm_num
  · simp only [psow.vec3.dot]
    norm_num
  · simp only [psow.vec3.dot, psow.vec3.cross]
    norm_num
  · simp only [psow.vec3.dot, psow.vec3.cross]
    norm_num

/-- C25. For every ray `(p, v)` and every `t`, `ray.point(t) = p + t·v`
componentwise; in particular `point(0) = p`. -/
theorem ray_point_eq {K : Type} [LinearOrderedField K] (r : psow.ray K) (t : K) :
    r.point t = psow.vec3.mk (r.p.x + t * r.v.x) (r.p.y + t * r.v.y) (r.p.z + t * r.v.z)
    ∧ r.point 0 = r.p := by
  constructor
  · rfl
  · simp only [psow.ray.point, psow.vec3.add, psow.vec3.smul, zero_mul, add_zero]

/-- C26, counterexample.  In `binary64`, for `A = (0.1, 0.2, 0.3)` and
`B = (0.7, 0.9, 1.1)`, the y component of `from_points(A, B).point(1)` is
`0.8999999999999999`, below the y component `0.9` of `B`. -/
theorem from_points_spec_binary64 :
    ((psow.ray.from_points (psow.ray.mk (psow.vec3.mk 0 0 0) (psow.vec3.mk 0 0 0))
        (psow.vec3.mk (0.1 : binary64) 0.2 0.3) (psow.vec3.mk 0.7 0.9 1.1)).point 1).y
      = 0.8999999999999999
    ∧ ((psow.ray.from_points (psow.ray.mk (psow.vec3.mk 0 0 0) (psow.vec3.mk 0 0 0))
        (psow.vec3.mk (0.1 : binary64) 0.2 0.3) (psow.vec3.mk 0.7 0.9 1.1)).point 1).y
      < 0.9
    ∧ (psow.ray.from_points (psow.ray.mk (psow.vec3.mk 0 0 0) (psow.vec3.mk 0 0 0))
        (psow.vec3.mk (0.1 : binary64) 0.2 0.3) (psow.vec3.mk 0.7 0.9 1.1)).point 1
      ≠ psow.vec3.mk 0.7 0.9 1.1 := by
  decide!

/-- C26, as amended.  For all points `A` and `B`, `from_points(A, B)` is the ray
with origin `A` and direction `B − A`, whatever the ray `r0` it is called on
(in every arithmetic, that of the code included), so that, over exact
arithmetic, its `point(0)` is `A` and its `point(1)` is `B`. -/
theorem from_points_spec :
    (∀ (K : Type) [Sub K] (r0 r1 : psow.ray K) (A B : psow.vec3 K),
        (r0.from_points A B).p = A
        ∧ (r0.from_points A B).v = psow.vec3.mk (B.x - A.x) (B.y - A.y) (B.z - A.z)
        ∧ r1.from_points A B = r0.from_points A B)
    ∧ (∀ (K : Type) [LinearOrderedField K] (r0 : psow.ray K) (A B : psow.vec3 K),
        (r0.from_points A B).point 0 = A
        ∧ (r0.from_points A B).point 1 = B) := by
  refine ⟨fun K _ r0 r1 A B => ⟨rfl, rfl, rfl⟩, fun K _ r0 A B => ⟨?_, ?_⟩⟩
  · simp only [psow.ray.from_points, psow.ray.point, psow.vec3.add, psow.vec3.smul,
      zero_mul, add_zero]
  · simp only [psow.ray.from_points, psow.ray.point, psow.vec3.add, psow.vec3.smul,
      psow.vec3.sub, one_mul, add_sub_cancel]

/-- The C function `psow_color_write` appends the three channel bytes. -/
theorem psow_color_write_eq (C : psow_color) (fp : FILE) :
    psow_color_write C fp = fp ++ [C.red, C.green, C.blue] := by
  unfold psow_color_write fputc
  simp

/-- C27. Method `write`, and the C function `psow_color_write`, append exactly
three bytes to the sink, the red, green and blue channel in that order; the
bytes already in the sink stay in place in front of them and the color itself
is unchanged. -/
theorem write_appends_three_bytes (c : psow.color) (fp : FILE) :
    ((c.write_state fp).1 = c ∧ (c.write_state fp).2 = c.write fp)
    ∧ (c.write fp = fp ++ [c.red, c.green, c.blue]
      ∧ (c.write fp).length = fp.length + 3
      ∧ (c.write fp).take fp.length = fp
      ∧ (c.write fp).drop fp.length = [c.red, c.green, c.blue])
    ∧ (psow_color_write (psow_color.mk c.red c.green c.blue) fp
          = fp ++ [c.red, c.green, c.blue]
      ∧ (psow_color_write (psow_color.mk c.red c.green c.blue) fp).length = fp.length + 3
      ∧ (psow_color_write (psow_color.mk c.red c.green c.blue) fp).take fp.length = fp
      ∧ (psow_color_write (psow_color.mk c.red c.green c.blue) fp).drop fp.length
          = [c.red, c.green, c.blue]) := by
  have h1 : c.write fp = fp ++ [c.red, c.green, c.blue] := color_write_eq c fp
  have h2 := psow_color_write_eq (psow_color.mk c.red c.green c.blue) fp
  simp only at h2
  refine ⟨⟨rfl, rfl⟩, ?_⟩
  rw [h1, h2]
  simp

/-- C28. Scalar multiplication of a vector gives the same result in both
operand orders: for every vector `P` and every `a`,
`P * a = a * P = (a·P.x, a·P.y, a·P.z)`. -/
theorem smul_both_orders {K : Type} [LinearOrderedField K] (P : psow.vec3 K) (a : K) :
    P.smul a = psow.vec3.lsmul a P
    ∧ P.smul a = psow.vec3.mk (a * P.x) (a * P.y) (a * P.z)
    ∧ psow.vec3.lsmul a P = psow.vec3.mk (a * P.x) (a * P.y) (a * P.z) :=
  ⟨rfl, rfl, rfl⟩

/-- C29. Each compound in-place operator leaves its left operand equal to the
result of the corresponding pure operator and does not change its right
operand: after `P += Q`, `P` is the old `P + Q`; after `P -= Q`, the old
`P − Q`; after `P *= t`, the old `P * t`; after `P /= t`, the old `P / t` (for
every `t`, in particular `t ≠ 0`). -/
theorem compound_operators {K : Type} [LinearOrderedField K] (P Q : psow.vec3 K) (t : K) :
    (P.add_assign Q).1 = P.add Q ∧ (P.add_assign Q).2 = Q
    ∧ (P.sub_assign Q).1 = P.sub Q ∧ (P.sub_assign Q).2 = Q
    ∧ P.mul_assign t = P.smul t
    ∧ P.div_assign t = P.div t := by
  refine ⟨rfl, rfl, rfl, rfl, ?_, ?_⟩
  · simp only [psow.vec3.mul_assign, psow.vec3.smul, mul_comm]
  · simp only [psow.vec3.div_assign, psow.vec3.div, mul_comm]

/-- C30, counterexample.  In `binary64`, for `P = (1, 2, 3)` and `a = 49`:
`(P / a) * a` is `(0.9999999999999999, 1.9999999999999998, 3)`, not `P`. -/
theorem div_then_mul_binary64 :
    (0 : binary64) < 49
    ∧ ((psow.vec3.mk (1 : binary64) 2 3).div 49).smul 49
        = psow.vec3.mk 0.9999999999999999 1.9999999999999998 3
    ∧ (((psow.vec3.mk (1 : binary64) 2 3).div 49).smul 49).x < 1
    ∧ ((psow.vec3.mk (1 : binary64) 2 3).div 49).smul 49 ≠ psow.vec3.mk 1 2 3 := by
  decide!

/-- C30, as amended.  For every vector `P` and every `a`,
`P / a = ((1/a)·P.x, (1/a)·P.y, (1/a)·P.z)` with the reciprocal `1/a` that the
code computes (in every arithmetic, that of the code included), and, over
exact arithmetic, for `a ≠ 0`, multiplying back recovers the vector:
`(P / a) * a = P`. -/
theorem div_then_mul :
    (∀ (K : Type) [One K] [Mul K] [Div K] (P : psow.vec3 K) (a : K),
        P.div a = psow.vec3.mk (1 / a * P.x) (1 / a * P.y) (1 / a * P.z))
    ∧ (∀ (K : Type) [LinearOrderedField K] (P : psow.vec3 K) (a : K), a ≠ 0 →
        (P.div a).smul a = P) := by
  refine ⟨fun K _ _ _ P a => rfl, fun K _ P a ha => ?_⟩
  rcases P with ⟨x, y, z⟩
  simp only [psow.vec3.div, psow.vec3.smul, psow.vec3.mk.injEq]
  refine ⟨?_, ?_, ?_⟩ <;> field_simp

/-- Witness for the amended C30: `(1, 2, 3) / 4` over `ℝ`. -/
theorem div_then_mul_witness :
    (psow.vec3.mk (1 : ℝ) 2 3).div 4
        = psow.vec3.mk (1 / 4 * 1) (1 / 4 * 2) (1 / 4 * 3)
    ∧ ((psow.vec3.mk (1 : ℝ) 2 3).div 4).smul 4 = psow.vec3.mk 1 2 3 :=
  ⟨div_then_mul.1 ℝ (psow.vec3.mk 1 2 3) 4,
    div_then_mul.2 ℝ (psow.vec3.mk 1 2 3) 4 (by norm_num)⟩

/-! ## Theorems: the norm, and more on the hit test -/

section hit_lemmas

variable {K : Type} [LinearOrderedField K]

/-- A vector whose squared norm is zero is the zero vector. -/
theorem eq_zero_of_normsq_eq_zero (v : psow.vec3 K) (h : v.normsq = 0) :
    v = psow.vec3.mk 0 0 0 := by
  by_contra hne
  exact (normsq_pos_of_ne_zero v hne).ne' h

/-- For a ray whose direction is the zero vector, `a = 0`, `b = 0` and `D = 0`. -/
theorem coefs_of_zero_direction (s : psow.sphere K) (p : psow.vec3 K) :
    s.coef_a (psow.ray.mk p (psow.vec3.mk 0 0 0)) = 0
    ∧ s.coef_b (psow.ray.mk p (psow.vec3.mk 0 0 0)) = 0
    ∧ s.discr (psow.ray.mk p (psow.vec3.mk 0 0 0)) = 0 := by
  simp [psow.sphere.discr, psow.sphere.coef_a, psow.sphere.coef_b, psow.vec3.normsq,
    psow.vec3.dot]

/-- Whenever `D ≤ 0` the test `sphere_is_hit` reports a miss. -/
theorem sphere_is_hit_false_of_discr_nonpos (sqrt : K → K) (r : psow.ray K) (s : sphere K)
    (hD : (psow.sphere.mk s.radius s.center).discr r ≤ 0) : sphere_is_hit sqrt r s = false := by
  rw [sphere_is_hit_eq_decide]
  simp only [decide_eq_false_iff_not, not_and]
  intro hpos
  exact absurd hpos (not_lt.mpr hD)

/-- The two hit tests return the same boolean on every input. -/
theorem hit_tests_agree (sqrt : K → K) (radius : K) (center : psow.vec3 K) (r : psow.ray K) :
    sphere_is_hit sqrt r (sphere.mk radius center)
      = (psow.sphere.mk radius center).intersects_ray sqrt r := by
  rcases r with ⟨p, v⟩
  by_cases ha : v.normsq = 0
  · have hv : v = psow.vec3.mk 0 0 0 := eq_zero_of_normsq_eq_zero v ha
    have hD := (coefs_of_zero_direction (psow.sphere.mk radius center) p).2.2
    rw [hv, sphere_is_hit_false_of_discr_nonpos sqrt _ (sphere.mk radius center) hD.le,
      intersects_ray_false_of_discr_nonpos sqrt _ _ hD.le]
  · have hpos : 0 < (psow.sphere.mk radius center).coef_a (psow.ray.mk p v) :=
      lt_of_le_of_ne (normsq_nonneg v) (Ne.symm ha)
    rw [sphere_is_hit_eq_decide, intersects_ray_eq_decide]
    congr 1
    apply propext
    constructor
    · rintro ⟨h1, h2⟩
      refine ⟨h1, ?_⟩
      have := (mul_pos_iff_of_pos_left hpos).mp h2
      linarith
    · rintro ⟨h1, h2⟩
      refine ⟨h1, ?_⟩
      apply mul_pos hpos
      linarith

end hit_lemmas

/-- C33, counterexample.  In `binary64` the two hit tests do not agree on every
input: for the unit sphere centred at the origin and the ray from its center
with direction `(0, 1e-120, 0)`, `intersects_ray` returns true, while the
product `a * (−b + √D)` underflows to `0` and `sphere_is_hit` returns false. -/
theorem zero_direction_is_miss_binary64 :
    (psow.sphere.mk (1 : binary64) (psow.vec3.mk 0 0 0)).intersects_ray binary64.sqrt
        (psow.ray.mk (psow.vec3.mk 0 0 0) (psow.vec3.mk 0 1e-120 0)) = true
    ∧ sphere_is_hit binary64.sqrt
        (psow.ray.mk (psow.vec3.mk 0 0 0) (psow.vec3.mk 0 1e-120 0))
        (sphere.mk (1 : binary64) (psow.vec3.mk 0 0 0)) = false
    ∧ sphere_is_hit binary64.sqrt
        (psow.ray.mk (psow.vec3.mk 0 0 0) (psow.vec3.mk 0 1e-120 0))
        (sphere.mk (1 : binary64) (psow.vec3.mk 0 0 0))
      ≠ (psow.sphere.mk (1 : binary64) (psow.vec3.mk 0 0 0)).intersects_ray binary64.sqrt
        (psow.ray.mk (psow.vec3.mk 0 0 0) (psow.vec3.mk 0 1e-120 0)) := by
  decide!

/-- In `binary64`, for a ray whose direction has three zero components, the
computed `a`, `b` and `D` are zeros or NaN, whatever the sphere and the origin
(infinite and NaN values included), so that no comparison finds `D` above zero
and both hit tests return false. -/
theorem zero_direction_returns_false_binary64 (radius : binary64) (center p v : psow.vec3 binary64)
    (hx : v.x.isZero = true) (hy : v.y.isZero = true) (hz : v.z.isZero = true) :
    (psow.sphere.mk radius center).intersects_ray binary64.sqrt (psow.ray.mk p v) = false
    ∧ sphere_is_hit binary64.sqrt (psow.ray.mk p v) (sphere.mk radius center) = false := by
  have zx := binary64.isZeroOrNaN_of_isZero _ hx
  have zy := binary64.isZeroOrNaN_of_isZero _ hy
  have zz := binary64.isZeroOrNaN_of_isZero _ hz
  have ha : ((psow.sphere.mk radius center).coef_a (psow.ray.mk p v)).isZeroOrNaN = true :=
    binary64.add_isZeroOrNaN _ _
      (binary64.add_isZeroOrNaN _ _ (binary64.mul_isZeroOrNaN_right _ _ zx)
        (binary64.mul_isZeroOrNaN_right _ _ zy))
      (binary64.mul_isZeroOrNaN_right _ _ zz)
  have hb : ((psow.sphere.mk radius center).coef_b (psow.ray.mk p v)).isZeroOrNaN = true :=
    binary64.mul_isZeroOrNaN_right _ _
      (binary64.add_isZeroOrNaN _ _
        (binary64.add_isZeroOrNaN _ _ (binary64.mul_isZeroOrNaN_right _ _ zx)
          (binary64.mul_isZeroOrNaN_right _ _ zy))
        (binary64.mul_isZeroOrNaN_right _ _ zz))
  have hD : ((psow.sphere.mk radius center).discr (psow.ray.mk p v)).isZeroOrNaN = true :=
    binary64.sub_isZeroOrNaN _ _ (binary64.mul_isZeroOrNaN_left _ _ hb)
      (binary64.mul_isZeroOrNaN_left _ _ (binary64.mul_isZeroOrNaN_right _ _ ha))
  have hnot := binary64.not_pos_of_isZeroOrNaN _ hD
  constructor
  · rw [intersects_ray_eq_decide]
    simp only [decide_eq_false_iff_not, not_and]
    intro hpos
    exact absurd hpos hnot
  · rw [sphere_is_hit_eq_decide]
    simp only [decide_eq_false_iff_not, not_and]
    intro hpos
    exact absurd hpos hnot

/-- C33, as amended.  For every sphere and every ray whose direction is the
zero vector, both `intersects_ray` and `sphere_is_hit` return false, wherever
the ray origin lies: in `binary64` (first part: the computed `D` is a zero or
a NaN), and over exact arithmetic, where `a = 0`, `b = 0` and `D = 0`.  Over
exact arithmetic the two hit tests hence agree on every input, not only when
`a > 0`; this holds over any ordered field of scalars and for any square-root
routine. -/
theorem zero_direction_is_miss :
    (∀ (radius : binary64) (center p v : psow.vec3 binary64),
        v.x.isZero = true → v.y.isZero = true → v.z.isZero = true →
        (psow.sphere.mk radius center).intersects_ray binary64.sqrt (psow.ray.mk p v) = false
        ∧ sphere_is_hit binary64.sqrt (psow.ray.mk p v) (sphere.mk radius center) = false)
    ∧ (∀ (K : Type) [LinearOrderedField K] (sqrt : K → K),
        (∀ (radius : K) (center p : psow.vec3 K),
          (psow.sphere.mk radius center).coef_a (psow.ray.mk p (psow.vec3.mk 0 0 0)) = 0
          ∧ (psow.sphere.mk radius center).coef_b (psow.ray.mk p (psow.vec3.mk 0 0 0)) = 0
          ∧ (psow.sphere.mk radius center).discr (psow.ray.mk p (psow.vec3.mk 0 0 0)) = 0
          ∧ (psow.sphere.mk radius center).intersects_ray sqrt
              (psow.ray.mk p (psow.vec3.mk 0 0 0)) = false
          ∧ sphere_is_hit sqrt (psow.ray.mk p (psow.vec3.mk 0 0 0))
              (sphere.mk radius center) = false)
        ∧ (∀ (radius : K) (center : psow.vec3 K) (r : psow.ray K),
          sphere_is_hit sqrt r (sphere.mk radius center)
            = (psow.sphere.mk radius center).intersects_ray sqrt r)) := by
  refine ⟨fun radius center p v hx hy hz =>
    zero_direction_returns_false_binary64 radius center p v hx hy hz, fun K _ sqrt => ?_⟩
  refine ⟨fun radius center p => ?_, fun radius center r => hit_tests_agree sqrt radius center r⟩
  obtain ⟨ha, hb, hD⟩ := coefs_of_zero_direction (psow.sphere.mk radius center) p
  exact ⟨ha, hb, hD, intersects_ray_false_of_discr_nonpos sqrt _ _ hD.le,
    sphere_is_hit_false_of_discr_nonpos sqrt _ (sphere.mk radius center) hD.le⟩

/-- Witness for the amended C33: in `binary64`, the unit sphere centred at the
origin and the ray from `(0.5, 0, 0)`, inside the sphere, with direction
`(0, −0, 0)`. -/
theorem zero_direction_is_miss_witness :
    (psow.sphere.mk (1 : binary64) (psow.vec3.mk 0 0 0)).intersects_ray binary64.sqrt
        (psow.ray.mk (psow.vec3.mk 0.5 0 0) (psow.vec3.mk 0 (-0) 0)) = false
    ∧ sphere_is_hit binary64.sqrt
        (psow.ray.mk (psow.vec3.mk 0.5 0 0) (psow.vec3.mk 0 (-0) 0))
        (sphere.mk (1 : binary64) (psow.vec3.mk 0 0 0)) = false :=
  zero_direction_is_miss.1 1 (psow.vec3.mk 0 0 0) (psow.vec3.mk 0.5 0 0)
    (psow.vec3.mk 0 (-0) 0) (by decide!) (by decide!) (by decide!)

/-- Scaling the direction by `k` scales `b` by `k` and `D` by `k²`. -/
theorem coefs_of_scaled_direction {K : Type} [LinearOrderedField K] (s : psow.sphere K)
    (p v : psow.vec3 K) (k : K) :
    s.coef_b (psow.ray.mk p (v.smul k)) = k * s.coef_b (psow.ray.mk p v)
    ∧ s.discr (psow.ray.mk p (v.smul k)) = k * k * s.discr (psow.ray.mk p v) := by
  simp only [psow.sphere.discr, psow.sphere.coef_a, psow.sphere.coef_b, psow.sphere.coef_c,
    psow.sphere.oc, psow.vec3.normsq, psow.vec3.dot, psow.vec3.smul]
  constructor <;> ring

/-- C34, counterexample.  In `binary64`, for the unit sphere centred at the
origin, the ray from its center with direction `v = (1, 0, 0)` and the factor
`k = 1e-170 > 0`: `intersects_ray` returns true on `(p, v)` and false on
`(p, v * k)`, because the squared norm of `v * k` underflows to `0`. -/
theorem intersects_ray_scale_invariant_binary64 :
    (0 : binary64) < 1e-170
    ∧ (psow.sphere.mk (1 : binary64) (psow.vec3.mk 0 0 0)).intersects_ray binary64.sqrt
        (psow.ray.mk (psow.vec3.mk 0 0 0) (psow.vec3.mk 1 0 0)) = true
    ∧ ((psow.vec3.mk (1 : binary64) 0 0).smul 1e-170).normsq = 0
    ∧ (psow.sphere.mk (1 : binary64) (psow.vec3.mk 0 0 0)).intersects_ray binary64.sqrt
        (psow.ray.mk (psow.vec3.mk 0 0 0) ((psow.vec3.mk 1 0 0).smul 1e-170)) = false := by
  decide!

/-- C34, as amended.  Over exact real arithmetic, the hit test depends only on
the orientation of the direction, not on its length: for every sphere, every
ray `(p, v)` and every `k > 0`, `intersects_ray` on the ray `(p, k·v)` returns
the same boolean as on the ray `(p, v)`. -/
theorem intersects_ray_scale_invariant (s : psow.sphere ℝ) (p v : psow.vec3 ℝ) (k : ℝ)
    (hk : 0 < k) :
    s.intersects_ray Real.sqrt (psow.ray.mk p (v.smul k))
      = s.intersects_ray Real.sqrt (psow.ray.mk p v) := by
  obtain ⟨hb, hD⟩ := coefs_of_scaled_direction s p v k
  have hkk : 0 < k * k := mul_pos hk hk
  have hsqrt : Real.sqrt (k * k * s.discr (psow.ray.mk p v))
      = k * Real.sqrt (s.discr (psow.ray.mk p v)) := by
    rw [Real.sqrt_mul hkk.le, Real.sqrt_mul_self hk.le]
  rw [intersects_ray_eq_decide, intersects_ray_eq_decide, hb, hD, hsqrt]
  congr 1
  apply propext
  have hfac : k * Real.sqrt (s.discr (psow.ray.mk p v)) - k * s.coef_b (psow.ray.mk p v)
      = k * (Real.sqrt (s.discr (psow.ray.mk p v)) - s.coef_b (psow.ray.mk p v)) := by ring
  rw [hfac, mul_pos_iff_of_pos_left hkk, mul_pos_iff_of_pos_left hk]

/-- Witness for the amended C34: the reference sphere, the ray from the origin
towards `(0, 0, −1)`, and the factor `3`. -/
theorem intersects_ray_scale_invariant_witness :
    (psow.sphere.mk (1 / 2 : ℝ) (psow.vec3.mk 0 0 (-1))).intersects_ray Real.sqrt
        (psow.ray.mk (psow.vec3.mk 0 0 0) ((psow.vec3.mk 0 0 (-1)).smul 3))
      = (psow.sphere.mk (1 / 2 : ℝ) (psow.vec3.mk 0 0 (-1))).intersects_ray Real.sqrt
        (psow.ray.mk (psow.vec3.mk 0 0 0) (psow.vec3.mk 0 0 (-1))) :=
  intersects_ray_scale_invariant _ _ _ 3 (by norm_num)

/-- C37, counterexample.  In `binary64`, for the reference scene and the
direction `(0.5636562191028617, 0.125, −1)`: `x² + y² < 1/3` holds of the
exact values of these doubles, but the computed `D` is `0` and
`intersects_ray` reports a miss. -/
theorem reference_scene_hit_iff_binary64 :
    binary64.toRat 0.5636562191028617 ^ 2 + binary64.toRat 0.125 ^ 2 < 1 / 3
    ∧ (example_ray_and_sphere.s : psow.sphere binary64).discr
        (psow.ray.mk origin (psow.vec3.mk 0.5636562191028617 0.125 (-1))) = 0
    ∧ (example_ray_and_sphere.s : psow.sphere binary64).intersects_ray binary64.sqrt
        (psow.ray.mk origin (psow.vec3.mk 0.5636562191028617 0.125 (-1))) = false := by
  decide!

/-- C37, as amended.  Over exact real arithmetic, for the reference scene of
`example_ray_and_sphere.cpp` (sphere of radius `0.5` centred at `(0, 0, −1)`,
ray origin `(0, 0, 0)`), a camera ray with direction `(x, y, −1)` is reported
as a hit by `intersects_ray` if and only if `x² + y² < 1/3`. -/
theorem reference_scene_hit_iff (x y : ℝ) :
    ((example_ray_and_sphere.s : psow.sphere ℝ) = psow.sphere.mk 0.5 (psow.vec3.mk 0 0 (-1))
      ∧ (origin : psow.vec3 ℝ) = psow.vec3.mk 0 0 0)
    ∧ ((example_ray_and_sphere.s : psow.sphere ℝ).intersects_ray Real.sqrt
          (psow.ray.mk origin (psow.vec3.mk x y (-1))) = true
        ↔ x ^ 2 + y ^ 2 < 1 / 3) := by
  refine ⟨⟨rfl, rfl⟩, ?_⟩
  rw [reference_sphere_hit_iff, pow_two, pow_two]

/-- C38. The C and the C++ color operations are the same functions: for all
colors `c1`, `c2` and every factor `a`, `psow_color_add (c1, c2)` has the
channels of the C++ `c1 + c2`, and `psow_color_scale (c1, a)` those of the C++
`c1 * a`. -/
theorem c_and_cpp_color_agree {K : Type} [LinearOrderedField K] [FloorRing K]
    (w : Nat) (c1 c2 : psow.color) (a : K) :
    ((psow_color_add w (psow_color.mk c1.red c1.green c1.blue)
          (psow_color.mk c2.red c2.green c2.blue)).red = (c1.add w c2).red
      ∧ (psow_color_add w (psow_color.mk c1.red c1.green c1.blue)
          (psow_color.mk c2.red c2.green c2.blue)).green = (c1.add w c2).green
      ∧ (psow_color_add w (psow_color.mk c1.red c1.green c1.blue)
          (psow_color.mk c2.red c2.green c2.blue)).blue = (c1.add w c2).blue)
    ∧ ((psow_color_scale (psow_color.mk c1.red c1.green c1.blue) a).red = (c1.scale a).red
      ∧ (psow_color_scale (psow_color.mk c1.red c1.green c1.blue) a).green
          = (c1.scale a).green
      ∧ (psow_color_scale (psow_color.mk c1.red c1.green c1.blue) a).blue
          = (c1.scale a).blue) := by
  refine ⟨?_, ⟨rfl, rfl, rfl⟩⟩
  simp only [psow_color_add, psow.color.add, uint_add, Nat.add_comm (to_uint w c1.red),
    Nat.add_comm (to_uint w c1.green), Nat.add_comm (to_uint w c1.blue), and_self]

/-! ## Theorems: the geometric meaning of the hit test -/

/-- The squared distance of `ray.point(t)` from the center, minus `radius²`, is
the quadratic `a t² + b t + c` of `intersects_ray`. -/
theorem inside_eq_quadratic {K : Type} [LinearOrderedField K] (s : psow.sphere K)
    (r : psow.ray K) (t : K) :
    ((r.point t).sub s.center).normsq - s.radius * s.radius
      = s.coef_a r * (t * t) + s.coef_b r * t + s.coef_c r := by
  simp only [psow.sphere.coef_a, psow.sphere.coef_b, psow.sphere.coef_c, psow.sphere.oc,
    psow.ray.point, psow.vec3.add, psow.vec3.smul, psow.vec3.sub, psow.vec3.normsq,
    psow.vec3.dot]
  ring

/-- For `a > 0`: the quadratic `a t² + b t + c` is negative at some `t > 0`
exactly when `D = b² − 4ac > 0` and `√D − b > 0`. -/
theorem quadratic_neg_iff (a b c : ℝ) (ha : 0 < a) :
    (0 < b * b - 4 * a * c ∧ 0 < Real.sqrt (b * b - 4 * a * c) - b)
      ↔ ∃ t : ℝ, 0 < t ∧ a * (t * t) + b * t + c < 0 := by
  constructor
  · rintro ⟨hD, hs⟩
    have hsq := Real.mul_self_sqrt hD.le
    have hspos : 0 < Real.sqrt (b * b - 4 * a * c) := Real.sqrt_pos.mpr hD
    have key : ∀ u : ℝ, 0 < u → -Real.sqrt (b * b - 4 * a * c) - b < u
        → u < Real.sqrt (b * b - 4 * a * c) - b
        → ∃ t : ℝ, 0 < t ∧ a * (t * t) + b * t + c < 0 := by
      intro u hu0 hu1 hu2
      refine ⟨u / (2 * a), div_pos hu0 (by linarith), ?_⟩
      have hprod : 0 < (Real.sqrt (b * b - 4 * a * c) - (u + b))
          * (Real.sqrt (b * b - 4 * a * c) + (u + b)) :=
        mul_pos (by linarith) (by linarith)
      have h4 : 4 * a * (a * (u / (2 * a) * (u / (2 * a))) + b * (u / (2 * a)) + c)
          = (u + b) * (u + b) - (b * b - 4 * a * c) := by
        field_simp
        ring
      have hneg : 4 * a * (a * (u / (2 * a) * (u / (2 * a))) + b * (u / (2 * a)) + c) < 0 := by
        rw [h4]
        nlinarith
      by_contra hcon
      push_neg at hcon
      have : 0 ≤ 4 * a * (a * (u / (2 * a) * (u / (2 * a))) + b * (u / (2 * a)) + c) :=
        mul_nonneg (by linarith) hcon
      linarith
    by_cases hcase : -Real.sqrt (b * b - 4 * a * c) - b ≤ 0
    · exact key ((Real.sqrt (b * b - 4 * a * c) - b) / 2) (by linarith) (by linarith)
        (by linarith)
    · push_neg at hcase
      exact key (-b) (by linarith) (by linarith) (by linarith)
  · rintro ⟨t, ht, hf⟩
    have h4 : 4 * a * (a * (t * t) + b * t + c)
        = (2 * a * t + b) * (2 * a * t + b) - (b * b - 4 * a * c) := by ring
    have hneg : 4 * a * (a * (t * t) + b * t + c) < 0 :=
      mul_neg_of_pos_of_neg (by linarith) hf
    have hlt : (2 * a * t + b) * (2 * a * t + b) < b * b - 4 * a * c := by linarith
    have hD : 0 < b * b - 4 * a * c := lt_of_le_of_lt (mul_self_nonneg _) hlt
    have hsq := Real.mul_self_sqrt hD.le
    have hs0 := Real.sqrt_nonneg (b * b - 4 * a * c)
    have hat : 0 < 2 * a * t := by positivity
    refine ⟨hD, ?_⟩
    by_contra hcon
    push_neg at hcon
    have hge : Real.sqrt (b * b - 4 * a * c) ≤ 2 * a * t + b := by linarith
    have := mul_self_le_mul_self hs0 hge
    linarith

/-- C32, counterexample.  In `binary64`, for the unit sphere centred at the
origin and the ray from `(0.5, 0, 0)`, inside the sphere, with direction
`(0, 1e-170, 0)`, a non-zero vector: the point at `t = 1` lies strictly inside
the sphere (of the exact values of these doubles), but the squared norm `a`
of the direction underflows to `0`, `D = 0`, and `intersects_ray` returns
false. -/
theorem intersects_ray_iff_exists_inside_binary64 :
    (0 : binary64) < 1e-170
    ∧ (((psow.ray.mk ((psow.vec3.mk (0.5 : binary64) 0 0).map binary64.toRat)
          ((psow.vec3.mk (0 : binary64) 1e-170 0).map binary64.toRat)).point 1).sub
        ((psow.vec3.mk (0 : binary64) 0 0).map binary64.toRat)).normsq
        < binary64.toRat 1 * binary64.toRat 1
    ∧ (psow.sphere.mk (1 : binary64) (psow.vec3.mk 0 0 0)).discr
        (psow.ray.mk (psow.vec3.mk 0.5 0 0) (psow.vec3.mk 0 1e-170 0)) = 0
    ∧ (psow.sphere.mk (1 : binary64) (psow.vec3.mk 0 0 0)).intersects_ray binary64.sqrt
        (psow.ray.mk (psow.vec3.mk 0.5 0 0) (psow.vec3.mk 0 1e-170 0)) = false := by
  decide!

/-- C32, as amended.  Geometric meaning of the hit test, over exact real
arithmetic: for every sphere and every ray with non-zero direction, `intersects_ray` returns true if and only
if some parameter `t > 0` has its point strictly inside the sphere,
`‖ray.point(t) − center‖² < radius²`.  Consequently a ray that touches the
sphere tangentially (`D = 0`) is a miss, a ray whose points inside or on the
sphere all have `t ≤ 0` is a miss, and a ray starting inside the sphere is a
hit. -/
theorem intersects_ray_iff_exists_inside (s : psow.sphere ℝ) (r : psow.ray ℝ)
    (hdir : r.v ≠ psow.vec3.mk 0 0 0) :
    (s.intersects_ray Real.sqrt r = true
        ↔ ∃ t : ℝ, 0 < t ∧ ((r.point t).sub s.center).normsq < s.radius * s.radius)
    ∧ (s.discr r = 0 → s.intersects_ray Real.sqrt r = false)
    ∧ ((∀ t : ℝ, ((r.point t).sub s.center).normsq ≤ s.radius * s.radius → t ≤ 0)
        → s.intersects_ray Real.sqrt r = false)
    ∧ ((r.p.sub s.center).normsq < s.radius * s.radius
        → s.intersects_ray Real.sqrt r = true) := by
  have ha : 0 < s.coef_a r := normsq_pos_of_ne_zero r.v hdir
  have hiff : s.intersects_ray Real.sqrt r = true
      ↔ ∃ t : ℝ, 0 < t ∧ ((r.point t).sub s.center).normsq < s.radius * s.radius := by
    rw [intersects_ray_eq_decide, decide_eq_true_eq]
    have hq := quadratic_neg_iff (s.coef_a r) (s.coef_b r) (s.coef_c r) ha
    have hD : s.discr r = s.coef_b r * s.coef_b r - 4 * s.coef_a r * s.coef_c r := rfl
    rw [hD, hq]
    constructor
    · rintro ⟨t, ht, hf⟩
      refine ⟨t, ht, ?_⟩
      have := inside_eq_quadratic s r t
      linarith
    · rintro ⟨t, ht, hf⟩
      refine ⟨t, ht, ?_⟩
      have := inside_eq_quadratic s r t
      linarith
  refine ⟨hiff, ?_, ?_, ?_⟩
  · intro hD
    exact intersects_ray_false_of_discr_nonpos Real.sqrt s r hD.le
  · intro hbehind
    rw [← Bool.not_eq_true, hiff]
    rintro ⟨t, ht, hf⟩
    have := hbehind t hf.le
    linarith
  · intro hin
    have hc : s.coef_c r < 0 := by
      unfold psow.sphere.coef_c psow.sphere.oc
      linarith
    have hD : 0 < s.discr r := by
      unfold psow.sphere.discr
      nlinarith [mul_self_nonneg (s.coef_b r), mul_pos ha (neg_pos.mpr hc)]
    rw [intersects_ray_eq_decide, decide_eq_true_eq]
    refine ⟨hD, ?_⟩
    have hsq := Real.mul_self_sqrt hD.le
    have hs0 := Real.sqrt_pos.mpr hD
    by_contra hcon
    push_neg at hcon
    have hge : Real.sqrt (s.discr r) ≤ s.coef_b r := by linarith
    have hmul := mul_self_le_mul_self hs0.le hge
    rw [hsq] at hmul
    unfold psow.sphere.discr at hmul
    nlinarith [mul_pos ha (neg_pos.mpr hc)]

/-- Witness for the amended C32: the unit sphere at the origin and the ray from
`(−2, 0, 0)` along the x axis, which is inside the sphere at `t = 2`. -/
theorem intersects_ray_iff_exists_inside_witness :
    (psow.sphere.mk (1 : ℝ) (psow.vec3.mk 0 0 0)).intersects_ray Real.sqrt
        (psow.ray.mk (psow.vec3.mk (-2) 0 0) (psow.vec3.mk 1 0 0)) = true
      ↔ ∃ t : ℝ, 0 < t
          ∧ (((psow.ray.mk (psow.vec3.mk (-2 : ℝ) 0 0) (psow.vec3.mk 1 0 0)).point t).sub
              (psow.sphere.mk (1 : ℝ) (psow.vec3.mk 0 0 0)).center).normsq
            < (psow.sphere.mk (1 : ℝ) (psow.vec3.mk 0 0 0)).radius
              * (psow.sphere.mk (1 : ℝ) (psow.vec3.mk 0 0 0)).radius :=
  (intersects_ray_iff_exists_inside (psow.sphere.mk 1 (psow.vec3.mk 0 0 0))
    (psow.ray.mk (psow.vec3.mk (-2) 0 0) (psow.vec3.mk 1 0 0)) (by simp)).1

/-! ## Theorems: the camera ray -/

/-- A vector with z component `−1` is not the zero vector and has norm at
least `1`, over the reals. -/
theorem norm_ge_one_of_z (x y : ℝ) :
    psow.vec3.mk x y (-1) ≠ psow.vec3.mk 0 0 0
    ∧ 1 ≤ (psow.vec3.mk x y (-1)).norm Real.sqrt
    ∧ (psow.vec3.mk x y (-1)).norm Real.sqrt ≠ 0 := by
  have h1 : 1 ≤ (psow.vec3.mk x y (-1)).norm Real.sqrt := by
    unfold psow.vec3.norm
    simp only
    have hS : 1 ≤ x * x + y * y + (-1) * (-1) := by
      nlinarith [mul_self_nonneg x, mul_self_nonneg y]
    have hsq := Real.mul_self_sqrt (le_trans zero_le_one hS)
    have hs0 := Real.sqrt_nonneg (x * x + y * y + (-1) * (-1))
    by_contra hcon
    push_neg at hcon
    nlinarith
  refine ⟨?_, h1, ?_⟩
  · intro h
    have hz := congrArg psow.vec3.z h
    simp only at hz
    norm_num at hz
  · linarith

/-- C35. For the reference camera (origin `0`, horizontal `(32/9, 0, 0)`,
vertical `(0, 2, 0)`, focal length `1`) and all real `u`, `v`, the camera ray
direction, in the operand order of `example_ray_and_sphere.cpp` and in that of
`ray_struct_with_sphere.cpp`, equals `((32/9)(u − 1/2), 2(v − 1/2), −1)`.  Its
z component is `−1`, so it is never the zero vector and its norm is at least
`1`: for every pixel of the render loop the norm by which `unit()` divides in
`sky_gradient` is not zero. -/
theorem camera_direction_never_zero :
    (∀ u v : ℝ,
        (((horizontal.smul u).add (vertical.smul v)).add
            (example_ray_and_sphere.lower_left_corner origin horizontal vertical
              focal_point)).sub origin
          = psow.vec3.mk (32 / 9 * (u - 1 / 2)) (2 * (v - 1 / 2)) (-1)
        ∧ (((ray_struct_with_sphere.lower_left_corner origin horizontal vertical
              focal_length).add (horizontal.smul u)).add (vertical.smul v)).sub origin
          = psow.vec3.mk (32 / 9 * (u - 1 / 2)) (2 * (v - 1 / 2)) (-1)
        ∧ psow.vec3.mk (32 / 9 * (u - 1 / 2)) (2 * (v - 1 / 2)) (-1 : ℝ) ≠ psow.vec3.mk 0 0 0
        ∧ 1 ≤ (psow.vec3.mk (32 / 9 * (u - 1 / 2)) (2 * (v - 1 / 2)) (-1 : ℝ)).norm Real.sqrt)
    ∧ (∀ W H m n : Nat,
        (example_ray_and_sphere.direction W H m n : psow.vec3 ℝ)
          = psow.vec3.mk (32 / 9 * (coord_u W n - 1 / 2)) (2 * (coord_v H m - 1 / 2)) (-1)
        ∧ (example_ray_and_sphere.direction W H m n : psow.vec3 ℝ).z = -1
        ∧ (example_ray_and_sphere.direction W H m n : psow.vec3 ℝ) ≠ psow.vec3.mk 0 0 0
        ∧ 1 ≤ (example_ray_and_sphere.direction W H m n : psow.vec3 ℝ).norm Real.sqrt
        ∧ (example_ray_and_sphere.direction W H m n : psow.vec3 ℝ).norm Real.sqrt ≠ 0) := by
  have hgen : ∀ u v : ℝ,
      (((horizontal.smul u).add (vertical.smul v)).add
          (example_ray_and_sphere.lower_left_corner origin horizontal vertical
            focal_point)).sub origin
        = psow.vec3.mk (32 / 9 * (u - 1 / 2)) (2 * (v - 1 / 2)) (-1) := by
    intro u v
    simp only [example_ray_and_sphere.lower_left_corner, psow.vec3.sub, psow.vec3.smul,
      psow.vec3.lsmul, psow.vec3.add, origin, horizontal, vertical, focal_point,
      viewport_width, viewport_height, aspect_ratio, focal_length, psow.vec3.mk.injEq]
    refine ⟨?_, ?_, ?_⟩ <;> ring
  constructor
  · intro u v
    refine ⟨hgen u v, ?_, (norm_ge_one_of_z _ _).1, (norm_ge_one_of_z _ _).2.1⟩
    simp only [ray_struct_with_sphere.lower_left_corner, psow.vec3.sub, psow.vec3.smul,
      psow.vec3.add, origin, horizontal, vertical,
      viewport_width, viewport_height, aspect_ratio, focal_length, psow.vec3.mk.injEq]
    refine ⟨?_, ?_, ?_⟩ <;> ring
  · intro W H m n
    have hd : (example_ray_and_sphere.direction W H m n : psow.vec3 ℝ)
        = psow.vec3.mk (32 / 9 * (coord_u W n - 1 / 2)) (2 * (coord_v H m - 1 / 2)) (-1) :=
      hgen (coord_u W n) (coord_v H m)
    rw [hd]
    exact ⟨rfl, rfl, (norm_ge_one_of_z _ _).1, (norm_ge_one_of_z _ _).2.1,
      (norm_ge_one_of_z _ _).2.2⟩

/-! ## Theorems: the colour demos -/

section demo_lemmas

variable {K : Type} [LinearOrderedField K] [FloorRing K]

/-- The constant `blue` of the C demo is `(0, 0, 64)`. -/
theorem demo_blue_eq : color_struct_example_c.blue K = psow_color.mk 0 0 64 := by
  have h0 : (64 : K) * ((0 : Nat) : K) = ((0 : Nat) : K) := by norm_num
  have h64 : (64 : K) * ((1 : Nat) : K) = ((64 : Nat) : K) := by norm_num
  unfold color_struct_example_c.blue color_struct_example_c.dark_blue psow_color_scale
  simp only [h0, h64, double_to_uchar_natCast]

/-- The pixel of the C demo is `(r, g, 64)`: adding `blue` leaves the red and
the green channel as they are. -/
theorem demo_pixel_c_eq (w : Nat) (hw : 16 ≤ w) (x y : Nat) :
    color_struct_example_c.pixel K w x y
      = psow_color.mk (double_to_uchar ((x : K) * color_struct_example_c.factor))
          (double_to_uchar ((y : K) * color_struct_example_c.factor)) 64 := by
  have hr := double_to_uchar_lt ((x : K) * color_struct_example_c.factor)
  have hg := double_to_uchar_lt ((y : K) * color_struct_example_c.factor)
  unfold color_struct_example_c.pixel psow_color_create
  simp only [demo_blue_eq]
  rw [psow_color_add_channels w hw
    (psow_color.mk (double_to_uchar ((x : K) * color_struct_example_c.factor))
      (double_to_uchar ((y : K) * color_struct_example_c.factor)) 0)
    (psow_color.mk 0 0 64) hr hg (show (0 : Nat) < 256 by decide)
    (show (0 : Nat) < 256 by decide) (show (0 : Nat) < 256 by decide)
    (show (64 : Nat) < 256 by decide)]
  simp only [psow_color.mk.injEq]
  omega

/-- For `x` below `1024` the channel `static_cast<unsigned char>(x * factor)` is
`⌊255 x / 1023⌋`, at most `255`: the narrowing does not wrap. -/
theorem demo_channel_floor (x : Nat) (hx : x < 1024) :
    double_to_uchar ((x : K) * color_struct_example_c.factor)
        = ⌊(255 * (x : K) / 1023)⌋.toNat
    ∧ ⌊(255 * (x : K) / 1023)⌋.toNat ≤ 255 := by
  have hfac : (x : K) * color_struct_example_c.factor = 255 * (x : K) / 1023 := by
    unfold color_struct_example_c.factor color_struct_example_c.size
    norm_num
    ring
  have hx0 : (0 : K) ≤ (x : K) := Nat.cast_nonneg x
  have hx1 : (x : K) ≤ 1023 := by
    have h : x ≤ 1023 := by omega
    exact_mod_cast h
  have h0 : (0 : K) ≤ 255 * (x : K) / 1023 := by positivity
  have h1 : 255 * (x : K) / 1023 < 256 := by
    rw [div_lt_iff₀ (by norm_num)]
    linarith
  rw [hfac]
  refine ⟨(double_to_uchar_of_range _ h0 h1).2, ?_⟩
  have hlt : ⌊(255 * (x : K) / 1023)⌋ < 256 := by
    rw [Int.floor_lt]
    exact_mod_cast h1
  omega

end demo_lemmas

/-- C39. The C and the C++ colour demos emit identical pixels: for all `x`, `y`
below `1024`, with `r = ⌊255 x / 1023⌋` and `g = ⌊255 y / 1023⌋`, both at most
`255`, the C pixel `psow_color_add (psow_color_create (r, g, 0), blue)` with
`blue = psow_color_scale ((0, 0, 1), 64.0)` has the channels of the C++ pixel
`color (r, g, 64)`; and the two programs write the same bytes. -/
theorem colour_demos_agree {K : Type} [LinearOrderedField K] [FloorRing K]
    (w : Nat) (hw : 16 ≤ w) :
    (∀ x y : Nat, x < 1024 → y < 1024 →
        color_struct_example_cpp.pixel K x y
          = psow.color.mk ⌊(255 * (x : K) / 1023)⌋.toNat ⌊(255 * (y : K) / 1023)⌋.toNat 64
        ∧ ⌊(255 * (x : K) / 1023)⌋.toNat ≤ 255
        ∧ ⌊(255 * (y : K) / 1023)⌋.toNat ≤ 255
        ∧ color_struct_example_c.pixel K w x y
          = psow_color_add w
              (psow_color_create ⌊(255 * (x : K) / 1023)⌋.toNat
                ⌊(255 * (y : K) / 1023)⌋.toNat 0)
              (psow_color_scale (psow_color.mk 0 0 1) (64 : K))
        ∧ (color_struct_example_c.pixel K w x y).red
          = (color_struct_example_cpp.pixel K x y).red
        ∧ (color_struct_example_c.pixel K w x y).green
          = (color_struct_example_cpp.pixel K x y).green
        ∧ (color_struct_example_c.pixel K w x y).blue
          = (color_struct_example_cpp.pixel K x y).blue)
    ∧ (∀ fopen : Option FILE,
        color_struct_example_c.main K w fopen = color_struct_example_cpp.main K fopen) := by
  constructor
  · intro x y hx hy
    obtain ⟨hxr, hxle⟩ := @demo_channel_floor K _ _ x hx
    obtain ⟨hyr, hyle⟩ := @demo_channel_floor K _ _ y hy
    have hc := @demo_pixel_c_eq K _ _ w hw x y
    have hcpp : color_struct_example_cpp.pixel K x y
        = psow.color.mk ⌊(255 * (x : K) / 1023)⌋.toNat ⌊(255 * (y : K) / 1023)⌋.toNat 64 := by
      unfold color_struct_example_cpp.pixel
      have hf : (color_struct_example_cpp.factor : K) = color_struct_example_c.factor := rfl
      simp only [hf, hxr, hyr]
    refine ⟨hcpp, hxle, hyle, ?_, ?_, ?_, ?_⟩
    · unfold color_struct_example_c.pixel
      simp only [hxr, hyr]
      rfl
    · rw [hc, hcpp, hxr]
    · rw [hc, hcpp, hyr]
    · rw [hc, hcpp]
  · intro fopen
    have hbody : ∀ (x y : Nat) (fp : FILE),
        psow_color_write (color_struct_example_c.pixel K w x y) fp
          = (color_struct_example_cpp.pixel K x y).write fp := by
      intro x y fp
      rw [demo_pixel_c_eq w hw x y, psow_color_write_eq, color_write_eq]
      rfl
    cases fopen with
    | none => rfl
    | some fp =>
      unfold color_struct_example_c.main color_struct_example_cpp.main
      simp only [hbody]
      rfl

/-- Witness for C39: over `ℝ` with a 32-bit `unsigned int`, the two programs
write the same bytes to a fresh file, and the pixel of `x = 1023`, `y = 0` has
the same red channel in both. -/
theorem colour_demos_agree_witness :
    color_struct_example_c.main ℝ 32 (some []) = color_struct_example_cpp.main ℝ (some [])
    ∧ (color_struct_example_c.pixel ℝ 32 1023 0).red
        = (color_struct_example_cpp.pixel ℝ 1023 0).red :=
  ⟨(@colour_demos_agree ℝ _ _ 32 (by decide)).2 (some []),
    ((@colour_demos_agree ℝ _ _ 32 (by decide)).1 1023 0 (by decide) (by decide)).2.2.2.2.1⟩

/-! ## Theorems: the runs of the programs in `binary64`

The statements about concrete runs that the sections above prove in exact
arithmetic, evaluated in the `binary64` arithmetic of the programs. -/

/-- In `binary64` the three programs compute the same `lower_left_corner`,
`(−1.7777777777777777, −1, −1)`, where `1.7777777777777777` is the double
`16.0 / 9.0`. -/
theorem lower_left_corner_binary64 :
    (example_ray.lower_left_corner origin horizontal vertical focal_point
        : psow.vec3 binary64) = psow.vec3.mk (-1.7777777777777777) (-1) (-1)
    ∧ (example_ray_and_sphere.lower_left_corner origin horizontal vertical focal_point
        : psow.vec3 binary64) = psow.vec3.mk (-1.7777777777777777) (-1) (-1)
    ∧ (ray_struct_with_sphere.lower_left_corner origin horizontal vertical focal_length
        : psow.vec3 binary64) = psow.vec3.mk (-1.7777777777777777) (-1) (-1)
    ∧ (16 : binary64) / 9 = 1.7777777777777777 := by
  decide!

/-- In `binary64`, in the program's own run (`image_height = 1080`), the first
row `m = 1080` has `v = 1.0009267840593141`, above `1`. -/
theorem coord_v_first_row_binary64 :
    (coord_v 1080 1080 : binary64) = 1.0009267840593141
    ∧ (1 : binary64) < coord_v 1080 1080 := by
  decide!

/-- In `binary64`, for every channel `c` of an `unsigned char`, the products
`1.0 * c` and `0.0 * c` are exact and are converted to `c` and to `0`. -/
theorem color_scale_one_zero_binary64 :
    ∀ c : Nat, c < 256 →
      double_to_uchar ((1 : binary64) * (c : binary64)) = c
      ∧ double_to_uchar ((0 : binary64) * (c : binary64)) = 0 := by
  decide!

/-- In `binary64`, the four pixels of the `2 × 2` render of `example_ray.cpp`:
`(20, 116, 252)` in the row `m = 2` and `(70, 144, 252)` in the row `m = 1`;
in each the blue channel is the largest.  The doubled channels exceed `255`;
their bytes are those of the conversion that `binary64.to_uchar` describes. -/
theorem sky_pixels_two_by_two_binary64 :
    example_ray.pixel 32 binary64.sqrt 2 2 2 0 = psow.color.mk 20 116 252
    ∧ example_ray.pixel 32 binary64.sqrt 2 2 2 1 = psow.color.mk 20 116 252
    ∧ example_ray.pixel 32 binary64.sqrt 2 2 1 0 = psow.color.mk 70 144 252
    ∧ example_ray.pixel 32 binary64.sqrt 2 2 1 1 = psow.color.mk 70 144 252 := by
  decide!

/-- In `binary64`, the `2 × 2` render of `example_ray.cpp` to a fresh file: the
header `P6\n2 2\n255\n` and the twelve bytes of the four sky pixels.  The
doubled channels exceed `255`; their bytes are those of the conversion that
`binary64.to_uchar` describes. -/
theorem render_two_by_two_binary64 :
    example_ray.main 32 binary64.sqrt 2 2 (some [])
      = (0, [80, 54, 10, 50, 32, 50, 10, 50, 53, 53, 10,
          20, 116, 252, 20, 116, 252, 70, 144, 252, 70, 144, 252]) := by
  decide!
